import Mathlib

/-!
Verification development for the `lamp` log parser and deduplication engine.

The Go source (`parser.go`) is shallowly embedded:
* Go strings are modelled as `List Char` (named `Str`); byte lengths of the
  ASCII strings appearing in the claims coincide with character counts.
* Go `float64` arithmetic on similarity ratios is modelled with exact
  rationals (`ℚ`).  All values involved are ratios of small integers and all
  comparisons proved or evaluated here are far from rounding boundaries.
* Go maps used as sets (`map[int]bool`) are modelled as lists of marked
  indices; maps used as string association tables are modelled as
  association lists in insertion order.
* Fallible Go functions returning `(T, error)` are modelled as `Option`.
-/

namespace Lamp

abbrev Str := List Char

def str (s : String) : Str := s.data

/-- ASCII lower-casing of a character (`strings.ToLower` restricted to the
ASCII inputs this development evaluates). -/
def lowerChar (c : Char) : Char :=
  if 'A' ≤ c ∧ c ≤ 'Z' then Char.ofNat (c.toNat + 32) else c

/-- `strings.ToLower`. -/
def toLowerStr (s : Str) : Str := s.map lowerChar

/-- `strings.EqualFold` (ASCII model: equality after lower-casing). -/
def equalFold (a b : Str) : Bool := toLowerStr a = toLowerStr b

/-- `unicode.IsSpace` on the ASCII range (used by `strings.Fields` and
`strings.TrimSpace`). -/
def goIsSpace (c : Char) : Bool :=
  c = ' ' || c = '\t' || c = '\n' || c = '\x0b' || c = '\x0c' || c = '\r'

/-- `strings.TrimSpace`. -/
def trimSpaceStr (s : Str) : Str :=
  ((s.dropWhile goIsSpace).reverse.dropWhile goIsSpace).reverse

/-- One field-splitting step of `strings.Fields`: `cur` is the word collected
so far (in order). -/
def fieldsGo : Str → Str → List Str
  | [], cur => if cur = [] then [] else [cur]
  | c :: rest, cur =>
      if goIsSpace c then
        if cur = [] then fieldsGo rest [] else cur :: fieldsGo rest []
      else
        fieldsGo rest (cur ++ [c])

/-- `strings.Fields`: whitespace-separated words. -/
def goFields (s : Str) : List Str := fieldsGo s []

/-- `strings.Join(words, " ")`. -/
def joinSpace : List Str → Str
  | [] => []
  | [w] => w
  | w :: ws => w ++ ' ' :: joinSpace ws

/-- `strings.Contains(haystack, needle)`. -/
def containsStr (haystack needle : Str) : Bool := decide (needle <:+: haystack)

/-- `strings.HasPrefix`. -/
def startsWith (s p : Str) : Bool := decide (p <+: s)

/-- Splits `s` at the first occurrence of `sep`, dropping the separator:
`strings.SplitN(s, sep, 2)` when the separator occurs (`none` otherwise). -/
def splitOnFirst : Str → Str → Option (Str × Str)
  | [], sep => if sep = [] then some ([], []) else none
  | c :: rest, sep =>
      if startsWith (c :: rest) sep then some ([], (c :: rest).drop sep.length)
      else match splitOnFirst rest sep with
        | some (pre, post) => some (c :: pre, post)
        | none => none

/-- `strings.Trim(s, cutset)` for a single-character cutset. -/
def trimCharStr (s : Str) (c : Char) : Str :=
  ((s.dropWhile (· = c)).reverse.dropWhile (· = c)).reverse

/-! ## Levenshtein distance (`levenshteinDistance`, parser.go 770-836)

The source computes the classic two-row dynamic programme.  `levRowGo`
builds the current row `v1` from the previous row `v0` exactly as the inner
loop does; `levNextRow` seeds `v1[0] = i + 1`. -/

/-- Inner loop of the row update: walks the rest of `s2` together with the
tail of the previous row (`v0j :: v0j1 :: _` gives `v0[j]` and `v0[j+1]`),
carrying `v1j = v1[j]`. -/
def levRowGo (c1 : Char) : Str → List Nat → Nat → List Nat
  | c2 :: s2, v0j :: v0j1 :: v0rest, v1j =>
      let cost : Nat := if c1 = c2 then 0 else 1
      let v1j1 := min (v0j1 + 1) (min (v1j + 1) (v0j + cost))
      v1j1 :: levRowGo c1 s2 (v0j1 :: v0rest) v1j1
  | _, _, _ => []

/-- One outer-loop iteration: the new row for character `c1` of `s1`. -/
def levNextRow (c1 : Char) (s2 : Str) (v0 : List Nat) : List Nat :=
  let h := v0.headD 0 + 1
  h :: levRowGo c1 s2 v0 h

/-- `levenshteinDistance` (parser.go 770): empty-string fast paths, swap so
the first string is the shorter one, identical-string fast path, then the
two-row DP; the result is the last entry of the final row. -/
def levenshteinDistance (s1 s2 : Str) : Nat :=
  if s1.length = 0 then s2.length
  else if s2.length = 0 then s1.length
  else
    let p := if s1.length > s2.length then (s2, s1) else (s1, s2)
    if p.1 = p.2 then 0
    else
      (p.1.foldl (fun v0 c1 => levNextRow c1 p.2 v0)
        (List.range (p.2.length + 1))).getD p.2.length 0

/-- The DP matrix of the two-row computation as a recurrence: entry
`(i, j)` is the edit distance between the length-`i` prefix of `s` and the
length-`j` prefix of `t`.  The `min` expression mirrors the inner loop of
the source; used to state the correctness and symmetry of the rows. -/
def levD (s t : Str) : Nat → Nat → Nat
  | 0, j => j
  | i + 1, 0 => i + 1
  | i + 1, j + 1 =>
      min (levD s t i (j + 1) + 1)
        (min (levD s t (i + 1) j + 1)
          (levD s t i j + (if s.getD i ' ' = t.getD j ' ' then 0 else 1)))
termination_by i j => (i, j)

/-- `stringSimilarity` (parser.go 687): `1 - distance/maxLen`, with the
identical-string and empty-string fast paths; `float64` modelled as `ℚ`.
Rational values are written as single `mkRat` fractions so that the kernel
can evaluate them; `stringSimilarity_eq_one_sub` below proves the fraction
equal to the source's `1 - distance/maxLen`. -/
def stringSimilarity (s1 s2 : Str) : ℚ :=
  if s1 = s2 then mkRat 1 1
  else
    let a := toLowerStr s1
    let b := toLowerStr s2
    let distance := levenshteinDistance a b
    let maxLen := max a.length b.length
    if maxLen = 0 then mkRat 1 1
    else mkRat ((maxLen : Int) - (distance : Int)) maxLen

/-! ## Similarity scorer (`isSimilarMessage`, parser.go 708-766) -/

/-- `threshold * 0.8` (parser.go 761), written as one fraction;
`mulFourFifths_eq` below proves it equal to `threshold * (4/5)`. -/
def mulFourFifths (t : ℚ) : ℚ := mkRat (t.num * 4) (t.den * 5)

/-- `isSimilarMessage` (parser.go 708).  The Go literals `0.5`, `0.8` are the
exact rationals `1/2`, `4/5`; `msg1WordSet` (a `map[string]bool`) is the
deduplicated word list.  A ratio `a/b` of counts is written `mkRat a b`
(equal to the cast division, `mkRat_eq_cast_div` below). -/
def isSimilarMessage (msg1 msg2 : Str) (msg1Words : List Str) (threshold : ℚ) : Bool :=
  if msg1 = msg2 then true
  else
    let lenRatio : ℚ := mkRat (min msg1.length msg2.length : Nat) (max msg1.length msg2.length)
    if lenRatio > mkRat 1 2 then
      if containsStr msg1 msg2 || containsStr msg2 msg1 then true
      else
        let msg2Words := goFields msg2
        let wordLenRatio : ℚ :=
          mkRat (min msg1Words.length msg2Words.length : Nat)
            (max msg1Words.length msg2Words.length)
        if wordLenRatio < mkRat 1 2 then false
        else
          let msg1WordSet := msg1Words.dedup
          let commonWords := (msg2Words.filter (fun w => decide (w ∈ msg1WordSet))).length
          let totalWords := msg1WordSet.length + msg2Words.length - commonWords
          if totalWords = 0 then false
          else
            let jaccardSimilarity : ℚ := mkRat commonWords totalWords
            if jaccardSimilarity ≥ threshold then true
            else if jaccardSimilarity ≥ mulFourFifths threshold then
              decide (stringSimilarity msg1 msg2 ≥ threshold)
            else false
    else false

/-! ## Regular-expression engine

`normalizeLogMessage` applies a fixed list of precompiled Go regexps with
`ReplaceAllString`.  Go's `regexp` package (without `Longest()`) produces for
each starting position the match a Perl-style backtracking search would find
first, and `ReplaceAllString` rewrites the leftmost non-overlapping matches
scanning left to right.  The engine below implements exactly these semantics
for the construct subset used by `normalizePatterns`: character classes,
concatenation, alternation, greedy counted repetition (`{n}`, `{m,n}`, `?`,
`+`, `*`) and the word boundary `\b`. -/

/-- Regular-expression syntax.  `rept a lo hi` is greedy `a{lo,hi}`
(`hi = none` means unbounded); `+` is `rept a 1 none`, `*` is
`rept a 0 none`, `?` is `rept a 0 (some 1)`. -/
inductive RE where
  | cls (p : Char → Bool)
  | cat (a b : RE)
  | alt (a b : RE)
  | rept (a : RE) (lo : Nat) (hi : Option Nat)
  | wordB

/-- Word characters for `\b` in Go regexps: `[0-9A-Za-z_]`. -/
def isWordCh (c : Char) : Bool :=
  ('a' ≤ c && c ≤ 'z') || ('A' ≤ c && c ≤ 'Z') || ('0' ≤ c && c ≤ '9') || c = '_'

/-- All ways a pattern can match a prefix of `s`, in backtracking preference
order (greedy repetitions first).  Each result records the character
immediately before the remaining input (needed to evaluate later `\b`
assertions) and the remaining input.  `fuel` bounds repetition unfolding;
an unbounded repetition only iterates on strict consumption, which matches
the behaviour of Go's engine on the patterns used here (all repetition
bodies consume at least one character when they succeed). -/
def reMatch : Nat → RE → Option Char → Str → List (Option Char × Str)
  | 0, _, _, _ => []
  | fuel + 1, re, prev, s =>
      match re with
      | RE.cls p =>
          match s with
          | [] => []
          | c :: rest => if p c then [(some c, rest)] else []
      | RE.cat a b =>
          (reMatch fuel a prev s).flatMap fun pr => reMatch fuel b pr.1 pr.2
      | RE.alt a b => reMatch fuel a prev s ++ reMatch fuel b prev s
      | RE.wordB =>
          let l := match prev with | none => false | some c => isWordCh c
          let r := match s with | [] => false | c :: _ => isWordCh c
          if l ≠ r then [(prev, s)] else []
      | RE.rept a lo hi =>
          match lo, hi with
          | 0, some 0 => [(prev, s)]
          | 0, _ =>
              ((reMatch fuel a prev s).flatMap fun pr =>
                if pr.2.length < s.length then
                  reMatch fuel (RE.rept a 0 (hi.map (· - 1))) pr.1 pr.2
                else []) ++ [(prev, s)]
          | lo' + 1, _ =>
              (reMatch fuel a prev s).flatMap fun pr =>
                reMatch fuel (RE.rept a lo' (hi.map (· - 1))) pr.1 pr.2

/-- `ReplaceAllString` scan: at each position try the pattern (leftmost,
backtracking-first); on a non-empty match emit the replacement and continue
after the matched text, otherwise emit one character and advance.  `prev` is
the original character preceding the current position (word boundaries are
judged against the original text, as in Go). -/
def raGo (re : RE) (repl : Str) : Nat → Option Char → Str → Str
  | 0, _, s => s
  | fuel + 1, prev, s =>
      match (reMatch ((s.length + 80) * 80) re prev s).head? with
      | some (pc, rest) =>
          if rest.length < s.length then repl ++ raGo re repl fuel pc rest
          else
            match s with
            | [] => repl
            | c :: cs => repl ++ c :: raGo re repl fuel (some c) cs
      | none =>
          match s with
          | [] => []
          | c :: cs => c :: raGo re repl fuel (some c) cs

/-- `Regexp.ReplaceAllString(s, repl)` for the patterns used here. -/
def replaceAll (re : RE) (repl : Str) (s : Str) : Str :=
  raGo re repl (s.length + 1) none s

/-! ## The normalization patterns (parser.go 643-668) -/

def digitCh (c : Char) : Bool := '0' ≤ c && c ≤ '9'

def hexLowerCh (c : Char) : Bool := digitCh c || ('a' ≤ c && c ≤ 'f')

/-- `[a-zA-Z0-9_-]`, the class of the PATH pattern. -/
def pathCh (c : Char) : Bool :=
  ('a' ≤ c && c ≤ 'z') || ('A' ≤ c && c ≤ 'Z') || digitCh c || c = '_' || c = '-'

/-- `\s` in Go regexps: `[\t\n\f\r ]`. -/
def reWs (c : Char) : Bool := c = ' ' || c = '\t' || c = '\n' || c = '\x0c' || c = '\r'

def reChar (c : Char) : RE := RE.cls (fun x => x = c)

/-- The empty pattern (matches the empty string). -/
def reEps : RE := RE.rept RE.wordB 0 (some 0)

def catList : List RE → RE
  | [] => reEps
  | [r] => r
  | r :: rs => RE.cat r (catList rs)

def reCnt (r : RE) (n : Nat) : RE := RE.rept r n (some n)

def reBetween (r : RE) (lo hi : Nat) : RE := RE.rept r lo (some hi)

def rePlus (r : RE) : RE := RE.rept r 1 none

def reStar (r : RE) : RE := RE.rept r 0 none

def reOpt (r : RE) : RE := RE.rept r 0 (some 1)

/-- `normalizePatterns` (parser.go 644-666): the ordered replacement
pipeline.  Each entry is commented with the Go pattern it embeds. -/
def normalizePatterns : List (RE × Str) :=
  [ -- \b[0-9a-f]{8}\b : short hex IDs (8 chars)
    (catList [RE.wordB, reCnt (RE.cls hexLowerCh) 8, RE.wordB], str "ID_SHORT"),
    -- \b[0-9a-f]{32}\b : long hex IDs (32 chars)
    (catList [RE.wordB, reCnt (RE.cls hexLowerCh) 32, RE.wordB], str "ID_LONG"),
    -- \b[0-9a-f]{8}(-[0-9a-f]{4}){3}-[0-9a-f]{12}\b : UUIDs
    (catList [RE.wordB, reCnt (RE.cls hexLowerCh) 8,
      reCnt (RE.cat (reChar '-') (reCnt (RE.cls hexLowerCh) 4)) 3,
      reChar '-', reCnt (RE.cls hexLowerCh) 12, RE.wordB], str "UUID"),
    -- \b([0-9a-f]{6,31})\b : other hex IDs
    (catList [RE.wordB, reBetween (RE.cls hexLowerCh) 6 31, RE.wordB], str "ID"),
    -- \d{4}[-/]\d{1,2}[-/]\d{1,2} : dates (yyyy-mm-dd)
    (catList [reCnt (RE.cls digitCh) 4, RE.cls (fun c => c = '-' || c = '/'),
      reBetween (RE.cls digitCh) 1 2, RE.cls (fun c => c = '-' || c = '/'),
      reBetween (RE.cls digitCh) 1 2], str "DATE"),
    -- \d{1,2}[-/]\d{1,2}[-/]\d{2,4} : dates (mm-dd-yyyy)
    (catList [reBetween (RE.cls digitCh) 1 2, RE.cls (fun c => c = '-' || c = '/'),
      reBetween (RE.cls digitCh) 1 2, RE.cls (fun c => c = '-' || c = '/'),
      reBetween (RE.cls digitCh) 2 4], str "DATE"),
    -- \d{1,2}:\d{1,2}(:\d{1,2})?(\.\d+)? : times
    (catList [reBetween (RE.cls digitCh) 1 2, reChar ':', reBetween (RE.cls digitCh) 1 2,
      reOpt (RE.cat (reChar ':') (reBetween (RE.cls digitCh) 1 2)),
      reOpt (RE.cat (reChar '.') (rePlus (RE.cls digitCh)))], str "TIME"),
    -- \d{1,3}\.\d{1,3}\.\d{1,3}\.\d{1,3} : IPv4 addresses
    (catList [reBetween (RE.cls digitCh) 1 3, reChar '.', reBetween (RE.cls digitCh) 1 3,
      reChar '.', reBetween (RE.cls digitCh) 1 3, reChar '.',
      reBetween (RE.cls digitCh) 1 3], str "IP"),
    -- (([0-9a-f]{1,4}:){7}|::)[0-9a-f]{1,4} : IPv6 addresses
    (RE.cat (RE.alt (reCnt (RE.cat (reBetween (RE.cls hexLowerCh) 1 4) (reChar ':')) 7)
        (RE.cat (reChar ':') (reChar ':')))
      (reBetween (RE.cls hexLowerCh) 1 4), str "IPV6"),
    -- \d+(\.\d+)?ms : millisecond durations
    (catList [rePlus (RE.cls digitCh), reOpt (RE.cat (reChar '.') (rePlus (RE.cls digitCh))),
      reChar 'm', reChar 's'], str "DURATION_MS"),
    -- \d+(\.\d+)?s : second durations
    (catList [rePlus (RE.cls digitCh), reOpt (RE.cat (reChar '.') (rePlus (RE.cls digitCh))),
      reChar 's'], str "DURATION_S"),
    -- \d+(\.\d+)?ns : nanosecond durations
    (catList [rePlus (RE.cls digitCh), reOpt (RE.cat (reChar '.') (rePlus (RE.cls digitCh))),
      reChar 'n', reChar 's'], str "DURATION_NS"),
    -- \d+(\.\d+)?[mu]s : microsecond durations
    (catList [rePlus (RE.cls digitCh), reOpt (RE.cat (reChar '.') (rePlus (RE.cls digitCh))),
      RE.cls (fun c => c = 'm' || c = 'u'), reChar 's'], str "DURATION_US"),
    -- \b\d{1,9}\b : simple numbers up to 9 digits
    (catList [RE.wordB, reBetween (RE.cls digitCh) 1 9, RE.wordB], str "NUMBER"),
    -- "[^"]*" : quoted strings
    (catList [reChar '"', reStar (RE.cls (fun c => !(c = '"'))), reChar '"'], str "STRING"),
    -- one-quoted strings: the Go pattern is the same with the apostrophe character
    (catList [reChar (Char.ofNat 39), reStar (RE.cls (fun c => !(c = Char.ofNat 39))),
      reChar (Char.ofNat 39)], str "STRING"),
    -- \b([a-zA-Z0-9_-]+\.)+[a-zA-Z0-9_-]+\b : file/URL paths
    (catList [RE.wordB, rePlus (RE.cat (rePlus (RE.cls pathCh)) (reChar '.')),
      rePlus (RE.cls pathCh), RE.wordB], str "PATH"),
    -- \b\d+\.\d+\.\d+\b : version numbers
    (catList [RE.wordB, rePlus (RE.cls digitCh), reChar '.', rePlus (RE.cls digitCh),
      reChar '.', rePlus (RE.cls digitCh), RE.wordB], str "VERSION") ]

/-- `whitespaceRegex.ReplaceAllString(s, " ")` (the regexp `\s+`): every
maximal run of regexp whitespace becomes a single space.  Embedded directly
as a character-level collapse, which is what the regex replacement computes. -/
def collapseWs : Str → Str
  | [] => []
  | c :: cs =>
      match cs with
      | [] => if reWs c then [' '] else [c]
      | c2 :: _ =>
          if reWs c then
            if reWs c2 then collapseWs cs else ' ' :: collapseWs cs
          else c :: collapseWs cs

/-- No two adjacent regexp-whitespace characters (holds for the output of
`collapseWs`). -/
def noDoubleWs : Str → Bool
  | [] => true
  | [_] => true
  | c1 :: c2 :: rest => !(reWs c1 && reWs c2) && noDoubleWs (c2 :: rest)

/-- Every regexp-whitespace character is a plain space (holds for the
output of `collapseWs`). -/
def allWsSpace (s : Str) : Bool := s.all fun c => !reWs c || c = ' '

/-- The first character, if any, is not Go whitespace (holds after
`dropWhile goIsSpace`). -/
def noLeadWs : Str → Bool
  | [] => true
  | c :: _ => !goIsSpace c

/-- The pattern pipeline of `normalizeLogMessage`: the 18 replacements, in
source order. -/
def applyPatterns (s : Str) : Str :=
  normalizePatterns.foldl (fun acc p => replaceAll p.1 p.2 acc) s

/-- `normalizeLogMessage` (parser.go 671-683). -/
def normalizeLogMessage (message : Str) : Str :=
  trimSpaceStr (collapseWs (applyPatterns (toLowerStr message)))

/-! ## Timestamps (`parseTimestamp`, parser.go 257-280)

`time.Time` is modelled as broken-down wall-clock fields plus the zone
offset in minutes, which is exactly what `time.Parse` produces for the
layouts involved ("recovering the instant" is recovering these fields).
Each layout string of the source is hand-compiled to the chunk sequence Go's
`nextStdChunk` produces for it (recorded in comments), and `evalChunks`
mirrors the generic parse loop of `time/format.go`, including its
special-case acceptance of a fractional second after the seconds field when
the layout declares none.  For the layouts `time.RFC3339` and
`time.RFC3339Nano`, Go first attempts the strict RFC 3339 fast path and
falls back to the generic loop. -/

structure TimeRep where
  year : Nat := 0
  month : Nat := 1
  day : Nat := 1
  hour : Nat := 0
  minute : Nat := 0
  second : Nat := 0
  nanos : Nat := 0
  offsetMin : Int := 0
deriving DecidableEq, Repr

def digitVal (c : Char) : Nat := c.toNat - 48

/-- `getnum(value, true)`: exactly two digits. -/
def getnum2 : Str → Option (Nat × Str)
  | c1 :: c2 :: rest =>
      if digitCh c1 && digitCh c2 then some (digitVal c1 * 10 + digitVal c2, rest) else none
  | _ => none

/-- `getnum(value, false)`: one digit, or two when the second character is
also a digit (used for the `15` hour token). -/
def getnumFlex : Str → Option (Nat × Str)
  | [] => none
  | [c1] => if digitCh c1 then some (digitVal c1, []) else none
  | c1 :: c2 :: rest =>
      if digitCh c1 then
        if digitCh c2 then some (digitVal c1 * 10 + digitVal c2, rest)
        else some (digitVal c1, c2 :: rest)
      else none

/-- The `2006` token: exactly four digits. -/
def getYear4 : Str → Option (Nat × Str)
  | c1 :: c2 :: c3 :: c4 :: rest =>
      if digitCh c1 && digitCh c2 && digitCh c3 && digitCh c4 then
        some (((digitVal c1 * 10 + digitVal c2) * 10 + digitVal c3) * 10 + digitVal c4, rest)
      else none
  | _ => none

def digitsToNat (ds : List Char) : Nat := ds.foldl (fun a c => a * 10 + digitVal c) 0

/-- `parseNanoseconds`: scale `d` parsed digits to nanoseconds (at most nine
digits are accepted). -/
def fracNanos (ds : List Char) : Option Nat :=
  if ds.length = 0 || ds.length > 9 then none
  else some (digitsToNat ds * 10 ^ (9 - ds.length))

def commaOrPeriod (c : Char) : Bool := c = '.' || c = ','

def upperCh (c : Char) : Bool := 'A' ≤ c && c ≤ 'Z'

/-- Sign plus `hh:mm` (the numeric part shared by the `Z07:00` and `-07:00`
tokens). -/
def parseSignedColonOffset : Str → Option (Int × Str)
  | sign :: h1 :: h2 :: colon :: m1 :: m2 :: rest =>
      if (sign = '+' || sign = '-') && digitCh h1 && digitCh h2 && colon = ':' &&
          digitCh m1 && digitCh m2 then
        let v : Int := ((digitVal h1 * 10 + digitVal h2) * 60 + (digitVal m1 * 10 + digitVal m2) : Nat)
        some (if sign = '-' then -v else v, rest)
      else none
  | _ => none

/-- `parseTimeZone` length rules for the `MST` token ("UTC" is special-cased
by the parse loop itself); Go resolves an unrecognized abbreviation to a
zone with offset 0, and "GMT"'s optional signed-hour suffix is not used by
any input considered here. -/
def evalTzAbbrev (s : Str) : Option Str :=
  if startsWith s (str "ChST") || startsWith s (str "MeST") then some (s.drop 4)
  else
    let nUpper := ((s.take 6).takeWhile upperCh).length
    if nUpper = 3 then some (s.drop 3)
    else if nUpper = 4 then
      if s.getD 3 ' ' = 'T' || startsWith s (str "WITA") then some (s.drop 4) else none
    else if nUpper = 5 then
      if s.getD 4 ' ' = 'T' then some (s.drop 5) else none
    else none

/-- Layout tokens appearing in the ten source layouts.  `frac0 k` is a
`.000…` token with `k` digits, `frac9 k` a `.999…` token, `tzISOColon` the
`Z07:00` token, `tzNumColon` the `-07:00` token and `tzAbbrev` the `MST`
token.  `hourNum` is the non-padded-parse `15` token. -/
inductive LayoutChunk where
  | lit (l : Str)
  | year4
  | month2
  | day2
  | hourNum
  | minute2
  | second2
  | frac0 (digits : Nat)
  | frac9 (digits : Nat)
  | tzISOColon
  | tzNumColon
  | tzAbbrev
deriving DecidableEq, Repr

/-- Whether the next standard chunk (skipping literals, as Go's
`nextStdChunk` lookahead does) is a fractional-second token. -/
def hasFracChunk : List LayoutChunk → Bool
  | LayoutChunk.lit _ :: rest => hasFracChunk rest
  | LayoutChunk.frac0 _ :: _ => true
  | LayoutChunk.frac9 _ :: _ => true
  | _ => false

/-- The generic parse loop of `time/format.go` over a compiled layout. -/
def evalChunks : List LayoutChunk → Str → TimeRep → Option TimeRep
  | [], s, st => if s = [] then some st else none
  | LayoutChunk.lit l :: rest, s, st =>
      if startsWith s l then evalChunks rest (s.drop l.length) st else none
  | LayoutChunk.year4 :: rest, s, st =>
      match getYear4 s with
      | some (y, s') => evalChunks rest s' { st with year := y }
      | none => none
  | LayoutChunk.month2 :: rest, s, st =>
      match getnum2 s with
      | some (m, s') => evalChunks rest s' { st with month := m }
      | none => none
  | LayoutChunk.day2 :: rest, s, st =>
      match getnum2 s with
      | some (d, s') => evalChunks rest s' { st with day := d }
      | none => none
  | LayoutChunk.hourNum :: rest, s, st =>
      match getnumFlex s with
      | some (h, s') => evalChunks rest s' { st with hour := h }
      | none => none
  | LayoutChunk.minute2 :: rest, s, st =>
      match getnum2 s with
      | some (m, s') => evalChunks rest s' { st with minute := m }
      | none => none
  | LayoutChunk.second2 :: rest, s, st =>
      match getnum2 s with
      | none => none
      | some (sec, s') =>
          let st' := { st with second := sec }
          -- special case: a fractional second in the value but none in the
          -- remaining layout is consumed here
          if hasFracChunk rest then evalChunks rest s' st'
          else
            match s' with
            | c :: c2 :: tail =>
                if commaOrPeriod c && digitCh c2 then
                  let ds := (c2 :: tail).takeWhile digitCh
                  match fracNanos ds with
                  | some ns => evalChunks rest ((c2 :: tail).dropWhile digitCh) { st' with nanos := ns }
                  | none => none
                else evalChunks rest s' st'
            | _ => evalChunks rest s' st'
  | LayoutChunk.frac0 k :: rest, s, st =>
      match s with
      | c :: tail =>
          if commaOrPeriod c && tail.length ≥ k && (tail.take k).all digitCh then
            match fracNanos (tail.take k) with
            | some ns => evalChunks rest (tail.drop k) { st with nanos := ns }
            | none => none
          else none
      | [] => none
  | LayoutChunk.frac9 _ :: rest, s, st =>
      match s with
      | c :: c2 :: tail =>
          if commaOrPeriod c && digitCh c2 then
            let ds := (c2 :: tail).takeWhile digitCh
            match fracNanos ds with
            | some ns => evalChunks rest ((c2 :: tail).dropWhile digitCh) { st with nanos := ns }
            | none => none
          else evalChunks rest s st
      | _ => evalChunks rest s st
  | LayoutChunk.tzISOColon :: rest, s, st =>
      match s with
      | 'Z' :: tail => evalChunks rest tail { st with offsetMin := 0 }
      | _ =>
          match parseSignedColonOffset s with
          | some (off, s') => evalChunks rest s' { st with offsetMin := off }
          | none => none
  | LayoutChunk.tzNumColon :: rest, s, st =>
      match parseSignedColonOffset s with
      | some (off, s') => evalChunks rest s' { st with offsetMin := off }
      | none => none
  | LayoutChunk.tzAbbrev :: rest, s, st =>
      if startsWith s (str "UTC") then evalChunks rest (s.drop 3) { st with offsetMin := 0 }
      else
        match evalTzAbbrev s with
        | some s' => evalChunks rest s' { st with offsetMin := 0 }
        | none => none

def isLeapYear (y : Nat) : Bool := y % 4 = 0 && (y % 100 ≠ 0 || y % 400 = 0)

def daysIn (m y : Nat) : Nat :=
  if m = 2 then (if isLeapYear y then 29 else 28)
  else if m = 4 || m = 6 || m = 9 || m = 11 then 30
  else 31

/-- The range checks of the parse epilogue (month, day-in-month, hour,
minute, second). -/
def validateTime (st : TimeRep) : Option TimeRep :=
  if 1 ≤ st.month ∧ st.month ≤ 12 ∧ 1 ≤ st.day ∧ st.day ≤ daysIn st.month st.year ∧
      st.hour ≤ 23 ∧ st.minute ≤ 59 ∧ st.second ≤ 59 then
    some st
  else none

/-- The strict RFC 3339 fast path (`parseRFC3339` in `time/format.go`):
fixed shape `dddd-dd-ddTdd:dd:dd`, optional `.` fraction, then `Z` or a
`±hh:mm` offset with bounded fields. -/
def parseRFC3339 (s : Str) : Option TimeRep :=
  match getYear4 s with
  | none => none
  | some (y, s1) =>
    match s1 with
    | '-' :: s2 =>
      match getnum2 s2 with
      | none => none
      | some (mo, s3) =>
        match s3 with
        | '-' :: s4 =>
          match getnum2 s4 with
          | none => none
          | some (d, s5) =>
            match s5 with
            | 'T' :: s6 =>
              match getnum2 s6 with
              | none => none
              | some (h, s7) =>
                match s7 with
                | ':' :: s8 =>
                  match getnum2 s8 with
                  | none => none
                  | some (mi, s9) =>
                    match s9 with
                    | ':' :: s10 =>
                      match getnum2 s10 with
                      | none => none
                      | some (sec, s11) =>
                        let fr : Option (Nat × Str) :=
                          match s11 with
                          | '.' :: c2 :: tail =>
                              if digitCh c2 then
                                match fracNanos ((c2 :: tail).takeWhile digitCh) with
                                | some ns => some (ns, (c2 :: tail).dropWhile digitCh)
                                | none => none
                              else some (0, s11)
                          | _ => some (0, s11)
                        match fr with
                        | none => none
                        | some (ns, s12) =>
                          let base : TimeRep :=
                            { year := y, month := mo, day := d, hour := h,
                              minute := mi, second := sec, nanos := ns, offsetMin := 0 }
                          let ok : Bool :=
                            decide (1 ≤ mo ∧ mo ≤ 12 ∧ 1 ≤ d ∧ d ≤ daysIn mo y ∧
                              h ≤ 23 ∧ mi ≤ 59 ∧ sec ≤ 59)
                          if !ok then none
                          else
                            match s12 with
                            | ['Z'] => some base
                            | sign :: h1 :: h2 :: colon :: m1 :: m2 :: [] =>
                                if (sign = '+' || sign = '-') && digitCh h1 && digitCh h2 &&
                                    colon = ':' && digitCh m1 && digitCh m2 &&
                                    decide (digitVal h1 * 10 + digitVal h2 ≤ 23) &&
                                    decide (digitVal m1 * 10 + digitVal m2 ≤ 59) then
                                  let v : Int :=
                                    ((digitVal h1 * 10 + digitVal h2) * 60 +
                                      (digitVal m1 * 10 + digitVal m2) : Nat)
                                  some { base with offsetMin := if sign = '-' then -v else v }
                                else none
                            | _ => none
                    | _ => none
                | _ => none
            | _ => none
        | _ => none
    | _ => none

/-- `time.RFC3339` = `2006-01-02T15:04:05Z07:00`. -/
def fmtRFC3339 : List LayoutChunk :=
  [LayoutChunk.year4, LayoutChunk.lit (str "-"), LayoutChunk.month2, LayoutChunk.lit (str "-"),
   LayoutChunk.day2, LayoutChunk.lit (str "T"), LayoutChunk.hourNum, LayoutChunk.lit (str ":"),
   LayoutChunk.minute2, LayoutChunk.lit (str ":"), LayoutChunk.second2, LayoutChunk.tzISOColon]

/-- `time.RFC3339Nano` = `2006-01-02T15:04:05.999999999Z07:00`. -/
def fmtRFC3339Nano : List LayoutChunk :=
  [LayoutChunk.year4, LayoutChunk.lit (str "-"), LayoutChunk.month2, LayoutChunk.lit (str "-"),
   LayoutChunk.day2, LayoutChunk.lit (str "T"), LayoutChunk.hourNum, LayoutChunk.lit (str ":"),
   LayoutChunk.minute2, LayoutChunk.lit (str ":"), LayoutChunk.second2, LayoutChunk.frac9 9,
   LayoutChunk.tzISOColon]

/-- `2006-01-02T15:04:05.000Z` (the trailing `Z` is a literal). -/
def fmtISOMs : List LayoutChunk :=
  [LayoutChunk.year4, LayoutChunk.lit (str "-"), LayoutChunk.month2, LayoutChunk.lit (str "-"),
   LayoutChunk.day2, LayoutChunk.lit (str "T"), LayoutChunk.hourNum, LayoutChunk.lit (str ":"),
   LayoutChunk.minute2, LayoutChunk.lit (str ":"), LayoutChunk.second2, LayoutChunk.frac0 3,
   LayoutChunk.lit (str "Z")]

/-- `2006/01/02 15:04:05`. -/
def fmtSlash : List LayoutChunk :=
  [LayoutChunk.year4, LayoutChunk.lit (str "/"), LayoutChunk.month2, LayoutChunk.lit (str "/"),
   LayoutChunk.day2, LayoutChunk.lit (str " "), LayoutChunk.hourNum, LayoutChunk.lit (str ":"),
   LayoutChunk.minute2, LayoutChunk.lit (str ":"), LayoutChunk.second2]

/-- `2006-01-02 15:04:05.000 Z` (the trailing ` Z` is a literal). -/
def fmtSpaceZ : List LayoutChunk :=
  [LayoutChunk.year4, LayoutChunk.lit (str "-"), LayoutChunk.month2, LayoutChunk.lit (str "-"),
   LayoutChunk.day2, LayoutChunk.lit (str " "), LayoutChunk.hourNum, LayoutChunk.lit (str ":"),
   LayoutChunk.minute2, LayoutChunk.lit (str ":"), LayoutChunk.second2, LayoutChunk.frac0 3,
   LayoutChunk.lit (str " Z")]

/-- `2006-01-02 15:04:05.000 MST`. -/
def fmtSpaceMST : List LayoutChunk :=
  [LayoutChunk.year4, LayoutChunk.lit (str "-"), LayoutChunk.month2, LayoutChunk.lit (str "-"),
   LayoutChunk.day2, LayoutChunk.lit (str " "), LayoutChunk.hourNum, LayoutChunk.lit (str ":"),
   LayoutChunk.minute2, LayoutChunk.lit (str ":"), LayoutChunk.second2, LayoutChunk.frac0 3,
   LayoutChunk.lit (str " "), LayoutChunk.tzAbbrev]

/-- `2006-01-02 15:04:05.000 -07:00`. -/
def fmtSpaceNumTZ : List LayoutChunk :=
  [LayoutChunk.year4, LayoutChunk.lit (str "-"), LayoutChunk.month2, LayoutChunk.lit (str "-"),
   LayoutChunk.day2, LayoutChunk.lit (str " "), LayoutChunk.hourNum, LayoutChunk.lit (str ":"),
   LayoutChunk.minute2, LayoutChunk.lit (str ":"), LayoutChunk.second2, LayoutChunk.frac0 3,
   LayoutChunk.lit (str " "), LayoutChunk.tzNumColon]

/-- `2006-01-02 15:04:05.000 +07:00`: `+` does not begin a layout token in
Go, so the whole suffix ` +07:00` is a literal. -/
def fmtSpacePlusLit : List LayoutChunk :=
  [LayoutChunk.year4, LayoutChunk.lit (str "-"), LayoutChunk.month2, LayoutChunk.lit (str "-"),
   LayoutChunk.day2, LayoutChunk.lit (str " "), LayoutChunk.hourNum, LayoutChunk.lit (str ":"),
   LayoutChunk.minute2, LayoutChunk.lit (str ":"), LayoutChunk.second2, LayoutChunk.frac0 3,
   LayoutChunk.lit (str " +07:00")]

/-- `2006-01-02 15:04:05.999 -07:00`. -/
def fmtSpace999NumTZ : List LayoutChunk :=
  [LayoutChunk.year4, LayoutChunk.lit (str "-"), LayoutChunk.month2, LayoutChunk.lit (str "-"),
   LayoutChunk.day2, LayoutChunk.lit (str " "), LayoutChunk.hourNum, LayoutChunk.lit (str ":"),
   LayoutChunk.minute2, LayoutChunk.lit (str ":"), LayoutChunk.second2, LayoutChunk.frac9 3,
   LayoutChunk.lit (str " "), LayoutChunk.tzNumColon]

/-- `2006-01-02 15:04:05.999 +07:00` (trailing ` +07:00` literal). -/
def fmtSpace999PlusLit : List LayoutChunk :=
  [LayoutChunk.year4, LayoutChunk.lit (str "-"), LayoutChunk.month2, LayoutChunk.lit (str "-"),
   LayoutChunk.day2, LayoutChunk.lit (str " "), LayoutChunk.hourNum, LayoutChunk.lit (str ":"),
   LayoutChunk.minute2, LayoutChunk.lit (str ":"), LayoutChunk.second2, LayoutChunk.frac9 3,
   LayoutChunk.lit (str " +07:00")]

/-- The `formats` list of `parseTimestamp` (parser.go 259-271), in order.
The Boolean records whether Go's `time.Parse` tries the strict RFC 3339 fast
path first for that layout. -/
def mattermostFormats : List (Bool × List LayoutChunk) :=
  [(true, fmtRFC3339), (true, fmtRFC3339Nano), (false, fmtISOMs), (false, fmtSlash),
   (false, fmtSpaceZ), (false, fmtSpaceMST), (false, fmtSpaceNumTZ), (false, fmtSpacePlusLit),
   (false, fmtSpace999NumTZ), (false, fmtSpace999PlusLit)]

/-- `time.Parse` for one layout of the list. -/
def tryLayout (strictFirst : Bool) (chunks : List LayoutChunk) (s : Str) : Option TimeRep :=
  match (if strictFirst then parseRFC3339 s else none) with
  | some t => some t
  | none =>
      match evalChunks chunks s {} with
      | some st => validateTime st
      | none => none

def tryFormats : List (Bool × List LayoutChunk) → Str → Option TimeRep
  | [], _ => none
  | (b, cs) :: rest, s =>
      match tryLayout b cs s with
      | some t => some t
      | none => tryFormats rest s

/-- `parseTimestamp` (parser.go 257): first layout that parses wins. -/
def parseTimestamp (timestampStr : Str) : Option TimeRep :=
  tryFormats mattermostFormats timestampStr

/-! ## Formatting (`time.Time.Format` for the layouts above)

Needed to state the round-trip property.  Numeric fields are zero-padded to
the token width (Go prints more digits only for values exceeding the width,
which the validity predicate used in the round-trip theorem excludes). -/

def digitChar (d : Nat) : Char := Char.ofNat (48 + d)

/-- `k` decimal digits of `n`, most significant first (`n < 10 ^ k`). -/
def padDigits (k n : Nat) : Str :=
  (List.range k).reverse.map fun i => digitChar (n / 10 ^ i % 10)

def stripZeros (ds : Str) : Str := (ds.reverse.dropWhile (· = '0')).reverse

/-- Format of a `.000…` token with `k` digits. -/
def fracStr0 (k nanos : Nat) : Str := '.' :: padDigits k (nanos / 10 ^ (9 - k))

/-- Format of a `.999…` token with `k` digits: trailing zeros are removed
and a zero fraction prints nothing. -/
def fracStr9 (k nanos : Nat) : Str :=
  let ds := stripZeros (padDigits k (nanos / 10 ^ (9 - k)))
  if ds = [] then [] else '.' :: ds

/-- `±hh:mm` for an offset in minutes. -/
def tzColonStr (off : Int) : Str :=
  (if off < 0 then '-' else '+') ::
    (padDigits 2 (off.natAbs / 60) ++ ':' :: padDigits 2 (off.natAbs % 60))

def formatChunk (t : TimeRep) : LayoutChunk → Str
  | LayoutChunk.lit l => l
  | LayoutChunk.year4 => padDigits 4 t.year
  | LayoutChunk.month2 => padDigits 2 t.month
  | LayoutChunk.day2 => padDigits 2 t.day
  | LayoutChunk.hourNum => padDigits 2 t.hour
  | LayoutChunk.minute2 => padDigits 2 t.minute
  | LayoutChunk.second2 => padDigits 2 t.second
  | LayoutChunk.frac0 k => fracStr0 k t.nanos
  | LayoutChunk.frac9 k => fracStr9 k t.nanos
  | LayoutChunk.tzISOColon => if t.offsetMin = 0 then ['Z'] else tzColonStr t.offsetMin
  | LayoutChunk.tzNumColon => tzColonStr t.offsetMin
  | LayoutChunk.tzAbbrev =>
      -- the UTC location prints its abbreviation; a plain fixed offset has
      -- no abbreviation and prints `±hhmm`
      if t.offsetMin = 0 then str "UTC"
      else (if t.offsetMin < 0 then '-' else '+') ::
        (padDigits 2 (t.offsetMin.natAbs / 60) ++ padDigits 2 (t.offsetMin.natAbs % 60))

def formatTime (chunks : List LayoutChunk) (t : TimeRep) : Str :=
  (chunks.map (formatChunk t)).flatten

/-! ## The record model (`LogEntry`, parser.go 18-30)

`Extras` (a `map[string]string`) is an association list with map-update
semantics; the Go struct field `Type` is named `typeField` here. -/

structure LogEntry where
  timestamp : TimeRep := {}
  level : Str := []
  message : Str := []
  source : Str := []
  user : Str := []
  logSource : Str := []
  ackId : Str := []
  typeField : Str := []
  status : Str := []
  extras : List (Str × Str) := []
  duplicateCount : Nat := 0
deriving DecidableEq, Repr

/-- Map update: overwrite the existing binding for `k`, else append. -/
def mapSet : List (Str × Str) → Str → Str → List (Str × Str)
  | [], k, v => [(k, v)]
  | (k', v') :: rest, k, v =>
      if k' = k then (k, v) :: rest else (k', v') :: mapSet rest k v

/-! ## Mini JSON (`encoding/json` as used by `parseJSONLine`)

A recursive-descent parser equivalent to Go's JSON grammar on the inputs
handled here (the leading-zero restriction on numbers and the HTML escaping
of `json.Marshal` are not reproduced; no theorem below depends on either). -/

inductive Json where
  | null
  | bool (b : Bool)
  | num (raw : Str)
  | jstr (s : Str)
  | arr (elems : List Json)
  | obj (fields : List (Str × Json))

def jSkipWs (s : Str) : Str :=
  s.dropWhile fun c => c = ' ' || c = '\t' || c = '\n' || c = '\r'

def jHexDigit (c : Char) : Bool :=
  digitCh c || ('a' ≤ c && c ≤ 'f') || ('A' ≤ c && c ≤ 'F')

def jHexVal (c : Char) : Nat :=
  if digitCh c then digitVal c
  else if 'a' ≤ c then c.toNat - 87
  else c.toNat - 55

/-- JSON string body after the opening quote: contents and remainder. -/
def parseJString : Str → Option (Str × Str)
  | [] => none
  | c :: rest =>
      if c = '"' then some ([], rest)
      else if c = '\\' then
        match rest with
        | [] => none
        | e :: rest2 =>
            let simple : Option Char :=
              if e = '"' then some '"'
              else if e = '\\' then some '\\'
              else if e = '/' then some '/'
              else if e = 'b' then some '\x08'
              else if e = 'f' then some '\x0c'
              else if e = 'n' then some '\n'
              else if e = 'r' then some '\r'
              else if e = 't' then some '\t'
              else none
            match simple with
            | some ch =>
                match parseJString rest2 with
                | some (tail, rem) => some (ch :: tail, rem)
                | none => none
            | none =>
                if e = 'u' then
                  match rest2 with
                  | h1 :: h2 :: h3 :: h4 :: rest3 =>
                      if jHexDigit h1 && jHexDigit h2 && jHexDigit h3 && jHexDigit h4 then
                        let code := ((jHexVal h1 * 16 + jHexVal h2) * 16 + jHexVal h3) * 16 + jHexVal h4
                        match parseJString rest3 with
                        | some (tail, rem) => some (Char.ofNat code :: tail, rem)
                        | none => none
                      else none
                  | _ => none
                else none
      else if c.toNat < 32 then none
      else
        match parseJString rest with
        | some (tail, rem) => some (c :: tail, rem)
        | none => none

/-- JSON number token (raw text kept, as the model never interprets it). -/
def parseJNum (s : Str) : Option (Json × Str) :=
  let body := fun t : Str =>
    let intPart := t.takeWhile digitCh
    if intPart = [] then none
    else
      let t1 := t.dropWhile digitCh
      let t2 := match t1 with
        | '.' :: u => if (u.takeWhile digitCh) = [] then none else some (u.dropWhile digitCh)
        | _ => some t1
      match t2 with
      | none => none
      | some t2 =>
          let t3 := match t2 with
            | e :: u =>
                if e = 'e' || e = 'E' then
                  let u' := match u with
                    | sg :: u2 => if sg = '+' || sg = '-' then u2 else u
                    | [] => u
                  if (u'.takeWhile digitCh) = [] then none else some (u'.dropWhile digitCh)
                else some t2
            | [] => some t2
          t3
  let t0 := match s with
    | '-' :: u => u
    | _ => s
  match body t0 with
  | some rest => some (Json.num (s.take (s.length - rest.length)), rest)
  | none => none

/-- Parse-loop mode: a value, the members of an object, or the elements of
an array. -/
inductive JMode where
  | val
  | members (acc : List (Str × Json))
  | elems (acc : List Json)

/-- One fuel-indexed parser covering values, object bodies and array
bodies. -/
def parseJ : Nat → JMode → Str → Option (Json × Str)
  | 0, _, _ => none
  | fuel + 1, JMode.val, s =>
      let s := jSkipWs s
      match s with
      | [] => none
      | c :: rest =>
          if c = '"' then
            match parseJString rest with
            | some (out, rem) => some (Json.jstr out, rem)
            | none => none
          else if c = Char.ofNat 123 then parseJ fuel (JMode.members []) rest
          else if c = '[' then parseJ fuel (JMode.elems []) rest
          else if startsWith s (str "true") then some (Json.bool true, s.drop 4)
          else if startsWith s (str "false") then some (Json.bool false, s.drop 5)
          else if startsWith s (str "null") then some (Json.null, s.drop 4)
          else parseJNum s
  | fuel + 1, JMode.members acc, s =>
      let s := jSkipWs s
      match s with
      | c :: rest =>
          if c = Char.ofNat 125 && acc.isEmpty then some (Json.obj [], rest)
          else if c = '"' then
            match parseJString rest with
            | none => none
            | some (k, rem) =>
                match jSkipWs rem with
                | ':' :: rem2 =>
                    match parseJ fuel JMode.val rem2 with
                    | none => none
                    | some (v, rem3) =>
                        match jSkipWs rem3 with
                        | ',' :: rem4 => parseJ fuel (JMode.members (acc ++ [(k, v)])) rem4
                        | d :: rem4 =>
                            if d = Char.ofNat 125 then some (Json.obj (acc ++ [(k, v)]), rem4)
                            else none
                        | [] => none
                | _ => none
          else none
      | [] => none
  | fuel + 1, JMode.elems acc, s =>
      let s := jSkipWs s
      match s with
      | ']' :: rest =>
          if acc.isEmpty then some (Json.arr [], rest) else none
      | _ =>
          match parseJ fuel JMode.val s with
          | none => none
          | some (v, rem) =>
              match jSkipWs rem with
              | ',' :: rem2 => parseJ fuel (JMode.elems (acc ++ [v])) rem2
              | ']' :: rem2 => some (Json.arr (acc ++ [v]), rem2)
              | _ => none

/-- `json.Unmarshal`'s syntax layer: a whole-input JSON value. -/
def jsonParse (s : Str) : Option Json :=
  match parseJ (2 * s.length + 4) JMode.val s with
  | some (v, rest) => if jSkipWs rest = [] then some v else none
  | none => none

/-- Comma-joined concatenation used by `jsonWrite`. -/
def joinComma : List Str → Str
  | [] => []
  | [x] => x
  | x :: xs => x ++ ',' :: joinComma xs

/-- JSON string escaping of `json.Marshal` (minimal form; the HTML escapes
are irrelevant here). -/
def jsonEscStr (s : Str) : Str :=
  '"' :: (s.flatMap fun c =>
    if c = '"' then ['\\', '"']
    else if c = '\\' then ['\\', '\\']
    else if c.toNat < 32 then
      ['\\', 'u', '0', '0', digitChar (c.toNat / 16),
        Char.ofNat (if c.toNat % 16 < 10 then 48 + c.toNat % 16 else 87 + c.toNat % 16)]
    else [c]) ++ ['"']

mutual

/-- Compact serialization (`json.Marshal`) of a JSON value. -/
def jsonWrite : Json → Str
  | Json.null => str "null"
  | Json.bool true => str "true"
  | Json.bool false => str "false"
  | Json.num raw => raw
  | Json.jstr s => jsonEscStr s
  | Json.arr xs => '[' :: joinComma (jsonWriteList xs) ++ [']']
  | Json.obj fs => Char.ofNat 123 :: joinComma (jsonWriteFields fs) ++ [Char.ofNat 125]

def jsonWriteList : List Json → List Str
  | [] => []
  | x :: xs => jsonWrite x :: jsonWriteList xs

def jsonWriteFields : List (Str × Json) → List Str
  | [] => []
  | kv :: fs => (jsonEscStr kv.1 ++ ':' :: jsonWrite kv.2) :: jsonWriteFields fs

end

/-- The typed schema `JSONLogEntry` of `parseJSONLine` (parser.go 186-196). -/
structure JSONLogEntry where
  timestamp : Str := []
  level : Str := []
  msg : Str := []
  caller : Str := []
  userID : Str := []
  logSource : Str := []
  ackID : Str := []
  typeField : Str := []
  status : Str := []
deriving DecidableEq, Repr

/-- Last binding of `k` (later duplicate keys overwrite earlier ones when
unmarshalling into a struct). -/
def lookupLast (fields : List (Str × Json)) (k : Str) : Option Json :=
  (fields.reverse.find? fun kv => decide (kv.1 = k)).map Prod.snd

/-- Decoding one declared string field: absent and `null` leave the zero
value; a non-string value is a type error. -/
def jGetStr (fields : List (Str × Json)) (k : Str) : Option Str :=
  match lookupLast fields k with
  | none => some []
  | some (Json.jstr s) => some s
  | some Json.null => some []
  | some _ => none

/-- `json.Unmarshal(line, &jsonEntry)` against the typed schema: syntax
errors and type mismatches fail; a top-level `null` is a no-op. -/
def typedUnmarshal (line : Str) : Option JSONLogEntry :=
  match jsonParse line with
  | some (Json.obj fs) =>
      match jGetStr fs (str "timestamp"), jGetStr fs (str "level"), jGetStr fs (str "msg"),
          jGetStr fs (str "caller"), jGetStr fs (str "user_id"), jGetStr fs (str "logSource"),
          jGetStr fs (str "ackId"), jGetStr fs (str "type"), jGetStr fs (str "status") with
      | some ts, some lv, some ms, some ca, some us, some ls, some ak, some ty, some st =>
          some { timestamp := ts, level := lv, msg := ms, caller := ca, userID := us,
                 logSource := ls, ackID := ak, typeField := ty, status := st }
      | _, _, _, _, _, _, _, _, _ => none
  | some Json.null => some {}
  | _ => none

/-- `json.Unmarshal(line, &extra)` into `map[string]any`: any top-level
object (a `null` leaves the map nil). -/
def genericUnmarshal (line : Str) : Option (List (Str × Json)) :=
  match jsonParse line with
  | some (Json.obj fs) => some fs
  | some Json.null => some []
  | _ => none

/-- The repair heuristic (parser.go 202): replace every two-character
sequence backslash-quote by a single apostrophe
(`strings.ReplaceAll(line, "\\\"", "'")`). -/
def fixLine : Str → Str
  | [] => []
  | [c] => [c]
  | c1 :: c2 :: rest =>
      if c1 = '\\' ∧ c2 = '"' then Char.ofNat 39 :: fixLine rest
      else c1 :: fixLine (c2 :: rest)

/-- Keys already consumed by the typed schema (parser.go 215-216). -/
def handledKey (k : Str) : Bool :=
  k = str "timestamp" || k = str "level" || k = str "msg" || k = str "caller" ||
  k = str "user_id" || k = str "logSource" || k = str "ackId" || k = str "type" ||
  k = str "status"

/-- `parseJSONLine` (parser.go 181-254).  The extras pass iterates the
generic map (Go map order is arbitrary; source order is used here — the
resulting extras map does not depend on it) and stringifies non-string
values with `json.Marshal`; note that this pass unmarshals the original
`line`, not the repaired one. -/
def parseJSONLine (line : Str) : Option LogEntry :=
  let typed :=
    match typedUnmarshal line with
    | some je => some je
    | none => typedUnmarshal (fixLine line)
  match typed with
  | none => none
  | some je =>
      match genericUnmarshal line with
      | none => none
      | some extra =>
          let extras := extra.foldl (fun m kv =>
            if handledKey kv.1 then m
            else
              match kv.2 with
              | Json.jstr v => mapSet m kv.1 v
              | v => mapSet m kv.1 (jsonWrite v)) []
          match parseTimestamp (trimSpaceStr je.timestamp) with
          | none => none
          | some ts =>
              some { timestamp := ts, level := je.level, message := je.msg,
                     user := je.userID, source := je.caller, logSource := je.logSource,
                     ackId := je.ackID, typeField := je.typeField, status := je.status,
                     extras := extras }

/-! ## Plain-text line decoding (`parseLine`, parser.go 108-178) -/

/-- One key/value token of the payload tail (parser.go 159-175).  A token
without `=` is skipped; `strings.SplitN(pair, "=", 2)` always yields two
parts when the token contains `=`, so the length-check error branch of the
source is unreachable. -/
def applyKV (e : LogEntry) (pair : Str) : LogEntry :=
  if containsStr pair (str "=") then
    match splitOnFirst pair (str "=") with
    | some (k, v) =>
        if k = str "caller" then { e with source := trimCharStr v '"' }
        else if k = str "user_id" then { e with user := v }
        else { e with extras := mapSet e.extras k v }
    | none => e
  else e

/-- `parseLine` (parser.go 108). -/
def parseLine (line : Str) : Option LogEntry :=
  if startsWith (trimSpaceStr line) (str "\x7b") then parseJSONLine line
  else
    match splitOnFirst line (str " [") with
    | none => none
    | some (levelPart, rest1) =>
        match splitOnFirst rest1 (str "] ") with
        | none => none
        | some (tsStr, rest) =>
            match parseTimestamp tsStr with
            | none => none
            | some ts =>
                let fields := goFields rest
                let messageWords := fields.takeWhile fun w => !(containsStr w (str "="))
                let pairs := fields.drop messageWords.length
                some (pairs.foldl applyKV
                  { level := trimSpaceStr levelPart, timestamp := ts,
                    message := joinSpace messageWords, extras := [] })

/-! ## Deduplication engine (parser.go 282-640)

The sequential path (`trimDuplicateLogsSequential`) and the per-level group
processing of the parallel path (`processLogGroup`) run the same claim scan,
embedded once as `dedupGo`/`scanGroup`:

* `processed` is the `processedEntries map[int]bool`, as a list of marked
  indices;
* `scanGroup` is the inner loop: it returns the updated claimed set and the
  list of indices absorbed by the current representative, whose length is
  the number of `DuplicateCount` increments the source performs;
* the normalized-message cache of the source (and its periodic eviction) is
  semantically transparent and is embedded by calling `normalizeLogMessage`
  directly; progress-bar calls are side effects outside the data flow;
* in the parallel path, messages are pre-normalized to the same values the
  sequential path computes, the level groups partition the index space, so
  the shared claimed set never couples two groups, and goroutine scheduling
  only affects the interleaving of per-group results — modelled by the
  explicit `levelOrder` argument of `trimDuplicateLogsParallel`. -/

def getEntry (logs : List LogEntry) (i : Nat) : LogEntry := logs.getD i {}

/-- `strings.ToLower(entry.Level)` of record `i`. -/
def keyLevel (logs : List LogEntry) (i : Nat) : Str := toLowerStr (getEntry logs i).level

/-- `logsByLevel` (parser.go 337-340 / 446-450): indices grouped by
lower-cased level, in input order. -/
def logsByLevel (logs : List LogEntry) (level : Str) : List Nat :=
  (List.range logs.length).filter fun i => decide (keyLevel logs i = level)

/-- The source pre-filter (parser.go 385-387 / 595-597). -/
def sourceSimilar (e1 e2 : LogEntry) : Bool :=
  equalFold e1.source e2.source ||
    (decide (0 < e1.source.length) && decide (0 < e2.source.length) &&
      decide (stringSimilarity e1.source e2.source > mkRat 7 10))

/-- The absorption condition of the inner scan (parser.go 385-401 /
595-606): source pre-filter plus message similarity against the
representative's normalized message and word list. -/
def dupMatch (logs : List LogEntry) (thr : ℚ) (i : Nat) (normalizedMsg : Str)
    (baseWords : List Str) (j : Nat) : Bool :=
  sourceSimilar (getEntry logs i) (getEntry logs j) &&
    isSimilarMessage normalizedMsg (normalizeLogMessage (getEntry logs j).message)
      baseWords thr

/-- Inner scan over the candidate list of representative `i`
(parser.go 378-414 / 580-624). -/
def scanGroup (logs : List LogEntry) (thr : ℚ) (i : Nat) (normalizedMsg : Str)
    (baseWords : List Str) : List Nat → List Nat → List Nat × List Nat
  | [], processed => (processed, [])
  | j :: rest, processed =>
      if j ≤ i || decide (j ∈ processed) then
        scanGroup logs thr i normalizedMsg baseWords rest processed
      else if dupMatch logs thr i normalizedMsg baseWords j then
        let r := scanGroup logs thr i normalizedMsg baseWords rest (j :: processed)
        (r.1, j :: r.2)
      else scanGroup logs thr i normalizedMsg baseWords rest processed

/-- One representative's inner scan (parser.go 363-414): the message is
normalized once (`normalizedMsg`), split into `baseWords`, the entry is
claimed, and the candidate list is scanned. -/
def repScan (logs : List LogEntry) (thr : ℚ) (cand : Nat → List Nat) (i : Nat)
    (processed : List Nat) : List Nat × List Nat :=
  scanGroup logs thr i (normalizeLogMessage (getEntry logs i).message)
    (goFields (normalizeLogMessage (getEntry logs i).message)) (cand i) (i :: processed)

/-- Outer loop shared by both execution paths: `cand i` is the candidate
list scanned for representative `i`.  Returns the clusters
`(representative, absorbed indices)` in emission order together with the
final claimed set. -/
def dedupGo (logs : List LogEntry) (thr : ℚ) (cand : Nat → List Nat) :
    List Nat → List Nat → List (Nat × List Nat) × List Nat
  | [], processed => ([], processed)
  | i :: rest, processed =>
      if decide (i ∈ processed) then dedupGo logs thr cand rest processed
      else
        let scan := repScan logs thr cand i processed
        let r := dedupGo logs thr cand rest scan.1
        ((i, scan.2) :: r.1, r.2)

/-- The candidate selector of the sequential path: all indices of the
representative's level. -/
def seqCand (logs : List LogEntry) : Nat → List Nat :=
  fun i => logsByLevel logs (keyLevel logs i)

/-- A surviving representative: the source appends the entry with
`DuplicateCount = 1` and increments it once per absorbed index. -/
def mkEntry (logs : List LogEntry) (pr : Nat × List Nat) : LogEntry :=
  { getEntry logs pr.1 with duplicateCount := 1 + pr.2.length }

/-- `trimDuplicateLogsSequential` (parser.go 326-438). -/
def trimDuplicateLogsSequential (logs : List LogEntry) (thr : ℚ) : List LogEntry :=
  ((dedupGo logs thr (seqCand logs) (List.range logs.length) []).1).map (mkEntry logs)

/-- `processLogGroup` (parser.go 538-640): both the outer iteration and the
inner scan range over the group's `indices`. -/
def processLogGroup (logs : List LogEntry) (thr : ℚ) (indices : List Nat) : List LogEntry :=
  ((dedupGo logs thr (fun _ => indices) indices []).1).map (mkEntry logs)

/-- The distinct lower-cased levels, in first-appearance order. -/
def levelsOf (logs : List LogEntry) : List Str :=
  ((List.range logs.length).map (keyLevel logs)).dedup

/-- `trimDuplicateLogsParallel` (parser.go 441-535): one `processLogGroup`
per level; `levelOrder` captures the scheduling/map-iteration order in which
the groups deposit their results. -/
def trimDuplicateLogsParallel (logs : List LogEntry) (thr : ℚ) (levelOrder : List Str) :
    List LogEntry :=
  levelOrder.flatMap fun L => processLogGroup logs thr (logsByLevel logs L)

/-- `trimDuplicateLogInfo` (parser.go 284-323): threshold 0.8, parallel path
at 1000 records or more. -/
def trimDuplicateLogInfo (logs : List LogEntry) (levelOrder : List Str) : List LogEntry :=
  if logs.length ≥ 1000 then trimDuplicateLogsParallel logs (mkRat 4 5) levelOrder
  else trimDuplicateLogsSequential logs (mkRat 4 5)

/-! ## Concrete inputs used by the theorems below -/

/-- The example line of the specification. -/
def exLine : Str :=
  str "debug [2025-02-27 15:42:40.076 Z] Received HTTP request caller=\"web/handlers.go:187\" method=GET user_id=abc123"

/-- A canonical lower-case UUID. -/
def exUUID : Str := str "123e4567-e89b-12d3-a456-426614174000"

/-- A JSON line whose escaped-quote damage makes it invalid JSON: after
`"timestamp":` the value starts with a backslash-quote sequence. -/
def exBadJson : Str :=
  str "\x7b\"timestamp\": \\\"2025-02-27T15:42:40.076Z\\\", \"level\": \"info\", \"msg\": \"hi\"\x7d"

/-- Three same-level records with identical messages whose sources are
pairwise compared against the representative only: both `exS1` and `exS2`
have similarity 4/5 with `exS0`, but only 3/5 with each other. -/
def exS0 : LogEntry := { level := str "info", message := str "hello", source := str "aaaaaaaaaa" }

def exS1 : LogEntry := { level := str "info", message := str "hello", source := str "aaaaaaaabb" }

def exS2 : LogEntry := { level := str "info", message := str "hello", source := str "ccaaaaaaaa" }

def exCluster : List LogEntry := [exS0, exS1, exS2]

/-- A mixed-level sample: two `info` records with identical messages and
sources, one `ERROR` and one `error` record with distinct sources. -/
def exMixed : List LogEntry :=
  [ { level := str "info", message := str "db ready", source := str "store/db.go:10" },
    { level := str "ERROR", message := str "boom", source := str "a/b.go:1" },
    { level := str "info", message := str "db ready", source := str "store/db.go:10" },
    { level := str "error", message := str "crash", source := str "x/y.go:2" } ]

/-- A record duplicated verbatim. -/
def exR : LogEntry := { level := str "info", message := str "hi there", source := str "app/x.go:5" }

def exDup : List LogEntry := [exR, exR]

/-- A plain-text line with a payload token (`junk`) that contains no `=`
and sits after the first key/value token. -/
def exJunkLine : Str := str "info [2025-02-27 15:42:40.076 Z] hello a=1 junk b=2"

/-- The instant 2025-02-27T15:42:40.076Z. -/
def exTime : TimeRep :=
  { year := 2025, month := 2, day := 27, hour := 15, minute := 42, second := 40,
    nanos := 76000000, offsetMin := 0 }

/-- An instant with half a second of sub-second precision, not representable
in the `2006/01/02 15:04:05` layout. -/
def exHalfSec : TimeRep :=
  { year := 2025, month := 2, day := 27, hour := 15, minute := 42, second := 40,
    nanos := 500000000, offsetMin := 0 }

/-- An instant in calendar/clock range, with a four-digit year and
sub-second nanoseconds (what `time.Date` produces for the wall clock). -/
def validTimeRep (t : TimeRep) : Prop :=
  t.year < 10000 ∧ 1 ≤ t.month ∧ t.month ≤ 12 ∧ 1 ≤ t.day ∧
    t.day ≤ daysIn t.month t.year ∧ t.hour ≤ 23 ∧ t.minute ≤ 59 ∧ t.second ≤ 59 ∧
    t.nanos < 10 ^ 9

/-- Millisecond precision: what a `.000`/`.999` token can print. -/
def msPrec (t : TimeRep) : Prop := 10 ^ 6 ∣ t.nanos

/-- What the `k`-th layout of `mattermostFormats` can represent faithfully:
the sub-second precision its fractional token prints, offset zero when it
prints no offset (or a literal `Z`/`UTC`), offset `+07:00` (420 minutes)
when its `+07:00` suffix is a literal, and offsets within the two-digit
hour field otherwise. -/
def layoutRep : Nat → TimeRep → Prop
  | 0, t => t.nanos = 0 ∧ t.offsetMin.natAbs < 1440
  | 1, t => t.offsetMin.natAbs < 1440
  | 2, t => t.offsetMin = 0 ∧ msPrec t
  | 3, t => t.offsetMin = 0 ∧ t.nanos = 0
  | 4, t => t.offsetMin = 0 ∧ msPrec t
  | 5, t => t.offsetMin = 0 ∧ msPrec t
  | 6, t => t.offsetMin.natAbs < 6000 ∧ msPrec t
  | 7, t => t.offsetMin = 420 ∧ msPrec t
  | 8, t => t.offsetMin.natAbs < 6000 ∧ msPrec t
  | 9, t => t.offsetMin = 420 ∧ msPrec t
  | _, _ => True

end Lamp

namespace Lamp

/-! ## Bridging lemmas for the `mkRat` forms -/

/-- A count ratio written with `mkRat` is the division of the casts. -/
theorem mkRat_eq_cast_div (a b : Nat) : mkRat (a : Int) b = (a : ℚ) / (b : ℚ) := by
  rw [Rat.mkRat_eq_div]
  push_cast
  ring

/-- The similarity fraction equals the source's `1 - distance/maxLen`. -/
theorem similarity_frac_eq (d m : Nat) (hm : m ≠ 0) :
    mkRat ((m : Int) - (d : Int)) m = 1 - (d : ℚ) / (m : ℚ) := by
  rw [Rat.mkRat_eq_div]
  have hm' : (m : ℚ) ≠ 0 := Nat.cast_ne_zero.mpr hm
  field_simp

/-- `mulFourFifths` is multiplication by `4/5`. -/
theorem mulFourFifths_eq (t : ℚ) : mulFourFifths t = t * (4 / 5) := by
  rw [mulFourFifths, Rat.mkRat_eq_div]
  push_cast
  rw [← div_mul_div_comm, Rat.num_div_den]

/-- The default similarity threshold 0.8 written as `mkRat`. -/
theorem mkRat_four_five : mkRat 4 5 = (4 : ℚ) / 5 := by
  rw [Rat.mkRat_eq_div]
  norm_num

/-! ## C1, counterexample: normalization is not idempotent -/

/-- C1 (counterexample): `normalizeLogMessage` is not idempotent.  The
pipeline lower-cases its input before substituting upper-case placeholder
tags, so a second application lower-cases the tags:
`normalizeLogMessage "5" = "NUMBER"` but a further application yields
`"number"`. -/
theorem normalize_not_idempotent :
    normalizeLogMessage (normalizeLogMessage (str "5")) ≠ normalizeLogMessage (str "5") ∧
    normalizeLogMessage (str "5") = str "NUMBER" ∧
    normalizeLogMessage (str "NUMBER") = str "number" := by decide

/-! ## C2, counterexample: the similarity scorer is not symmetric -/

/-- C2 (counterexample): with repeated words the Jaccard step is
asymmetric — the word multiset of the second message is counted against the
deduplicated word set of the first.  At the default threshold 0.8 (= 4/5),
`"x y"` vs `"x x"` scores 2/2 = 1 in one order but 1/2 in the other. -/
theorem isSimilarMessage_not_symm :
    mkRat 4 5 = (4 : ℚ) / 5 ∧
    isSimilarMessage (str "x y") (str "x x") (goFields (str "x y")) (mkRat 4 5) = true ∧
    isSimilarMessage (str "x x") (str "x y") (goFields (str "x x")) (mkRat 4 5) = false :=
  ⟨mkRat_four_five, by decide, by decide⟩

/-! ## C3: the JSON repair fallback cannot recover a line -/

/-- C3 (code evaluated at the failing input): for a line made invalid by
escaped-quote damage, the typed unmarshal fails, the repaired line (escaped
quotes replaced by apostrophes, which JSON does not allow) fails the typed
retry as well, and `parseJSONLine` returns a parse error.  The repair
heuristic can never produce a successful decode: replacing `\"` by `'`
cannot turn invalid JSON valid, and even if the typed retry succeeded, the
extras pass re-unmarshals the original, still-invalid line (parser.go 210)
and fails. -/
theorem parseJSONLine_repair_never_recovers :
    typedUnmarshal exBadJson = none ∧
    typedUnmarshal (fixLine exBadJson) = none ∧
    parseJSONLine exBadJson = none := by decide

/-! ## C4, counterexample: canonical UUIDs never receive the UUID tag -/

/-- C4 (counterexample): the claim says a canonical lower-case UUID is
replaced by the tag `UUID`.  In the code the 8-hex-digit `ID_SHORT` pattern
runs first and consumes the UUID's leading group, so the `UUID` tag is never
produced: the normalized form of a message consisting of (or containing) a
canonical UUID does not contain `UUID` as a substring at all (the two
occurrences of `ID` below come from `ID_SHORT` and the generic hex-run
tag). -/
theorem uuid_not_replaced_by_uuid_tag :
    containsStr (normalizeLogMessage exUUID) (str "UUID") = false ∧
    normalizeLogMessage exUUID ≠ str "UUID" := by decide

/-- C4 (amended): the pattern pipeline applies `ID_SHORT` before `UUID`, so
a canonical lower-case UUID is tagged piecewise — the leading 8-hex group
becomes `ID_SHORT`, the middle 4-hex groups survive (too short for any hex
pattern), and the trailing 12-hex group becomes the generic `ID` — instead
of producing the `UUID` tag; this holds in context as well. -/
theorem uuid_normalizes_to_idshort :
    normalizeLogMessage exUUID = str "ID_SHORT-e89b-12d3-a456-ID" ∧
    normalizeLogMessage (str "user 123e4567-e89b-12d3-a456-426614174000 logged in")
      = str "user ID_SHORT-e89b-12d3-a456-ID logged in" := by decide

/-! ## C8: the specification's example line -/

/-- C8: the example line decodes to exactly the claimed record: level
`debug`, the UTC instant 2025-02-27T15:42:40.076Z (offset 0), message
`Received HTTP request`, quote-stripped source `web/handlers.go:187`, user
`abc123`, and a one-entry extras map `method ↦ GET`. -/
theorem parseLine_example_decode :
    parseLine exLine = some
      { timestamp := exTime,
        level := str "debug", message := str "Received HTTP request",
        source := str "web/handlers.go:187", user := str "abc123",
        extras := [(str "method", str "GET")] } := by decide

/-! ## C9, counterexample: the timestamp round-trip fails for lossy layouts -/

/-- C9 (counterexample): the layout `2006/01/02 15:04:05` is in the
supported list but carries no sub-second field, so formatting an instant
with 500 ms and re-parsing loses the fractional second: the round-trip does
not recover the original instant. -/
theorem timestamp_roundtrip_fails_slash_layout :
    (false, fmtSlash) ∈ mattermostFormats ∧
    parseTimestamp (formatTime fmtSlash exHalfSec) = some { exHalfSec with nanos := 0 } ∧
    parseTimestamp (formatTime fmtSlash exHalfSec) ≠ some exHalfSec := by decide

/-! ## Levenshtein distance: row correctness and symmetry -/

theorem levD_zero_left (s t : Str) (j : Nat) : levD s t 0 j = j := by
  simp [levD]

theorem levD_zero_right (s t : Str) (i : Nat) : levD s t i 0 = i := by
  cases i <;> simp [levD]

theorem levD_succ_succ (s t : Str) (i j : Nat) :
    levD s t (i + 1) (j + 1)
      = min (levD s t i (j + 1) + 1)
          (min (levD s t (i + 1) j + 1)
            (levD s t i j + (if s.getD i ' ' = t.getD j ' ' then 0 else 1))) := by
  simp [levD]

/-- The DP recurrence is symmetric. -/
theorem levD_symm_aux (s t : Str) : ∀ n i j, i + j ≤ n → levD s t i j = levD t s j i := by
  intro n
  induction n with
  | zero =>
      intro i j h
      have hi : i = 0 := by omega
      have hj : j = 0 := by omega
      subst hi; subst hj
      simp [levD]
  | succ n ih =>
      intro i j h
      match i, j with
      | 0, j => rw [levD_zero_left, levD_zero_right]
      | i + 1, 0 => rw [levD_zero_left, levD_zero_right]
      | i + 1, j + 1 =>
          have h1 := ih i (j + 1) (by omega)
          have h2 := ih (i + 1) j (by omega)
          have h3 := ih i j (by omega)
          rw [levD_succ_succ, levD_succ_succ, h1, h2, h3]
          have hc : (if t.getD j ' ' = s.getD i ' ' then 0 else 1)
              = (if s.getD i ' ' = t.getD j ' ' then 0 else 1) := by
            by_cases hch : s.getD i ' ' = t.getD j ' '
            · rw [if_pos hch, if_pos hch.symm]
            · rw [if_neg hch, if_neg (fun hx => hch hx.symm)]
          rw [hc, min_left_comm]

theorem levD_symm (s t : Str) (i j : Nat) : levD s t i j = levD t s j i :=
  levD_symm_aux s t (i + j) i j le_rfl

theorem range_succ_drop_cons {n j : Nat} (h : j ≤ n) :
    (List.range (n + 1)).drop j = j :: (List.range (n + 1)).drop (j + 1) := by
  have hl : j < (List.range (n + 1)).length := by
    simpa [List.length_range] using Nat.lt_succ_of_le h
  rw [List.drop_eq_getElem_cons hl]
  simp

/-- The inner row loop computes the next matrix row. -/
theorem levRowGo_spec (s t : Str) (i : Nat) :
    ∀ (u : Str) (j : Nat), u = t.drop j →
      levRowGo (s.getD i ' ') u (((List.range (t.length + 1)).drop j).map (levD s t i))
          (levD s t (i + 1) j)
        = ((List.range (t.length + 1)).drop (j + 1)).map (levD s t (i + 1)) := by
  intro u
  induction u with
  | nil =>
      intro j hu
      have hj : t.length ≤ j := by
        by_contra hlt
        push_neg at hlt
        have := List.drop_eq_nil_iff.mp hu.symm
        omega
      have h1 : (List.range (t.length + 1)).drop (j + 1) = [] := by
        apply List.drop_eq_nil_of_le
        simp [List.length_range]
        omega
      have h2 : levRowGo (s.getD i ' ') []
          (((List.range (t.length + 1)).drop j).map (levD s t i)) (levD s t (i + 1) j) = [] := by
        rfl
      rw [h2, h1]
      rfl
  | cons c2 u' ihu =>
      intro j hu
      have hjlt : j < t.length := by
        by_contra hge
        push_neg at hge
        rw [List.drop_eq_nil_of_le hge] at hu
        exact List.noConfusion hu
      have hdrop : t.drop j = t.getD j ' ' :: t.drop (j + 1) := by
        rw [List.drop_eq_getElem_cons hjlt, List.getD_eq_getElem t ' ' hjlt]
      have hc2 : c2 = t.getD j ' ' := by
        rw [← hu] at hdrop
        exact (List.cons.injEq _ _ _ _ ▸ hdrop).1
      have hu' : u' = t.drop (j + 1) := by
        rw [← hu] at hdrop
        exact (List.cons.injEq _ _ _ _ ▸ hdrop).2
      have hr1 : (List.range (t.length + 1)).drop j
          = j :: (List.range (t.length + 1)).drop (j + 1) :=
        range_succ_drop_cons (by omega)
      have hr2 : (List.range (t.length + 1)).drop (j + 1)
          = (j + 1) :: (List.range (t.length + 1)).drop (j + 2) :=
        range_succ_drop_cons (by omega)
      rw [hr1, hr2]
      simp only [List.map_cons]
      rw [levRowGo]
      have hstep : min (levD s t i (j + 1) + 1)
          (min (levD s t (i + 1) j + 1)
            (levD s t i j + (if s.getD i ' ' = c2 then 0 else 1)))
          = levD s t (i + 1) (j + 1) := by
        rw [hc2, levD_succ_succ]
      rw [hstep]
      have := ihu (j + 1) hu'
      rw [hr2] at this
      simp only [List.map_cons] at this
      rw [this]

/-- One outer-loop iteration maps matrix row `i` to row `i + 1`. -/
theorem levNextRow_spec (s t : Str) (i : Nat) :
    levNextRow (s.getD i ' ') t ((List.range (t.length + 1)).map (levD s t i))
      = (List.range (t.length + 1)).map (levD s t (i + 1)) := by
  have hsplit : List.range (t.length + 1) = 0 :: (List.range (t.length + 1)).drop 1 := by
    have h := range_succ_drop_cons (n := t.length) (j := 0) (Nat.zero_le _)
    simpa using h
  have hhead : ((List.range (t.length + 1)).map (levD s t i)).headD 0 = i := by
    rw [hsplit]
    simp [levD_zero_right]
  have hgo : levRowGo (s.getD i ' ') t ((List.range (t.length + 1)).map (levD s t i)) (i + 1)
      = ((List.range (t.length + 1)).drop 1).map (levD s t (i + 1)) := by
    have h := levRowGo_spec s t i t 0 (List.drop_zero t).symm
    rw [List.drop_zero, levD_zero_right] at h
    exact h
  rw [levNextRow, hhead, hgo]
  conv_rhs => rw [hsplit]
  simp [levD_zero_right]

/-- Folding the row update over the remaining characters of `s` reaches the
final row. -/
theorem levFold_spec (s t : Str) :
    ∀ (u : Str) (i : Nat), u = s.drop i → i ≤ s.length →
      u.foldl (fun v0 c1 => levNextRow c1 t v0) ((List.range (t.length + 1)).map (levD s t i))
        = (List.range (t.length + 1)).map (levD s t s.length) := by
  intro u
  induction u with
  | nil =>
      intro i hu hle
      have : s.length ≤ i := by
        by_contra hlt
        push_neg at hlt
        have := List.drop_eq_nil_iff.mp hu.symm
        omega
      have hi : i = s.length := le_antisymm hle this
      rw [hi]
      rfl
  | cons c1 u' ihu =>
      intro i hu hle
      have hilt : i < s.length := by
        by_contra hge
        push_neg at hge
        rw [List.drop_eq_nil_of_le hge] at hu
        exact List.noConfusion hu
      have hdrop : s.drop i = s.getD i ' ' :: s.drop (i + 1) := by
        rw [List.drop_eq_getElem_cons hilt, List.getD_eq_getElem s ' ' hilt]
      rw [← hu] at hdrop
      have hc1 : c1 = s.getD i ' ' := (List.cons.injEq _ _ _ _ ▸ hdrop).1
      have hu' : u' = s.drop (i + 1) := (List.cons.injEq _ _ _ _ ▸ hdrop).2
      rw [List.foldl_cons, hc1, levNextRow_spec]
      exact ihu (i + 1) hu' hilt

/-- The two-row DP computes the DP matrix entry for the full strings. -/
theorem levDP_eq (a b : Str) :
    (a.foldl (fun v0 c1 => levNextRow c1 b v0) (List.range (b.length + 1))).getD b.length 0
      = levD a b a.length b.length := by
  have hinit : (List.range (b.length + 1)).map (levD a b 0) = List.range (b.length + 1) := by
    have h1 : ∀ j ∈ List.range (b.length + 1), levD a b 0 j = id j :=
      fun j _ => levD_zero_left a b j
    rw [List.map_congr_left h1, List.map_id]
  rw [← hinit, levFold_spec a b a 0 (List.drop_zero a).symm (Nat.zero_le _)]
  have hlen : b.length < (List.range (b.length + 1)).length := by
    simp [List.length_range]
  rw [List.getD_eq_getElem _ 0 (by simp [List.length_range])]
  simp

/-- `levenshteinDistance` is symmetric: for different lengths both orders
swap to the same DP; for equal lengths the DP matrix itself is symmetric. -/
theorem levenshteinDistance_symm (s1 s2 : Str) :
    levenshteinDistance s1 s2 = levenshteinDistance s2 s1 := by
  unfold levenshteinDistance
  by_cases h1 : s1.length = 0
  · by_cases h2 : s2.length = 0
    · simp [h1, h2]
    · simp [h1, h2]
  · by_cases h2 : s2.length = 0
    · simp [h1, h2]
    · simp only [h1, h2, if_false]
      rcases Nat.lt_trichotomy s1.length s2.length with hlt | heq | hgt
      · have ha : ¬ s1.length > s2.length := by omega
        have hb : s2.length > s1.length := hlt
        simp [ha, hb]
      · have ha : ¬ s1.length > s2.length := by omega
        have hb : ¬ s2.length > s1.length := by omega
        simp only [ha, hb, if_false]
        by_cases hev : s1 = s2
        · simp [hev]
        · have hev' : ¬ s2 = s1 := fun hx => hev hx.symm
          simp only [hev, hev', if_false]
          rw [levDP_eq, levDP_eq, heq, levD_symm]
      · have ha : s1.length > s2.length := hgt
        have hb : ¬ s2.length > s1.length := by omega
        simp [ha, hb]

/-- `stringSimilarity` is symmetric. -/
theorem stringSimilarity_symm (s1 s2 : Str) :
    stringSimilarity s1 s2 = stringSimilarity s2 s1 := by
  unfold stringSimilarity
  by_cases hev : s1 = s2
  · simp [hev]
  · have hev' : ¬ s2 = s1 := fun hx => hev hx.symm
    simp only [hev, hev', if_false]
    rw [levenshteinDistance_symm (toLowerStr s1) (toLowerStr s2),
      Nat.max_comm (toLowerStr s1).length (toLowerStr s2).length]

/-! ## C2, amended: the scorer is symmetric for duplicate-free word lists -/

/-- Counting the members of `B` that lie in `A` is symmetric when both
lists are duplicate-free: both counts are the intersection cardinality. -/
theorem filter_mem_length_symm {A B : List Str} (hA : A.Nodup) (hB : B.Nodup) :
    (B.filter (fun w => decide (w ∈ A))).length
      = (A.filter (fun w => decide (w ∈ B))).length := by
  have h1 : ∀ (X Y : List Str), Y.Nodup →
      (Y.filter (fun w => decide (w ∈ X))).length = (Y.toFinset ∩ X.toFinset).card := by
    intro X Y hY
    rw [← List.toFinset_card_of_nodup (hY.filter _)]
    congr 1
    ext w
    simp [List.mem_toFinset, List.mem_filter]
  rw [h1 A B hB, h1 B A hA, Finset.inter_comm]

/-- C2 (amended): `isSimilarMessage` is symmetric (with each side receiving
its own first message's word list, as the deduplication engine supplies it)
for every threshold, whenever both messages' word lists are duplicate-free.
Each stage of the scorer is then symmetric: length and word-count ratios by
`min`/`max` commutativity, the containment check by disjunction symmetry,
the Jaccard score because the word-set/word-list mismatch disappears
without duplicates, and the edit-distance fallback by symmetry of the DP. -/
theorem isSimilarMessage_symm_of_nodup (a b : Str) (t : ℚ)
    (ha : (goFields a).Nodup) (hb : (goFields b).Nodup) :
    isSimilarMessage a b (goFields a) t = isSimilarMessage b a (goFields b) t := by
  simp only [isSimilarMessage]
  by_cases hab : a = b
  · simp [hab]
  · have hba : ¬ b = a := fun h => hab h.symm
    rw [if_neg hab, if_neg hba]
    rw [Nat.min_comm b.length a.length, Nat.max_comm b.length a.length]
    by_cases hr : mkRat (↑(min a.length b.length)) (max a.length b.length) > mkRat 1 2
    · rw [if_pos hr, if_pos hr]
      rw [Bool.or_comm (containsStr b a) (containsStr a b)]
      by_cases hco : (containsStr a b || containsStr b a) = true
      · rw [if_pos hco, if_pos hco]
      · rw [if_neg hco, if_neg hco]
        rw [Nat.min_comm (goFields b).length (goFields a).length,
          Nat.max_comm (goFields b).length (goFields a).length]
        rw [List.dedup_eq_self.mpr ha, List.dedup_eq_self.mpr hb]
        rw [filter_mem_length_symm hb ha]
        rw [Nat.add_comm (goFields b).length (goFields a).length]
        rw [stringSimilarity_symm b a]
    · rw [if_neg hr, if_neg hr]

/-- C2 (witness): the amended symmetry at a concrete duplicate-free pair. -/
theorem isSimilarMessage_symm_of_nodup_witness :
    (goFields (str "x y")).Nodup ∧ (goFields (str "y z")).Nodup ∧
    isSimilarMessage (str "x y") (str "y z") (goFields (str "x y")) (mkRat 4 5)
      = isSimilarMessage (str "y z") (str "x y") (goFields (str "y z")) (mkRat 4 5) :=
  ⟨by decide, by decide,
    isSimilarMessage_symm_of_nodup (str "x y") (str "y z") (mkRat 4 5) (by decide) (by decide)⟩

/-! ## C1, amended: whitespace-collapse properties -/

theorem collapseWs_cons_not_ws {c : Char} (cs : Str) (h : reWs c = false) :
    collapseWs (c :: cs) = c :: collapseWs cs := by
  cases cs <;> simp [collapseWs, h]

theorem collapseWs_ws_ws {c c2 : Char} (rest : Str) (h1 : reWs c = true) (h2 : reWs c2 = true) :
    collapseWs (c :: c2 :: rest) = collapseWs (c2 :: rest) := by
  simp [collapseWs, h1, h2]

theorem collapseWs_ws_nws {c c2 : Char} (rest : Str) (h1 : reWs c = true) (h2 : reWs c2 = false) :
    collapseWs (c :: c2 :: rest) = ' ' :: collapseWs (c2 :: rest) := by
  simp [collapseWs, h1, h2]

theorem allWsSpace_cons (c : Char) (l : Str) :
    allWsSpace (c :: l) = ((!reWs c || c = ' ') && allWsSpace l) := by
  simp [allWsSpace]

theorem noDoubleWs_cons_cons (c c2 : Char) (rest : Str) :
    noDoubleWs (c :: c2 :: rest) = (!(reWs c && reWs c2) && noDoubleWs (c2 :: rest)) := rfl

theorem andE {a b : Bool} (h : (a && b) = true) : a = true ∧ b = true := by
  constructor <;> simp_all

theorem orE {a b : Bool} (h : (a || b) = true) : a = true ∨ b = true := by
  cases ha : a with
  | true => exact Or.inl rfl
  | false => rw [ha] at h; simp at h; exact Or.inr h

/-- The collapse output has single spaces only. -/
theorem collapseWs_props :
    ∀ s : Str, noDoubleWs (collapseWs s) = true ∧ allWsSpace (collapseWs s) = true := by
  intro s
  induction s with
  | nil => exact ⟨rfl, rfl⟩
  | cons c cs ih =>
      cases cs with
      | nil =>
          by_cases h : reWs c = true
          · have hc : collapseWs [c] = [' '] := by
              show (if reWs c = true then [' '] else [c]) = [' ']
              rw [if_pos h]
            rw [hc]
            exact ⟨rfl, by decide⟩
          · simp only [Bool.not_eq_true] at h
            rw [collapseWs_cons_not_ws [] h]
            refine ⟨rfl, ?_⟩
            rw [allWsSpace_cons, h]
            rfl
      | cons c2 rest =>
          by_cases h1 : reWs c = true
          · by_cases h2 : reWs c2 = true
            · rw [collapseWs_ws_ws rest h1 h2]
              exact ih
            · simp only [Bool.not_eq_true] at h2
              rw [collapseWs_ws_nws rest h1 h2]
              have hshape := collapseWs_cons_not_ws rest h2
              refine ⟨?_, ?_⟩
              · rw [hshape, noDoubleWs_cons_cons, h2, ← hshape]
                simp [ih.1]
              · rw [allWsSpace_cons]
                have : (!reWs ' ' || ' ' = ' ') = true := by decide
                rw [this]
                simp [ih.2]
          · simp only [Bool.not_eq_true] at h1
            rw [collapseWs_cons_not_ws (c2 :: rest) h1]
            refine ⟨?_, ?_⟩
            · cases hc : collapseWs (c2 :: rest) with
              | nil => rfl
              | cons d ds =>
                  rw [noDoubleWs_cons_cons, h1]
                  have hnd := ih.1
                  rw [hc] at hnd
                  simp [hnd]
            · rw [allWsSpace_cons, h1]
              simp [ih.2]

/-- Strings with single plain spaces are collapse fixed points. -/
theorem collapseWs_eq_self :
    ∀ s : Str, noDoubleWs s = true → allWsSpace s = true → collapseWs s = s := by
  intro s
  induction s with
  | nil => intro _ _; rfl
  | cons c cs ih =>
      intro hnd hws
      rw [allWsSpace_cons] at hws
      have hwc : (!reWs c || decide (c = ' ')) = true := (andE hws).1
      have hws' : allWsSpace cs = true := (andE hws).2
      have hspace : reWs c = true → c = ' ' := by
        intro h
        rcases orE hwc with h' | h'
        · rw [h] at h'; exact absurd h' (by simp)
        · exact of_decide_eq_true h'
      cases cs with
      | nil =>
          by_cases h : reWs c = true
          · rw [hspace h]
            rfl
          · simp only [Bool.not_eq_true] at h
            exact collapseWs_cons_not_ws [] h
      | cons c2 rest =>
          rw [noDoubleWs_cons_cons] at hnd
          have hnd1 : (!(reWs c && reWs c2)) = true := (andE hnd).1
          have hnd2 : noDoubleWs (c2 :: rest) = true := (andE hnd).2
          by_cases h : reWs c = true
          · have h2 : reWs c2 = false := by
              cases hc2 : reWs c2 with
              | false => rfl
              | true => rw [h, hc2] at hnd1; exact absurd hnd1 (by decide)
            rw [collapseWs_ws_nws rest h h2, ih hnd2 hws', hspace h]
          · simp only [Bool.not_eq_true] at h
            rw [collapseWs_cons_not_ws (c2 :: rest) h, ih hnd2 hws']

theorem noDoubleWs_append_right :
    ∀ xs ys : Str, noDoubleWs (xs ++ ys) = true → noDoubleWs ys = true := by
  intro xs
  induction xs with
  | nil => intro ys h; exact h
  | cons x xs ih =>
      intro ys h
      apply ih
      have hx : x :: xs ++ ys = x :: (xs ++ ys) := rfl
      rw [hx] at h
      cases hxy : xs ++ ys with
      | nil => rfl
      | cons z zs =>
          rw [hxy, noDoubleWs_cons_cons] at h
          exact (andE h).2

theorem noDoubleWs_iff_chain :
    ∀ s : Str, noDoubleWs s = true ↔ List.Chain' (fun a b => (reWs a && reWs b) = false) s := by
  intro s
  induction s with
  | nil => simp [noDoubleWs]
  | cons c cs ih =>
      cases cs with
      | nil => simp [noDoubleWs]
      | cons c2 rest =>
          rw [noDoubleWs_cons_cons, List.chain'_cons, ← ih]
          constructor
          · intro h
            refine ⟨?_, (andE h).2⟩
            have h1 := (andE h).1
            simp only [Bool.not_eq_true'] at h1
            exact h1
          · intro ⟨h1, h2⟩
            rw [h2]
            simp [h1]

theorem noDoubleWs_reverse (s : Str) (h : noDoubleWs s = true) :
    noDoubleWs s.reverse = true := by
  rw [noDoubleWs_iff_chain] at h ⊢
  rw [List.chain'_reverse]
  apply List.Chain'.imp ?_ h
  intro a b hab
  show (reWs b && reWs a) = false
  rwa [Bool.and_comm]

theorem allWsSpace_of_sublist {s t : Str} (hsub : List.Sublist s t)
    (h : allWsSpace t = true) : allWsSpace s = true := by
  simp only [allWsSpace, List.all_eq_true] at h ⊢
  exact fun c hc => h c (hsub.mem hc)

theorem allWsSpace_reverse (s : Str) (h : allWsSpace s = true) :
    allWsSpace s.reverse = true := by
  simp only [allWsSpace, List.all_eq_true, List.mem_reverse] at h ⊢
  exact h

theorem noDoubleWs_dropWhile (p : Char → Bool) {s : Str} (h : noDoubleWs s = true) :
    noDoubleWs (s.dropWhile p) = true := by
  apply noDoubleWs_append_right (s.takeWhile p)
  rwa [List.takeWhile_append_dropWhile]

/-- `trimSpaceStr` preserves the collapse-output shape. -/
theorem trim_preserves_props {s : Str} (h1 : noDoubleWs s = true) (h2 : allWsSpace s = true) :
    noDoubleWs (trimSpaceStr s) = true ∧ allWsSpace (trimSpaceStr s) = true := by
  unfold trimSpaceStr
  constructor
  · exact noDoubleWs_reverse _ (noDoubleWs_dropWhile _
      (noDoubleWs_reverse _ (noDoubleWs_dropWhile _ h1)))
  · apply allWsSpace_reverse
    apply allWsSpace_of_sublist (List.dropWhile_sublist _)
    apply allWsSpace_reverse
    exact allWsSpace_of_sublist (List.dropWhile_sublist _) h2

theorem noLeadWs_dropWhile (l : Str) : noLeadWs (l.dropWhile goIsSpace) = true := by
  induction l with
  | nil => rfl
  | cons c cs ih =>
      by_cases h : goIsSpace c = true
      · rw [List.dropWhile_cons_of_pos h]
        exact ih
      · rw [List.dropWhile_cons_of_neg (by simpa using h)]
        simp only [Bool.not_eq_true] at h
        simp [noLeadWs, h]

theorem dropWhile_eq_self_of_noLead {l : Str} (h : noLeadWs l = true) :
    l.dropWhile goIsSpace = l := by
  cases l with
  | nil => rfl
  | cons c cs =>
      simp only [noLeadWs, Bool.not_eq_true'] at h
      rw [List.dropWhile_cons_of_neg (by simp [h])]

theorem noLeadWs_head_all (l : Str) : noLeadWs l = l.head?.all fun c => !goIsSpace c := by
  cases l <;> rfl

/-- `strings.TrimSpace` is idempotent. -/
theorem trimSpace_idem (s : Str) : trimSpaceStr (trimSpaceStr s) = trimSpaceStr s := by
  set A := s.dropWhile goIsSpace with hA
  set B := A.reverse.dropWhile goIsSpace with hB
  have htrim : trimSpaceStr s = B.reverse := rfl
  have hnlB : noLeadWs B = true := noLeadWs_dropWhile _
  have hnlBr : noLeadWs B.reverse = true := by
    rcases Classical.em (B = []) with hBnil | hBne
    · rw [hBnil]; rfl
    · rw [noLeadWs_head_all, List.head?_reverse]
      have hsplit : A.reverse.takeWhile goIsSpace ++ B = A.reverse := by
        rw [hB]
        exact List.takeWhile_append_dropWhile _ _
      have hlast : B.getLast? = A.reverse.getLast? := by
        rw [← hsplit]
        exact (List.getLast?_append_of_ne_nil _ hBne).symm
      rw [hlast, List.getLast?_reverse, ← noLeadWs_head_all]
      exact noLeadWs_dropWhile _
  rw [htrim]
  show (((B.reverse).dropWhile goIsSpace).reverse.dropWhile goIsSpace).reverse = B.reverse
  rw [dropWhile_eq_self_of_noLead hnlBr, List.reverse_reverse,
    dropWhile_eq_self_of_noLead hnlB]

/-- C1 (amended): normalization is idempotent on every input whose
normalized form is unchanged by lower-casing and by the pattern pipeline —
in particular on messages containing no variable substrings and no
placeholder tags.  (In general idempotence fails: the pipeline lower-cases
before substituting upper-case tags, `normalize_not_idempotent`.) -/
theorem normalize_idempotent_on_stable (x : Str)
    (h1 : toLowerStr (normalizeLogMessage x) = normalizeLogMessage x)
    (h2 : applyPatterns (normalizeLogMessage x) = normalizeLogMessage x) :
    normalizeLogMessage (normalizeLogMessage x) = normalizeLogMessage x := by
  have hx : normalizeLogMessage x
      = trimSpaceStr (collapseWs (applyPatterns (toLowerStr x))) := rfl
  obtain ⟨pc1, pc2⟩ := collapseWs_props (applyPatterns (toLowerStr x))
  have hprops := trim_preserves_props pc1 pc2
  rw [← hx] at hprops
  show trimSpaceStr (collapseWs (applyPatterns (toLowerStr (normalizeLogMessage x))))
      = normalizeLogMessage x
  rw [h1, h2, collapseWs_eq_self _ hprops.1 hprops.2, hx, trimSpace_idem]

/-- C1 (witness): a message with no variable substrings, on which
normalization is a fixed point. -/
theorem normalize_idempotent_on_stable_witness :
    toLowerStr (normalizeLogMessage (str "hello world")) = normalizeLogMessage (str "hello world") ∧
    applyPatterns (normalizeLogMessage (str "hello world")) = normalizeLogMessage (str "hello world") ∧
    normalizeLogMessage (normalizeLogMessage (str "hello world"))
      = normalizeLogMessage (str "hello world") :=
  ⟨by decide, by decide, normalize_idempotent_on_stable (str "hello world") (by decide) (by decide)⟩

/-! ## Deduplication engine: inner-scan lemmas -/

theorem scanGroup_cons_skip (logs : List LogEntry) (thr : ℚ) (i : Nat) (nm : Str)
    (bw : List Str) {j : Nat} {P : List Nat} (rest : List Nat) (h : j ≤ i ∨ j ∈ P) :
    scanGroup logs thr i nm bw (j :: rest) P = scanGroup logs thr i nm bw rest P := by
  have hb : (decide (j ≤ i) || decide (j ∈ P)) = true := by
    rcases h with h | h <;> simp [h]
  simp [scanGroup, hb]

theorem scanGroup_cons_mark (logs : List LogEntry) (thr : ℚ) (i : Nat) (nm : Str)
    (bw : List Str) {j : Nat} {P : List Nat} (rest : List Nat) (h : ¬(j ≤ i ∨ j ∈ P))
    (hc : dupMatch logs thr i nm bw j = true) :
    scanGroup logs thr i nm bw (j :: rest) P
      = ((scanGroup logs thr i nm bw rest (j :: P)).1,
          j :: (scanGroup logs thr i nm bw rest (j :: P)).2) := by
  have hb : (decide (j ≤ i) || decide (j ∈ P)) = false := by
    push_neg at h
    simp [h.1, h.2]
  simp [scanGroup, hb, hc]

theorem scanGroup_cons_nomatch (logs : List LogEntry) (thr : ℚ) (i : Nat) (nm : Str)
    (bw : List Str) {j : Nat} {P : List Nat} (rest : List Nat) (h : ¬(j ≤ i ∨ j ∈ P))
    (hc : dupMatch logs thr i nm bw j = false) :
    scanGroup logs thr i nm bw (j :: rest) P = scanGroup logs thr i nm bw rest P := by
  have hb : (decide (j ≤ i) || decide (j ∈ P)) = false := by
    push_neg at h
    simp [h.1, h.2]
  simp [scanGroup, hb, hc]

/-- The claimed set after a scan is the (reversed) mark list on top of the
initial claimed set. -/
theorem scanGroup_processed_shape (logs : List LogEntry) (thr : ℚ) (i : Nat) (nm : Str)
    (bw : List Str) :
    ∀ (cs : List Nat) (P : List Nat),
      (scanGroup logs thr i nm bw cs P).1 = (scanGroup logs thr i nm bw cs P).2.reverse ++ P := by
  intro cs
  induction cs with
  | nil => intro P; rfl
  | cons j rest ih =>
      intro P
      by_cases hskip : j ≤ i ∨ j ∈ P
      · rw [scanGroup_cons_skip logs thr i nm bw rest hskip]
        exact ih P
      · cases hc : dupMatch logs thr i nm bw j with
        | true =>
            rw [scanGroup_cons_mark logs thr i nm bw rest hskip hc]
            simp only [List.reverse_cons, List.append_assoc, List.cons_append, List.nil_append]
            exact ih (j :: P)
        | false =>
            rw [scanGroup_cons_nomatch logs thr i nm bw rest hskip hc]
            exact ih P

/-- Every absorbed index comes from the candidate list, exceeds the
representative's index, was unclaimed, and satisfied the absorption
condition. -/
theorem scanGroup_marks_spec (logs : List LogEntry) (thr : ℚ) (i : Nat) (nm : Str)
    (bw : List Str) :
    ∀ (cs : List Nat) (P : List Nat) (j : Nat), j ∈ (scanGroup logs thr i nm bw cs P).2 →
      j ∈ cs ∧ i < j ∧ j ∉ P ∧ dupMatch logs thr i nm bw j = true := by
  intro cs
  induction cs with
  | nil => intro P j hj; exact absurd hj (by simp [scanGroup])
  | cons k rest ih =>
      intro P j hj
      by_cases hskip : k ≤ i ∨ k ∈ P
      · rw [scanGroup_cons_skip logs thr i nm bw rest hskip] at hj
        obtain ⟨h1, h2, h3, h4⟩ := ih P j hj
        exact ⟨List.mem_cons_of_mem _ h1, h2, h3, h4⟩
      · cases hc : dupMatch logs thr i nm bw k with
        | true =>
            rw [scanGroup_cons_mark logs thr i nm bw rest hskip hc] at hj
            push_neg at hskip
            rcases List.mem_cons.mp hj with hjk | hj'
            · subst hjk
              exact ⟨List.mem_cons_self _ _, by omega, hskip.2, hc⟩
            · obtain ⟨h1, h2, h3, h4⟩ := ih (k :: P) j hj'
              refine ⟨List.mem_cons_of_mem _ h1, h2, fun hP => h3 (List.mem_cons_of_mem _ hP), h4⟩
        | false =>
            rw [scanGroup_cons_nomatch logs thr i nm bw rest hskip hc] at hj
            obtain ⟨h1, h2, h3, h4⟩ := ih P j hj
            exact ⟨List.mem_cons_of_mem _ h1, h2, h3, h4⟩

/-- The mark list has no duplicates. -/
theorem scanGroup_marks_nodup (logs : List LogEntry) (thr : ℚ) (i : Nat) (nm : Str)
    (bw : List Str) :
    ∀ (cs : List Nat) (P : List Nat), (scanGroup logs thr i nm bw cs P).2.Nodup := by
  intro cs
  induction cs with
  | nil => intro P; simp [scanGroup]
  | cons k rest ih =>
      intro P
      by_cases hskip : k ≤ i ∨ k ∈ P
      · rw [scanGroup_cons_skip logs thr i nm bw rest hskip]
        exact ih P
      · cases hc : dupMatch logs thr i nm bw k with
        | true =>
            rw [scanGroup_cons_mark logs thr i nm bw rest hskip hc]
            refine List.nodup_cons.mpr ⟨?_, ih (k :: P)⟩
            intro hk
            obtain ⟨_, _, h3, _⟩ := scanGroup_marks_spec logs thr i nm bw rest (k :: P) k hk
            exact h3 (List.mem_cons_self _ _)
        | false =>
            rw [scanGroup_cons_nomatch logs thr i nm bw rest hskip hc]
            exact ih P

/-- The scan result depends on the claimed set only through membership of
the candidate indices. -/
theorem scanGroup_congr (logs : List LogEntry) (thr : ℚ) (i : Nat) (nm : Str)
    (bw : List Str) :
    ∀ (cs : List Nat) (P Q : List Nat), (∀ j ∈ cs, j ∈ P ↔ j ∈ Q) →
      (scanGroup logs thr i nm bw cs P).2 = (scanGroup logs thr i nm bw cs Q).2 := by
  intro cs
  induction cs with
  | nil => intro P Q _; rfl
  | cons k rest ih =>
      intro P Q hmem
      have hk := hmem k (List.mem_cons_self _ _)
      have hrest : ∀ j ∈ rest, j ∈ P ↔ j ∈ Q := fun j hj => hmem j (List.mem_cons_of_mem _ hj)
      by_cases hskip : k ≤ i ∨ k ∈ P
      · have hskipQ : k ≤ i ∨ k ∈ Q := by
          rcases hskip with h | h
          · exact Or.inl h
          · exact Or.inr (hk.mp h)
        rw [scanGroup_cons_skip logs thr i nm bw rest hskip,
          scanGroup_cons_skip logs thr i nm bw rest hskipQ]
        exact ih P Q hrest
      · have hskipQ : ¬(k ≤ i ∨ k ∈ Q) := by
          push_neg at hskip ⊢
          exact ⟨hskip.1, fun h => hskip.2 (hk.mpr h)⟩
        cases hc : dupMatch logs thr i nm bw k with
        | true =>
            rw [scanGroup_cons_mark logs thr i nm bw rest hskip hc,
              scanGroup_cons_mark logs thr i nm bw rest hskipQ hc]
            have : ∀ j ∈ rest, j ∈ k :: P ↔ j ∈ k :: Q := by
              intro j hj
              simp only [List.mem_cons]
              rw [hrest j hj]
            simp only []
            rw [ih (k :: P) (k :: Q) this]
        | false =>
            rw [scanGroup_cons_nomatch logs thr i nm bw rest hskip hc,
              scanGroup_cons_nomatch logs thr i nm bw rest hskipQ hc]
            exact ih P Q hrest

/-! ## Deduplication engine: outer-loop lemmas -/

theorem mem_logsByLevel {logs : List LogEntry} {L : Str} {j : Nat} :
    j ∈ logsByLevel logs L ↔ (j ∈ List.range logs.length ∧ keyLevel logs j = L) := by
  simp [logsByLevel, List.mem_filter]

theorem repScan_shape (logs : List LogEntry) (thr : ℚ) (cand : Nat → List Nat) (i : Nat)
    (P : List Nat) :
    (repScan logs thr cand i P).1 = (repScan logs thr cand i P).2.reverse ++ (i :: P) :=
  scanGroup_processed_shape logs thr i _ _ (cand i) (i :: P)

theorem repScan_marks (logs : List LogEntry) (thr : ℚ) (cand : Nat → List Nat) (i : Nat)
    (P : List Nat) {j : Nat} (hj : j ∈ (repScan logs thr cand i P).2) :
    j ∈ cand i ∧ i < j ∧ j ∉ (i :: P) ∧
      dupMatch logs thr i (normalizeLogMessage (getEntry logs i).message)
        (goFields (normalizeLogMessage (getEntry logs i).message)) j = true :=
  scanGroup_marks_spec logs thr i _ _ (cand i) (i :: P) j hj

theorem dedupGo_cons_skip (logs : List LogEntry) (thr : ℚ) (cand : Nat → List Nat)
    {i : Nat} {P : List Nat} (rest : List Nat) (h : i ∈ P) :
    dedupGo logs thr cand (i :: rest) P = dedupGo logs thr cand rest P := by
  simp [dedupGo, h]

theorem dedupGo_cons_emit (logs : List LogEntry) (thr : ℚ) (cand : Nat → List Nat)
    {i : Nat} {P : List Nat} (rest : List Nat) (h : i ∉ P) :
    dedupGo logs thr cand (i :: rest) P
      = ((i, (repScan logs thr cand i P).2)
            :: (dedupGo logs thr cand rest (repScan logs thr cand i P).1).1,
          (dedupGo logs thr cand rest (repScan logs thr cand i P).1).2) := by
  simp [dedupGo, h]

/-- The final claimed set contains the initial one. -/
theorem dedupGo_processed_mono (logs : List LogEntry) (thr : ℚ) (cand : Nat → List Nat) :
    ∀ (outer P : List Nat) (x : Nat), x ∈ P → x ∈ (dedupGo logs thr cand outer P).2 := by
  intro outer
  induction outer with
  | nil => intro P x hx; exact hx
  | cons i rest ih =>
      intro P x hx
      by_cases hi : i ∈ P
      · rw [dedupGo_cons_skip logs thr cand rest hi]
        exact ih P x hx
      · rw [dedupGo_cons_emit logs thr cand rest hi]
        apply ih
        rw [repScan_shape]
        exact List.mem_append_right _ (List.mem_cons_of_mem _ hx)

/-- Every outer index ends up claimed. -/
theorem dedupGo_outer_processed (logs : List LogEntry) (thr : ℚ) (cand : Nat → List Nat) :
    ∀ (outer P : List Nat) (x : Nat), x ∈ outer → x ∈ (dedupGo logs thr cand outer P).2 := by
  intro outer
  induction outer with
  | nil => intro P x hx; exact absurd hx (List.not_mem_nil x)
  | cons i rest ih =>
      intro P x hx
      by_cases hi : i ∈ P
      · rw [dedupGo_cons_skip logs thr cand rest hi]
        rcases List.mem_cons.mp hx with hxi | hxr
        · subst hxi
          exact dedupGo_processed_mono logs thr cand rest P x hi
        · exact ih P x hxr
      · rw [dedupGo_cons_emit logs thr cand rest hi]
        rcases List.mem_cons.mp hx with hxi | hxr
        · subst hxi
          apply dedupGo_processed_mono
          rw [repScan_shape]
          exact List.mem_append_right _ (List.mem_cons_self _ _)
        · exact ih _ x hxr

/-- Everything claimed came from the initial set, the outer list, or some
outer index's candidate list. -/
theorem dedupGo_processed_subset (logs : List LogEntry) (thr : ℚ) (cand : Nat → List Nat) :
    ∀ (outer P : List Nat) (x : Nat), x ∈ (dedupGo logs thr cand outer P).2 →
      x ∈ P ∨ x ∈ outer ∨ ∃ i ∈ outer, x ∈ cand i := by
  intro outer
  induction outer with
  | nil => intro P x hx; exact Or.inl hx
  | cons i rest ih =>
      intro P x hx
      by_cases hi : i ∈ P
      · rw [dedupGo_cons_skip logs thr cand rest hi] at hx
        rcases ih P x hx with h | h | ⟨k, hk, hck⟩
        · exact Or.inl h
        · exact Or.inr (Or.inl (List.mem_cons_of_mem _ h))
        · exact Or.inr (Or.inr ⟨k, List.mem_cons_of_mem _ hk, hck⟩)
      · rw [dedupGo_cons_emit logs thr cand rest hi] at hx
        rcases ih _ x hx with h | h | ⟨k, hk, hck⟩
        · rw [repScan_shape] at h
          rcases List.mem_append.mp h with h | h
          · have hm := repScan_marks logs thr cand i P (List.mem_reverse.mp h)
            exact Or.inr (Or.inr ⟨i, List.mem_cons_self _ _, hm.1⟩)
          · rcases List.mem_cons.mp h with h | h
            · exact Or.inr (Or.inl (h ▸ List.mem_cons_self _ _))
            · exact Or.inl h
        · exact Or.inr (Or.inl (List.mem_cons_of_mem _ h))
        · exact Or.inr (Or.inr ⟨k, List.mem_cons_of_mem _ hk, hck⟩)

/-- Count conservation: the emitted duplicate counts plus the initial
claimed-set size equal the final claimed-set size. -/
theorem dedupGo_sum (logs : List LogEntry) (thr : ℚ) (cand : Nat → List Nat) :
    ∀ (outer P : List Nat),
      (((dedupGo logs thr cand outer P).1.map fun pr => 1 + pr.2.length).sum + P.length
        = (dedupGo logs thr cand outer P).2.length) := by
  intro outer
  induction outer with
  | nil => intro P; simp [dedupGo]
  | cons i rest ih =>
      intro P
      by_cases hi : i ∈ P
      · rw [dedupGo_cons_skip logs thr cand rest hi]
        exact ih P
      · rw [dedupGo_cons_emit logs thr cand rest hi]
        have hlen : (repScan logs thr cand i P).1.length
            = (repScan logs thr cand i P).2.length + 1 + P.length := by
          rw [repScan_shape]
          simp
          omega
        have := ih (repScan logs thr cand i P).1
        simp only [List.map_cons, List.sum_cons]
        omega

/-- The final claimed set is duplicate-free when the initial one is. -/
theorem dedupGo_processed_nodup (logs : List LogEntry) (thr : ℚ) (cand : Nat → List Nat) :
    ∀ (outer P : List Nat), P.Nodup → (dedupGo logs thr cand outer P).2.Nodup := by
  intro outer
  induction outer with
  | nil => intro P h; exact h
  | cons i rest ih =>
      intro P hP
      by_cases hi : i ∈ P
      · rw [dedupGo_cons_skip logs thr cand rest hi]
        exact ih P hP
      · rw [dedupGo_cons_emit logs thr cand rest hi]
        apply ih
        rw [repScan_shape]
        apply List.Nodup.append
        · exact List.nodup_reverse.mpr (scanGroup_marks_nodup logs thr i _ _ (cand i) (i :: P))
        · exact List.nodup_cons.mpr ⟨hi, hP⟩
        · intro a ha
          exact (repScan_marks logs thr cand i P (List.mem_reverse.mp ha)).2.2.1

/-- Every emitted cluster's representative is an outer index and its
members come from the representative's candidate list, lie strictly after
it, and satisfied the absorption condition. -/
theorem dedupGo_pairs_spec (logs : List LogEntry) (thr : ℚ) (cand : Nat → List Nat) :
    ∀ (outer P : List Nat) (pr : Nat × List Nat), pr ∈ (dedupGo logs thr cand outer P).1 →
      pr.1 ∈ outer ∧ ∀ j ∈ pr.2, j ∈ cand pr.1 ∧ pr.1 < j ∧
        dupMatch logs thr pr.1 (normalizeLogMessage (getEntry logs pr.1).message)
          (goFields (normalizeLogMessage (getEntry logs pr.1).message)) j = true := by
  intro outer
  induction outer with
  | nil => intro P pr hpr; exact absurd hpr (by simp [dedupGo])
  | cons i rest ih =>
      intro P pr hpr
      by_cases hi : i ∈ P
      · rw [dedupGo_cons_skip logs thr cand rest hi] at hpr
        obtain ⟨h1, h2⟩ := ih P pr hpr
        exact ⟨List.mem_cons_of_mem _ h1, h2⟩
      · rw [dedupGo_cons_emit logs thr cand rest hi] at hpr
        rcases List.mem_cons.mp hpr with hpr1 | hpr2
        · subst hpr1
          refine ⟨List.mem_cons_self _ _, ?_⟩
          intro j hj
          obtain ⟨h1, h2, _, h4⟩ := repScan_marks logs thr cand i P hj
          exact ⟨h1, h2, h4⟩
        · obtain ⟨h1, h2⟩ := ih _ pr hpr2
          exact ⟨List.mem_cons_of_mem _ h1, h2⟩

/-- `dedupGo` reads the candidate selector only at outer indices. -/
theorem dedupGo_cand_congr (logs : List LogEntry) (thr : ℚ) (cand1 cand2 : Nat → List Nat) :
    ∀ (outer P : List Nat), (∀ i ∈ outer, cand1 i = cand2 i) →
      dedupGo logs thr cand1 outer P = dedupGo logs thr cand2 outer P := by
  intro outer
  induction outer with
  | nil => intro P _; rfl
  | cons i rest ih =>
      intro P hc
      have hci : cand1 i = cand2 i := hc i (List.mem_cons_self _ _)
      have hrest : ∀ k ∈ rest, cand1 k = cand2 k := fun k hk => hc k (List.mem_cons_of_mem _ hk)
      have hscan : repScan logs thr cand1 i P = repScan logs thr cand2 i P := by
        unfold repScan
        rw [hci]
      by_cases hi : i ∈ P
      · rw [dedupGo_cons_skip logs thr cand1 rest hi, dedupGo_cons_skip logs thr cand2 rest hi]
        exact ih P hrest
      · rw [dedupGo_cons_emit logs thr cand1 rest hi, dedupGo_cons_emit logs thr cand2 rest hi,
          hscan, ih _ hrest]

/-! ## Deduplication engine: level projection

Clustering never crosses level groups: restricting the sequential run to
one level gives exactly the run over that level's index list. -/

theorem seqCand_self (logs : List LogEntry) (i : Nat) :
    seqCand logs i = logsByLevel logs (keyLevel logs i) := rfl

/-- Projection of the sequential outer loop onto one level. -/
theorem dedupGo_proj (logs : List LogEntry) (thr : ℚ) (lv : Str) :
    ∀ (outer P : List Nat),
      (((dedupGo logs thr (seqCand logs) outer P).1.filter
            fun pr => decide (keyLevel logs pr.1 = lv))
          = (dedupGo logs thr (seqCand logs)
              (outer.filter fun x => decide (keyLevel logs x = lv))
              (P.filter fun x => decide (keyLevel logs x = lv))).1)
      ∧ (((dedupGo logs thr (seqCand logs) outer P).2.filter
            fun x => decide (keyLevel logs x = lv))
          = (dedupGo logs thr (seqCand logs)
              (outer.filter fun x => decide (keyLevel logs x = lv))
              (P.filter fun x => decide (keyLevel logs x = lv))).2) := by
  intro outer
  induction outer with
  | nil => intro P; exact ⟨rfl, rfl⟩
  | cons i rest ih =>
      intro P
      by_cases hfi : keyLevel logs i = lv
      · -- the representative belongs to the projected level
        have hconsf : ((i :: rest).filter fun x => decide (keyLevel logs x = lv))
            = i :: (rest.filter fun x => decide (keyLevel logs x = lv)) := by
          rw [List.filter_cons_of_pos (by simp [hfi])]
        by_cases hi : i ∈ P
        · have hif : i ∈ P.filter fun x => decide (keyLevel logs x = lv) :=
            List.mem_filter.mpr ⟨hi, by simp [hfi]⟩
          rw [dedupGo_cons_skip logs thr (seqCand logs) rest hi, hconsf,
            dedupGo_cons_skip logs thr (seqCand logs) _ hif]
          exact ih P
        · have hif : i ∉ P.filter fun x => decide (keyLevel logs x = lv) := fun hmem =>
            hi (List.mem_filter.mp hmem).1
          rw [dedupGo_cons_emit logs thr (seqCand logs) rest hi, hconsf,
            dedupGo_cons_emit logs thr (seqCand logs) _ hif]
          -- candidate indices all carry level `lv`
          have hcs : ∀ j ∈ seqCand logs i, keyLevel logs j = lv := by
            intro j hj
            rw [seqCand_self, hfi] at hj
            exact (mem_logsByLevel.mp hj).2
          -- the two scans absorb the same indices
          have hmarks : (repScan logs thr (seqCand logs) i P).2
              = (repScan logs thr (seqCand logs) i
                  (P.filter fun x => decide (keyLevel logs x = lv))).2 := by
            apply scanGroup_congr
            intro j hj
            simp only [List.mem_cons]
            constructor
            · intro h
              rcases h with h | h
              · exact Or.inl h
              · exact Or.inr (List.mem_filter.mpr ⟨h, by simp [hcs j hj]⟩)
            · intro h
              rcases h with h | h
              · exact Or.inl h
              · exact Or.inr (List.mem_filter.mp h).1
          -- the claimed set projects onto the filtered scan state
          have hstate : ((repScan logs thr (seqCand logs) i P).1.filter
                fun x => decide (keyLevel logs x = lv))
              = (repScan logs thr (seqCand logs) i
                  (P.filter fun x => decide (keyLevel logs x = lv))).1 := by
            rw [repScan_shape, repScan_shape, ← hmarks, List.filter_append,
              List.filter_cons_of_pos (by simp [hfi])]
            congr 1
            apply List.filter_eq_self.mpr
            intro a ha
            have := (repScan_marks logs thr (seqCand logs) i P (List.mem_reverse.mp ha)).1
            simp [hcs a this]
          rw [List.filter_cons_of_pos (by simp [hfi]), hmarks]
          constructor
          · congr 1
            have := (ih (repScan logs thr (seqCand logs) i P).1).1
            rw [hstate] at this
            exact this
          · have := (ih (repScan logs thr (seqCand logs) i P).1).2
            rw [hstate] at this
            exact this
      · -- the representative belongs to a different level
        have hconsf : ((i :: rest).filter fun x => decide (keyLevel logs x = lv))
            = rest.filter fun x => decide (keyLevel logs x = lv) := by
          rw [List.filter_cons_of_neg (by simp [hfi])]
        by_cases hi : i ∈ P
        · rw [dedupGo_cons_skip logs thr (seqCand logs) rest hi, hconsf]
          exact ih P
        · rw [dedupGo_cons_emit logs thr (seqCand logs) rest hi, hconsf]
          have hcs : ∀ j ∈ seqCand logs i, keyLevel logs j = keyLevel logs i := by
            intro j hj
            rw [seqCand_self] at hj
            exact (mem_logsByLevel.mp hj).2
          have hstate : ((repScan logs thr (seqCand logs) i P).1.filter
                fun x => decide (keyLevel logs x = lv))
              = P.filter fun x => decide (keyLevel logs x = lv) := by
            rw [repScan_shape, List.filter_append,
              List.filter_cons_of_neg (by simp [hfi])]
            have hnil : ((repScan logs thr (seqCand logs) i P).2.reverse.filter
                fun x => decide (keyLevel logs x = lv)) = [] := by
              apply List.filter_eq_nil_iff.mpr
              intro a ha
              have hmem := (repScan_marks logs thr (seqCand logs) i P
                (List.mem_reverse.mp ha)).1
              have := hcs a hmem
              simp [this, hfi]
            rw [hnil, List.nil_append]
          constructor
          · rw [List.filter_cons_of_neg (by simp [hfi])]
            have := (ih (repScan logs thr (seqCand logs) i P).1).1
            rw [hstate] at this
            exact this
          · have := (ih (repScan logs thr (seqCand logs) i P).1).2
            rw [hstate] at this
            exact this

/-! ## Partitioning a list by a key -/

theorem flatMap_congr_mem {α β : Type} {l : List α} {f g : α → List β}
    (h : ∀ a ∈ l, f a = g a) : l.flatMap f = l.flatMap g := by
  induction l with
  | nil => rfl
  | cons a t ih =>
      rw [List.flatMap_cons, List.flatMap_cons, h a (List.mem_cons_self _ _),
        ih fun b hb => h b (List.mem_cons_of_mem _ hb)]

/-- Splitting a list along a duplicate-free list of keys covering all its
elements is a permutation of the list. -/
theorem flatMap_filter_perm {α β : Type} [DecidableEq β] (key : α → β) :
    ∀ (L : List β) (rs : List α), L.Nodup → (∀ r ∈ rs, key r ∈ L) →
      (L.flatMap fun lv => rs.filter fun r => decide (key r = lv)).Perm rs := by
  intro L
  induction L with
  | nil =>
      intro rs _ hcov
      have hrs : rs = [] := by
        cases rs with
        | nil => rfl
        | cons r t => exact absurd (hcov r (List.mem_cons_self _ _)) (List.not_mem_nil _)
      subst hrs
      exact List.Perm.refl _
  | cons lv L' ih =>
      intro rs hnd hcov
      have hnd' : L'.Nodup := (List.nodup_cons.mp hnd).2
      have hlv : lv ∉ L' := (List.nodup_cons.mp hnd).1
      have hcov' : ∀ r ∈ rs.filter fun r => !decide (key r = lv), key r ∈ L' := by
        intro r hr
        obtain ⟨hrs, hne⟩ := List.mem_filter.mp hr
        rcases List.mem_cons.mp (hcov r hrs) with h | h
        · simp [h] at hne
        · exact h
      have hseg : ∀ lv' ∈ L',
          (rs.filter fun r => decide (key r = lv'))
            = ((rs.filter fun r => !decide (key r = lv)).filter
                fun r => decide (key r = lv')) := by
        intro lv' hlv'
        rw [List.filter_filter]
        apply List.filter_congr
        intro r _
        by_cases h : key r = lv'
        · have hne : ¬lv' = lv := fun hh => hlv (hh ▸ hlv')
          have : ¬key r = lv := fun hh => hne (h ▸ hh)
          simp [h, this, hne]
        · simp [h]
      rw [List.flatMap_cons, flatMap_congr_mem hseg]
      exact List.Perm.trans (List.Perm.append_left _ (ih _ hnd' hcov'))
        (List.filter_append_perm _ rs)

/-! ## The sequential run is a level-interleaving of the per-group runs -/

/-- For every level, the sequential clusters of that level are exactly the
clusters of the parallel per-group run on that level. -/
theorem seq_group_pairs (logs : List LogEntry) (thr : ℚ) (lv : Str) :
    ((dedupGo logs thr (seqCand logs) (List.range logs.length) []).1.filter
        fun pr => decide (keyLevel logs pr.1 = lv))
      = (dedupGo logs thr (fun _ => logsByLevel logs lv) (logsByLevel logs lv) []).1 := by
  have hproj := (dedupGo_proj logs thr lv (List.range logs.length) []).1
  have hrange : ((List.range logs.length).filter fun x => decide (keyLevel logs x = lv))
      = logsByLevel logs lv := rfl
  rw [hrange, List.filter_nil] at hproj
  rw [hproj]
  have hcand : ∀ i ∈ logsByLevel logs lv, seqCand logs i = logsByLevel logs lv := by
    intro i hi
    have := (mem_logsByLevel.mp hi).2
    simp [seqCand, this]
  rw [dedupGo_cand_congr logs thr (seqCand logs) (fun _ => logsByLevel logs lv)
    (logsByLevel logs lv) [] hcand]

/-- The sequential output is a permutation of the parallel output, for every
scheduling order of the level groups. -/
theorem seq_perm_par (logs : List LogEntry) (thr : ℚ) (order : List Str)
    (h : order.Perm (levelsOf logs)) :
    (trimDuplicateLogsSequential logs thr).Perm (trimDuplicateLogsParallel logs thr order) := by
  have hnd : order.Nodup := h.nodup_iff.mpr (List.nodup_dedup _)
  have hcov : ∀ pr ∈ (dedupGo logs thr (seqCand logs) (List.range logs.length) []).1,
      keyLevel logs pr.1 ∈ order := by
    intro pr hpr
    have h1 := (dedupGo_pairs_spec logs thr (seqCand logs) _ _ pr hpr).1
    have : keyLevel logs pr.1 ∈ levelsOf logs :=
      List.mem_dedup.mpr (List.mem_map.mpr ⟨pr.1, h1, rfl⟩)
    exact h.mem_iff.mpr this
  have hpart := flatMap_filter_perm (fun pr => keyLevel logs pr.1) order
    (dedupGo logs thr (seqCand logs) (List.range logs.length) []).1 hnd hcov
  have hgroups : (order.flatMap fun lv =>
        (dedupGo logs thr (seqCand logs) (List.range logs.length) []).1.filter
          fun pr => decide (keyLevel logs pr.1 = lv))
      = order.flatMap fun lv =>
          (dedupGo logs thr (fun _ => logsByLevel logs lv) (logsByLevel logs lv) []).1 :=
    flatMap_congr_mem fun lv _ => seq_group_pairs logs thr lv
  rw [hgroups] at hpart
  have hmap := hpart.symm.map (mkEntry logs)
  have hpar : ((order.flatMap fun lv =>
        (dedupGo logs thr (fun _ => logsByLevel logs lv) (logsByLevel logs lv) []).1).map
          (mkEntry logs))
      = trimDuplicateLogsParallel logs thr order := by
    rw [List.map_flatMap]
    rfl
  rw [← hpar]
  exact hmap

/-- The final claimed set of a full sequential run is exactly the input
index range, so its size is the input length. -/
theorem dedupGo_final_processed_length (logs : List LogEntry) (thr : ℚ) (cand : Nat → List Nat)
    (outer : List Nat) (hnd : outer.Nodup)
    (hcand : ∀ i ∈ outer, ∀ j ∈ cand i, j ∈ outer) :
    (dedupGo logs thr cand outer []).2.length = outer.length := by
  have hsub1 : ∀ x ∈ (dedupGo logs thr cand outer []).2, x ∈ outer := by
    intro x hx
    rcases dedupGo_processed_subset logs thr cand outer [] x hx with h | h | ⟨i, hi, hci⟩
    · exact absurd h (List.not_mem_nil x)
    · exact h
    · exact hcand i hi x hci
  have hsub2 : ∀ x ∈ outer, x ∈ (dedupGo logs thr cand outer []).2 :=
    fun x hx => dedupGo_outer_processed logs thr cand outer [] x hx
  have hndF : (dedupGo logs thr cand outer []).2.Nodup :=
    dedupGo_processed_nodup logs thr cand outer [] List.nodup_nil
  exact Nat.le_antisymm
    ((List.subperm_of_subset hndF hsub1).length_le)
    ((List.subperm_of_subset hnd hsub2).length_le)

/-- The duplicate counts of any `dedupGo` run over a self-contained outer
list sum to that list's length. -/
theorem dedupGo_counts_sum (logs : List LogEntry) (thr : ℚ) (cand : Nat → List Nat)
    (outer : List Nat) (hnd : outer.Nodup)
    (hcand : ∀ i ∈ outer, ∀ j ∈ cand i, j ∈ outer) :
    ((((dedupGo logs thr cand outer []).1).map (mkEntry logs)).map
        LogEntry.duplicateCount).sum = outer.length := by
  rw [List.map_map]
  have hpt : (((dedupGo logs thr cand outer []).1).map
        (LogEntry.duplicateCount ∘ mkEntry logs))
      = ((dedupGo logs thr cand outer []).1).map fun pr => 1 + pr.2.length :=
    List.map_congr_left fun pr _ => rfl
  rw [hpt]
  have hsum := dedupGo_sum logs thr cand outer []
  simp only [List.length_nil, Nat.add_zero] at hsum
  rw [hsum, dedupGo_final_processed_length logs thr cand outer hnd hcand]

/-- C5: after deduplication the duplicate counts over the surviving records
sum to the number of input records, on the sequential path and on the
parallel path for every scheduling order of the level groups. -/
theorem dedup_duplicateCount_sum (logs : List LogEntry) (thr : ℚ) (order : List Str)
    (h : order.Perm (levelsOf logs)) :
    ((trimDuplicateLogsSequential logs thr).map LogEntry.duplicateCount).sum = logs.length
      ∧ ((trimDuplicateLogsParallel logs thr order).map
            LogEntry.duplicateCount).sum = logs.length := by
  have hseq : ((trimDuplicateLogsSequential logs thr).map
        LogEntry.duplicateCount).sum = logs.length := by
    have := dedupGo_counts_sum logs thr (seqCand logs) (List.range logs.length)
      (List.nodup_range _)
      (fun i _ j hj => (mem_logsByLevel.mp hj).1)
    rw [List.length_range] at this
    exact this
  refine ⟨hseq, ?_⟩
  rw [← (seq_perm_par logs thr order h).map LogEntry.duplicateCount |>.sum_eq]
  exact hseq

/-- C5 witness at a concrete mixed-level input. -/
theorem dedup_duplicateCount_sum_witness :
    (levelsOf exMixed).Perm (levelsOf exMixed)
      ∧ (((trimDuplicateLogsSequential exMixed (mkRat 4 5)).map
              LogEntry.duplicateCount).sum = exMixed.length
          ∧ ((trimDuplicateLogsParallel exMixed (mkRat 4 5) (levelsOf exMixed)).map
              LogEntry.duplicateCount).sum = exMixed.length) :=
  ⟨List.Perm.refl _,
    dedup_duplicateCount_sum exMixed (mkRat 4 5) (levelsOf exMixed) (List.Perm.refl _)⟩

/-- C6: the sequential path and the parallel path produce the same multiset
of duplicate counts, for every scheduling order of the level groups; only
the order of the representatives may differ. -/
theorem dedup_seq_par_same_counts (logs : List LogEntry) (thr : ℚ) (order : List Str)
    (h : order.Perm (levelsOf logs)) :
    (((trimDuplicateLogsSequential logs thr).map LogEntry.duplicateCount : Multiset Nat)
      = ((trimDuplicateLogsParallel logs thr order).map
          LogEntry.duplicateCount : Multiset Nat)) :=
  Multiset.coe_eq_coe.mpr ((seq_perm_par logs thr order h).map LogEntry.duplicateCount)

/-- C6 witness: a concrete input with the level groups scheduled in the
opposite order. -/
theorem dedup_seq_par_same_counts_witness :
    ([str "error", str "info"] : List Str).Perm (levelsOf exMixed)
      ∧ (((trimDuplicateLogsSequential exMixed (mkRat 4 5)).map
            LogEntry.duplicateCount : Multiset Nat)
          = ((trimDuplicateLogsParallel exMixed (mkRat 4 5) [str "error", str "info"]).map
              LogEntry.duplicateCount : Multiset Nat)) :=
  ⟨by decide,
    dedup_seq_par_same_counts exMixed (mkRat 4 5) [str "error", str "info"] (by decide)⟩

/-- C7 counterexample: on `exCluster` the three records form one cluster,
yet the two absorbed members' sources are not similar to each other — the
source pre-filter relates each member to the representative only. -/
theorem merged_sources_not_similar :
    (0, [1, 2]) ∈ (dedupGo exCluster (mkRat 4 5) (seqCand exCluster)
        (List.range exCluster.length) []).1
      ∧ sourceSimilar exS1 exS2 = false := by decide

/-- C7 (amended): whenever the sequential run absorbs record `j` into the
cluster of representative `pr.1`, the two records' lower-cased levels are
equal, and the representative's and the absorbed record's sources are
either equal case-insensitively or both nonempty with similarity
above 7/10. -/
theorem merge_level_and_source_filter (logs : List LogEntry) (thr : ℚ)
    (pr : Nat × List Nat) (j : Nat)
    (hpr : pr ∈ (dedupGo logs thr (seqCand logs) (List.range logs.length) []).1)
    (hj : j ∈ pr.2) :
    keyLevel logs j = keyLevel logs pr.1
      ∧ (equalFold (getEntry logs pr.1).source (getEntry logs j).source = true
          ∨ (0 < (getEntry logs pr.1).source.length
              ∧ 0 < (getEntry logs j).source.length
              ∧ stringSimilarity (getEntry logs pr.1).source (getEntry logs j).source
                  > mkRat 7 10)) := by
  obtain ⟨-, hall⟩ := dedupGo_pairs_spec logs thr (seqCand logs) _ _ pr hpr
  obtain ⟨hc, -, hdup⟩ := hall j hj
  refine ⟨(mem_logsByLevel.mp hc).2, ?_⟩
  have hsrc := (andE hdup).1
  rcases orE hsrc with heq | hsim
  · exact Or.inl heq
  · obtain ⟨h12, h3⟩ := andE hsim
    obtain ⟨h1, h2⟩ := andE h12
    exact Or.inr ⟨of_decide_eq_true h1, of_decide_eq_true h2, of_decide_eq_true h3⟩

/-- C7 amended-theorem witness on the duplicated-record input. -/
theorem merge_level_and_source_filter_witness :
    ((0, [1]) ∈ (dedupGo exDup (mkRat 4 5) (seqCand exDup)
          (List.range exDup.length) []).1
        ∧ 1 ∈ [1])
      ∧ (keyLevel exDup 1 = keyLevel exDup 0
          ∧ (equalFold (getEntry exDup 0).source (getEntry exDup 1).source = true
              ∨ (0 < (getEntry exDup 0).source.length
                  ∧ 0 < (getEntry exDup 1).source.length
                  ∧ stringSimilarity (getEntry exDup 0).source (getEntry exDup 1).source
                      > mkRat 7 10))) :=
  ⟨⟨by decide, by decide⟩,
    merge_level_and_source_filter exDup (mkRat 4 5) (0, [1]) 1 (by decide) (by decide)⟩

/-! ## Plain-text payload tokens without `=` -/

/-- A key/value token without `=` leaves the entry unchanged. -/
theorem applyKV_no_eq (e : LogEntry) (p : Str) (h : containsStr p (str "=") = false) :
    applyKV e p = e := by
  simp [applyKV, h]

/-- Folding the key/value loop over the payload tokens only sees the tokens
that contain `=`. -/
theorem foldl_applyKV_filter :
    ∀ (ps : List Str) (e : LogEntry),
      ps.foldl applyKV e = (ps.filter fun p => containsStr p (str "=")).foldl applyKV e := by
  intro ps
  induction ps with
  | nil => intro e; rfl
  | cons p rest ih =>
      intro e
      cases h : containsStr p (str "=") with
      | true =>
          have hf : ((p :: rest).filter fun q => containsStr q (str "="))
              = p :: rest.filter fun q => containsStr q (str "=") := by
            simp [List.filter_cons, h]
          rw [List.foldl_cons, hf, List.foldl_cons, ih]
      | false =>
          have hf : ((p :: rest).filter fun q => containsStr q (str "="))
              = rest.filter fun q => containsStr q (str "=") := by
            simp [List.filter_cons, h]
          rw [List.foldl_cons, hf, applyKV_no_eq e p h, ih]

/-- C10: on a plain-text line that parses, every payload token after the
first `=`-token that itself contains no `=` is silently discarded — the
parse succeeds and its result is computed from the `=`-containing tail
tokens alone (the `=`-free prefix forms the message). -/
theorem parseLine_discards_eqfree_tail_tokens (line levelPart rest1 tsStr rest : Str)
    (ts : TimeRep)
    (hnj : startsWith (trimSpaceStr line) (str "\x7b") = false)
    (h1 : splitOnFirst line (str " [") = some (levelPart, rest1))
    (h2 : splitOnFirst rest1 (str "] ") = some (tsStr, rest))
    (h3 : parseTimestamp tsStr = some ts) :
    parseLine line = some
      ((((goFields rest).drop
            ((goFields rest).takeWhile fun w => !containsStr w (str "=")).length).filter
          fun p => containsStr p (str "=")).foldl applyKV
        { level := trimSpaceStr levelPart, timestamp := ts,
          message := joinSpace ((goFields rest).takeWhile fun w => !containsStr w (str "=")),
          extras := [] }) := by
  simp only [parseLine, hnj, Bool.false_eq_true, if_false, h1, h2, h3]
  exact congrArg some (foldl_applyKV_filter _ _)

/-- C10 witness: the token `junk` of `exJunkLine` is dropped. -/
theorem parseLine_discards_eqfree_tail_tokens_witness :
    (startsWith (trimSpaceStr exJunkLine) (str "\x7b") = false
        ∧ splitOnFirst exJunkLine (str " [")
            = some (str "info", str "2025-02-27 15:42:40.076 Z] hello a=1 junk b=2")
        ∧ splitOnFirst (str "2025-02-27 15:42:40.076 Z] hello a=1 junk b=2") (str "] ")
            = some (str "2025-02-27 15:42:40.076 Z", str "hello a=1 junk b=2")
        ∧ parseTimestamp (str "2025-02-27 15:42:40.076 Z") = some exTime)
      ∧ parseLine exJunkLine = some
          ((((goFields (str "hello a=1 junk b=2")).drop
                ((goFields (str "hello a=1 junk b=2")).takeWhile
                  fun w => !containsStr w (str "=")).length).filter
              fun p => containsStr p (str "=")).foldl applyKV
            { level := trimSpaceStr (str "info"), timestamp := exTime,
              message := joinSpace ((goFields (str "hello a=1 junk b=2")).takeWhile
                fun w => !containsStr w (str "=")),
              extras := [] }) :=
  ⟨⟨by decide, by decide, by decide, by decide⟩,
    parseLine_discards_eqfree_tail_tokens exJunkLine (str "info")
      (str "2025-02-27 15:42:40.076 Z] hello a=1 junk b=2")
      (str "2025-02-27 15:42:40.076 Z") (str "hello a=1 junk b=2") exTime
      (by decide) (by decide) (by decide) (by decide)⟩

/-! ## Timestamp round-trip (C9): digit printing and parsing -/

theorem digitCh_digitChar {d : Nat} (h : d < 10) : digitCh (digitChar d) = true := by
  interval_cases d <;> decide

theorem digitVal_digitChar {d : Nat} (h : d < 10) : digitVal (digitChar d) = d := by
  interval_cases d <;> decide

theorem padDigits_succ (k n : Nat) :
    padDigits (k + 1) n = digitChar (n / 10 ^ k % 10) :: padDigits k n := by
  simp [padDigits, List.range_succ]

theorem padDigits_zero (n : Nat) : padDigits 0 n = [] := rfl

theorem padDigits_two (n : Nat) :
    padDigits 2 n = [digitChar (n / 10 % 10), digitChar (n % 10)] := by
  rw [padDigits_succ, padDigits_succ, padDigits_zero]
  norm_num

theorem padDigits_three (n : Nat) :
    padDigits 3 n = [digitChar (n / 100 % 10), digitChar (n / 10 % 10), digitChar (n % 10)] := by
  rw [padDigits_succ, padDigits_succ, padDigits_succ, padDigits_zero]
  norm_num

theorem padDigits_four (n : Nat) :
    padDigits 4 n = [digitChar (n / 1000 % 10), digitChar (n / 100 % 10),
      digitChar (n / 10 % 10), digitChar (n % 10)] := by
  rw [padDigits_succ, padDigits_succ, padDigits_succ, padDigits_succ, padDigits_zero]
  norm_num

theorem padDigits_length (k n : Nat) : (padDigits k n).length = k := by
  simp [padDigits]

theorem padDigits_all_digit (k n : Nat) : (padDigits k n).all digitCh = true := by
  simp only [List.all_eq_true, padDigits, List.mem_map]
  rintro c ⟨i, -, rfl⟩
  exact digitCh_digitChar (Nat.mod_lt _ (by norm_num))

theorem foldl_padDigits (k n a : Nat) :
    (padDigits k n).foldl (fun acc c => acc * 10 + digitVal c) a = a * 10 ^ k + n % 10 ^ k := by
  induction k generalizing a with
  | zero => simp [padDigits, Nat.mod_one]
  | succ k ih =>
      rw [padDigits_succ, List.foldl_cons, ih,
        digitVal_digitChar (Nat.mod_lt _ (by norm_num))]
      have h1 : n % 10 ^ (k + 1) = n % 10 ^ k + 10 ^ k * (n / 10 ^ k % 10) := by
        rw [pow_succ, Nat.mod_mul]
      rw [h1]
      ring

theorem digitsToNat_padDigits (k n : Nat) (h : n < 10 ^ k) :
    digitsToNat (padDigits k n) = n := by
  rw [digitsToNat, foldl_padDigits, Nat.zero_mul, Nat.zero_add, Nat.mod_eq_of_lt h]

theorem stripZeros_append_zero (xs : Str) : stripZeros (xs ++ ['0']) = stripZeros xs := by
  simp [stripZeros]

theorem padDigits_split_last (k n : Nat) :
    padDigits (k + 1) n = padDigits k (n / 10) ++ [digitChar (n % 10)] := by
  induction k generalizing n with
  | zero =>
      rw [padDigits_succ, padDigits_zero, padDigits_zero]
      norm_num
  | succ k ih =>
      rw [padDigits_succ, ih, padDigits_succ]
      have : n / 10 / 10 ^ k % 10 = n / 10 ^ (k + 1) % 10 := by
        rw [Nat.div_div_eq_div_mul, ← pow_succ']
      rw [this]
      rfl

theorem digitChar_eq_zero_iff {d : Nat} (h : d < 10) : digitChar d = '0' ↔ d = 0 := by
  interval_cases d <;> simp <;> decide

/-- Stripping trailing zeros from the `k`-digit print of a positive `m`
keeps a nonempty digit string that rescales back to `m`. -/
theorem stripZeros_padDigits :
    ∀ (k m : Nat), 0 < m → m < 10 ^ k →
      (stripZeros (padDigits k m)) ≠ [] ∧
        (stripZeros (padDigits k m)).all digitCh = true ∧
        (stripZeros (padDigits k m)).length ≤ k ∧
        digitsToNat (stripZeros (padDigits k m)) *
          10 ^ (k - (stripZeros (padDigits k m)).length) = m := by
  intro k
  induction k with
  | zero => intro m hm hlt; omega
  | succ k ih =>
      intro m hm hlt
      by_cases h0 : m % 10 = 0
      · have hsz : stripZeros (padDigits (k + 1) m) = stripZeros (padDigits k (m / 10)) := by
          rw [padDigits_split_last, h0]
          exact stripZeros_append_zero _
        have hm' : 0 < m / 10 := by omega
        have hlt' : m / 10 < 10 ^ k := by
          rw [pow_succ] at hlt
          omega
        obtain ⟨h1, h2, h3, h4⟩ := ih (m / 10) hm' hlt'
        rw [hsz]
        refine ⟨h1, h2, Nat.le_succ_of_le h3, ?_⟩
        have hk : k + 1 - (stripZeros (padDigits k (m / 10))).length
            = (k - (stripZeros (padDigits k (m / 10))).length) + 1 := by omega
        rw [hk, pow_succ, ← Nat.mul_assoc, h4]
        omega
      · have hlast : digitChar (m % 10) ≠ '0' := by
          rw [Ne, digitChar_eq_zero_iff (Nat.mod_lt _ (by norm_num))]
          exact h0
        have hsz : stripZeros (padDigits (k + 1) m) = padDigits (k + 1) m := by
          rw [padDigits_split_last]
          simp [stripZeros, hlast]
        rw [hsz]
        refine ⟨?_, padDigits_all_digit _ _, le_of_eq (padDigits_length _ _), ?_⟩
        · rw [padDigits_split_last]
          simp
        · rw [padDigits_length, Nat.sub_self, pow_zero, Nat.mul_one]
          exact digitsToNat_padDigits _ _ hlt

theorem takeWhile_digits (ds : Str) (hds : ds.all digitCh = true) {c : Char}
    (hc : digitCh c = false) (s : Str) :
    (ds ++ c :: s).takeWhile digitCh = ds ∧ (ds ++ c :: s).dropWhile digitCh = c :: s := by
  induction ds with
  | nil => simp [List.takeWhile, List.dropWhile, hc]
  | cons d ds ih =>
      have hds2 := hds
      simp only [List.all_cons, Bool.and_eq_true] at hds2
      obtain ⟨hd, hrest⟩ := hds2
      obtain ⟨h1, h2⟩ := ih hrest
      simp [List.takeWhile_cons, List.dropWhile_cons, hd, h1, h2]

theorem getnum2_pad (n : Nat) (h : n < 100) (s : Str) :
    getnum2 (padDigits 2 n ++ s) = some (n, s) := by
  rw [padDigits_two]
  have h1 := digitCh_digitChar (d := n / 10 % 10) (Nat.mod_lt _ (by norm_num))
  have h2 := digitCh_digitChar (d := n % 10) (Nat.mod_lt _ (by norm_num))
  have v1 := digitVal_digitChar (d := n / 10 % 10) (Nat.mod_lt _ (by norm_num))
  have v2 := digitVal_digitChar (d := n % 10) (Nat.mod_lt _ (by norm_num))
  simp [getnum2, h1, h2, v1, v2]
  omega

theorem getnumFlex_pad (n : Nat) (h : n < 100) (s : Str) :
    getnumFlex (padDigits 2 n ++ s) = some (n, s) := by
  rw [padDigits_two]
  have h1 := digitCh_digitChar (d := n / 10 % 10) (Nat.mod_lt _ (by norm_num))
  have h2 := digitCh_digitChar (d := n % 10) (Nat.mod_lt _ (by norm_num))
  have v1 := digitVal_digitChar (d := n / 10 % 10) (Nat.mod_lt _ (by norm_num))
  have v2 := digitVal_digitChar (d := n % 10) (Nat.mod_lt _ (by norm_num))
  simp [getnumFlex, h1, h2, v1, v2]
  omega

theorem getYear4_pad (y : Nat) (h : y < 10000) (s : Str) :
    getYear4 (padDigits 4 y ++ s) = some (y, s) := by
  rw [padDigits_four]
  have h1 := digitCh_digitChar (d := y / 1000 % 10) (Nat.mod_lt _ (by norm_num))
  have h2 := digitCh_digitChar (d := y / 100 % 10) (Nat.mod_lt _ (by norm_num))
  have h3 := digitCh_digitChar (d := y / 10 % 10) (Nat.mod_lt _ (by norm_num))
  have h4 := digitCh_digitChar (d := y % 10) (Nat.mod_lt _ (by norm_num))
  have v1 := digitVal_digitChar (d := y / 1000 % 10) (Nat.mod_lt _ (by norm_num))
  have v2 := digitVal_digitChar (d := y / 100 % 10) (Nat.mod_lt _ (by norm_num))
  have v3 := digitVal_digitChar (d := y / 10 % 10) (Nat.mod_lt _ (by norm_num))
  have v4 := digitVal_digitChar (d := y % 10) (Nat.mod_lt _ (by norm_num))
  simp [getYear4, h1, h2, h3, h4, v1, v2, v3, v4]
  omega

theorem tzColonStr_expand (off : Int) :
    tzColonStr off = (if off < 0 then '-' else '+') ::
      digitChar (off.natAbs / 60 / 10 % 10) :: digitChar (off.natAbs / 60 % 10) ::
      ':' :: digitChar (off.natAbs % 60 / 10 % 10) :: digitChar (off.natAbs % 60 % 10) :: [] := by
  rw [tzColonStr, padDigits_two, padDigits_two]
  rfl

theorem parseSignedColonOffset_tz (off : Int) (h : off.natAbs < 6000) (s : Str) :
    parseSignedColonOffset (tzColonStr off ++ s) = some (off, s) := by
  rw [tzColonStr_expand]
  have hh : off.natAbs / 60 < 100 := by omega
  have hmm : off.natAbs % 60 < 60 := Nat.mod_lt _ (by norm_num)
  have h1 := digitCh_digitChar (d := off.natAbs / 60 / 10 % 10) (Nat.mod_lt _ (by norm_num))
  have h2 := digitCh_digitChar (d := off.natAbs / 60 % 10) (Nat.mod_lt _ (by norm_num))
  have h3 := digitCh_digitChar (d := off.natAbs % 60 / 10 % 10) (Nat.mod_lt _ (by norm_num))
  have h4 := digitCh_digitChar (d := off.natAbs % 60 % 10) (Nat.mod_lt _ (by norm_num))
  have v1 := digitVal_digitChar (d := off.natAbs / 60 / 10 % 10) (Nat.mod_lt _ (by norm_num))
  have v2 := digitVal_digitChar (d := off.natAbs / 60 % 10) (Nat.mod_lt _ (by norm_num))
  have v3 := digitVal_digitChar (d := off.natAbs % 60 / 10 % 10) (Nat.mod_lt _ (by norm_num))
  have v4 := digitVal_digitChar (d := off.natAbs % 60 % 10) (Nat.mod_lt _ (by norm_num))
  have v4b := digitVal_digitChar (d := off.natAbs % 10) (Nat.mod_lt _ (by norm_num))
  by_cases hneg : off < 0
  · simp only [hneg, if_true, parseSignedColonOffset, List.cons_append, h1, h2, h3, h4]
    norm_num
    omega
  · simp only [hneg, if_false, parseSignedColonOffset, List.cons_append, h1, h2, h3, h4]
    rw [if_neg (show ¬('+' : Char) = '-' by decide)]
    norm_num
    omega

theorem daysIn_le (m y : Nat) : daysIn m y ≤ 31 := by
  unfold daysIn
  split
  · split <;> norm_num
  · split <;> norm_num

theorem fracNanos_of_spec (ds : Str) (n : Nat) (h1 : ds ≠ []) (h2 : ds.length ≤ 9)
    (h3 : digitsToNat ds * 10 ^ (9 - ds.length) = n) : fracNanos ds = some n := by
  rw [fracNanos]
  have : ¬(ds.length = 0 || decide (ds.length > 9)) = true := by
    simp [List.length_eq_zero, h1]
    omega
  rw [if_neg this, h3]

theorem parseRFC3339_roundtrip_Z (t : TimeRep) (hv : validTimeRep t)
    (hoff : t.offsetMin = 0) (fracS : Str)
    (hfrac : (fracS = [] ∧ t.nanos = 0) ∨
      (∃ ds, fracS = '.' :: ds ∧ ds ≠ [] ∧ ds.all digitCh = true ∧ ds.length ≤ 9 ∧
        digitsToNat ds * 10 ^ (9 - ds.length) = t.nanos)) :
    parseRFC3339 (padDigits 4 t.year ++ '-' :: (padDigits 2 t.month ++ '-' ::
      (padDigits 2 t.day ++ 'T' :: (padDigits 2 t.hour ++ ':' :: (padDigits 2 t.minute ++ ':' ::
      (padDigits 2 t.second ++ (fracS ++ ['Z']))))))) = some t := by
  obtain ⟨ty, tmo, td, th, tmi, ts, tns, toff⟩ := t
  obtain ⟨hy, hmo1, hmo2, hd1, hd2, hh, hmi, hs, hns⟩ := hv
  simp only at hoff hfrac hy hmo1 hmo2 hd1 hd2 hh hmi hs hns ⊢
  subst hoff
  have hd31 : td ≤ 31 := le_trans hd2 (daysIn_le _ _)
  rw [parseRFC3339, getYear4_pad _ hy]
  simp only
  rw [getnum2_pad _ (by omega)]
  simp only
  rw [getnum2_pad _ (by omega)]
  simp only
  rw [getnum2_pad _ (by omega)]
  simp only
  rw [getnum2_pad _ (by omega)]
  simp only
  rw [getnum2_pad _ (by omega)]
  simp only
  have hok : decide (1 ≤ tmo ∧ tmo ≤ 12 ∧ 1 ≤ td ∧
      td ≤ daysIn tmo ty ∧ th ≤ 23 ∧ tmi ≤ 59 ∧ ts ≤ 59) = true :=
    decide_eq_true ⟨hmo1, hmo2, hd1, hd2, hh, hmi, hs⟩
  rcases hfrac with ⟨rfl, hn0⟩ | ⟨ds, rfl, hne, hdig, hlen, hval⟩
  · simp only [List.nil_append, hok]
    rw [← hn0]
    rfl
  · obtain ⟨d, ds', rfl⟩ : ∃ d ds', ds = d :: ds' := by
      cases ds with
      | nil => exact absurd rfl hne
      | cons d ds' => exact ⟨d, ds', rfl⟩
    have hdig2 := hdig
    simp only [List.all_cons, Bool.and_eq_true] at hdig2
    obtain ⟨hdigd, hdigrest⟩ := hdig2
    have h1 : List.takeWhile digitCh (d :: (ds' ++ ['Z'])) = d :: ds' := by
      rw [List.takeWhile_cons_of_pos hdigd, (takeWhile_digits ds' hdigrest (by decide) []).1]
    have h2 : List.dropWhile digitCh (d :: (ds' ++ ['Z'])) = ['Z'] := by
      rw [List.dropWhile_cons_of_pos hdigd, (takeWhile_digits ds' hdigrest (by decide) []).2]
    simp only [List.cons_append, List.nil_append] at h1 h2 ⊢
    simp only [hdigd, if_true, h1, h2, fracNanos_of_spec _ _ hne hlen hval, hok]
    simp [hval]

theorem parseRFC3339_roundtrip_off (t : TimeRep) (hv : validTimeRep t)
    (hoff : t.offsetMin.natAbs < 1440) (fracS : Str)
    (hfrac : (fracS = [] ∧ t.nanos = 0) ∨
      (∃ ds, fracS = '.' :: ds ∧ ds ≠ [] ∧ ds.all digitCh = true ∧ ds.length ≤ 9 ∧
        digitsToNat ds * 10 ^ (9 - ds.length) = t.nanos)) :
    parseRFC3339 (padDigits 4 t.year ++ '-' :: (padDigits 2 t.month ++ '-' ::
      (padDigits 2 t.day ++ 'T' :: (padDigits 2 t.hour ++ ':' :: (padDigits 2 t.minute ++ ':' ::
      (padDigits 2 t.second ++ (fracS ++ tzColonStr t.offsetMin))))))) = some t := by
  obtain ⟨ty, tmo, td, th, tmi, ts, tns, toff⟩ := t
  obtain ⟨hy, hmo1, hmo2, hd1, hd2, hh, hmi, hs, hns⟩ := hv
  simp only at hoff hfrac hy hmo1 hmo2 hd1 hd2 hh hmi hs hns ⊢
  have hd31 : td ≤ 31 := le_trans hd2 (daysIn_le _ _)
  have hhd : digitCh (if toff < 0 then '-' else '+') = false := by
    split <;> decide
  rw [tzColonStr_expand] at *
  have e1 := digitVal_digitChar (d := toff.natAbs / 60 / 10 % 10) (Nat.mod_lt _ (by norm_num))
  have e2 := digitVal_digitChar (d := toff.natAbs / 60 % 10) (Nat.mod_lt _ (by norm_num))
  have e3 := digitVal_digitChar (d := toff.natAbs % 60 / 10 % 10) (Nat.mod_lt _ (by norm_num))
  have e4 := digitVal_digitChar (d := toff.natAbs % 60 % 10) (Nat.mod_lt _ (by norm_num))
  have g1 := digitCh_digitChar (d := toff.natAbs / 60 / 10 % 10) (Nat.mod_lt _ (by norm_num))
  have g2 := digitCh_digitChar (d := toff.natAbs / 60 % 10) (Nat.mod_lt _ (by norm_num))
  have g3 := digitCh_digitChar (d := toff.natAbs % 60 / 10 % 10) (Nat.mod_lt _ (by norm_num))
  have g4 := digitCh_digitChar (d := toff.natAbs % 60 % 10) (Nat.mod_lt _ (by norm_num))
  have hb23 : decide (digitVal (digitChar (toff.natAbs / 60 / 10 % 10)) * 10 +
      digitVal (digitChar (toff.natAbs / 60 % 10)) ≤ 23) = true := by
    rw [e1, e2]
    exact decide_eq_true (by omega)
  have hb59 : decide (digitVal (digitChar (toff.natAbs % 60 / 10 % 10)) * 10 +
      digitVal (digitChar (toff.natAbs % 60 % 10)) ≤ 59) = true := by
    rw [e3, e4]
    exact decide_eq_true (by omega)
  rw [parseRFC3339, getYear4_pad _ hy]
  simp only
  rw [getnum2_pad _ (by omega)]
  simp only
  rw [getnum2_pad _ (by omega)]
  simp only
  rw [getnum2_pad _ (by omega)]
  simp only
  rw [getnum2_pad _ (by omega)]
  simp only
  rw [getnum2_pad _ (by omega)]
  simp only
  have hok : decide (1 ≤ tmo ∧ tmo ≤ 12 ∧ 1 ≤ td ∧
      td ≤ daysIn tmo ty ∧ th ≤ 23 ∧ tmi ≤ 59 ∧ ts ≤ 59) = true :=
    decide_eq_true ⟨hmo1, hmo2, hd1, hd2, hh, hmi, hs⟩
  rcases hfrac with ⟨rfl, hn0⟩ | ⟨ds, rfl, hne, hdig, hlen, hval⟩
  · by_cases hneg : toff < 0
    · simp [hneg, hok, g1, g2, g3, g4, hb23, hb59, e1, e2, e3, e4, hn0]
      simp only [Int.abs_eq_natAbs]
      omega
    · simp [hneg, hok, g1, g2, g3, g4, hb23, hb59, e1, e2, e3, e4, hn0]
      simp only [Int.abs_eq_natAbs]
      omega
  · obtain ⟨d, ds', rfl⟩ : ∃ d ds', ds = d :: ds' := by
      cases ds with
      | nil => exact absurd rfl hne
      | cons d ds' => exact ⟨d, ds', rfl⟩
    have hdig2 := hdig
    simp only [List.all_cons, Bool.and_eq_true] at hdig2
    obtain ⟨hdigd, hdigrest⟩ := hdig2
    by_cases hneg : toff < 0
    · have h1 : List.takeWhile digitCh (d :: (ds' ++ '-' ::
          digitChar (toff.natAbs / 60 / 10 % 10) :: digitChar (toff.natAbs / 60 % 10) ::
          ':' :: digitChar (toff.natAbs % 60 / 10 % 10) ::
          digitChar (toff.natAbs % 60 % 10) :: [])) = d :: ds' := by
        rw [List.takeWhile_cons_of_pos hdigd, (takeWhile_digits ds' hdigrest (by decide) _).1]
      have h2 : List.dropWhile digitCh (d :: (ds' ++ '-' ::
          digitChar (toff.natAbs / 60 / 10 % 10) :: digitChar (toff.natAbs / 60 % 10) ::
          ':' :: digitChar (toff.natAbs % 60 / 10 % 10) ::
          digitChar (toff.natAbs % 60 % 10) :: [])) = '-' ::
          digitChar (toff.natAbs / 60 / 10 % 10) :: digitChar (toff.natAbs / 60 % 10) ::
          ':' :: digitChar (toff.natAbs % 60 / 10 % 10) ::
          digitChar (toff.natAbs % 60 % 10) :: [] := by
        rw [List.dropWhile_cons_of_pos hdigd, (takeWhile_digits ds' hdigrest (by decide) _).2]
      simp [hneg, hdigd, h1, h2, fracNanos_of_spec _ _ hne hlen hval, hok,
        g1, g2, g3, g4, hb23, hb59, e1, e2, e3, e4]
      simp only [Int.abs_eq_natAbs]
      omega
    · have h1 : List.takeWhile digitCh (d :: (ds' ++ '+' ::
          digitChar (toff.natAbs / 60 / 10 % 10) :: digitChar (toff.natAbs / 60 % 10) ::
          ':' :: digitChar (toff.natAbs % 60 / 10 % 10) ::
          digitChar (toff.natAbs % 60 % 10) :: [])) = d :: ds' := by
        rw [List.takeWhile_cons_of_pos hdigd, (takeWhile_digits ds' hdigrest (by decide) _).1]
      have h2 : List.dropWhile digitCh (d :: (ds' ++ '+' ::
          digitChar (toff.natAbs / 60 / 10 % 10) :: digitChar (toff.natAbs / 60 % 10) ::
          ':' :: digitChar (toff.natAbs % 60 / 10 % 10) ::
          digitChar (toff.natAbs % 60 % 10) :: [])) = '+' ::
          digitChar (toff.natAbs / 60 / 10 % 10) :: digitChar (toff.natAbs / 60 % 10) ::
          ':' :: digitChar (toff.natAbs % 60 / 10 % 10) ::
          digitChar (toff.natAbs % 60 % 10) :: [] := by
        rw [List.dropWhile_cons_of_pos hdigd, (takeWhile_digits ds' hdigrest (by decide) _).2]
      simp [hneg, hdigd, h1, h2, fracNanos_of_spec _ _ hne hlen hval, hok,
        g1, g2, g3, g4, hb23, hb59, e1, e2, e3, e4]
      simp only [Int.abs_eq_natAbs]
      omega

theorem stripZeros_padDigits_zero : ∀ k, stripZeros (padDigits k 0) = []
  | 0 => rfl
  | k + 1 => by
      have h0 : (0 : Nat) % 10 = 0 := rfl
      have h1 : (0 : Nat) / 10 = 0 := rfl
      rw [padDigits_split_last, h0, h1, show digitChar 0 = '0' from rfl, stripZeros_append_zero]
      exact stripZeros_padDigits_zero k

/-- The fraction printed by a `.999…` token satisfies the fraction spec of
the strict RFC 3339 parse. -/
theorem fracStr9_spec (k nanos : Nat) (hk : k ≤ 9) (hns : nanos < 10 ^ 9)
    (hdvd : 10 ^ (9 - k) ∣ nanos) :
    (fracStr9 k nanos = [] ∧ nanos = 0) ∨
      (∃ ds, fracStr9 k nanos = '.' :: ds ∧ ds ≠ [] ∧ ds.all digitCh = true ∧
        ds.length ≤ k ∧ digitsToNat ds * 10 ^ (9 - ds.length) = nanos) := by
  obtain ⟨m, hm⟩ := hdvd
  have hmlt : m < 10 ^ k := by
    by_contra hge
    push_neg at hge
    have : 10 ^ (9 - k) * 10 ^ k ≤ 10 ^ (9 - k) * m := Nat.mul_le_mul_left _ hge
    rw [← pow_add] at this
    have h9 : 9 - k + k = 9 := by omega
    rw [h9] at this
    omega
  have hq : nanos / 10 ^ (9 - k) = m := by
    rw [hm]
    exact Nat.mul_div_cancel_left m (Nat.pos_pow_of_pos _ (by norm_num))
  by_cases hm0 : m = 0
  · left
    subst hm0
    constructor
    · rw [fracStr9, hq, stripZeros_padDigits_zero]
      rfl
    · omega
  · right
    obtain ⟨h1, h2, h3, h4⟩ := stripZeros_padDigits k m (Nat.pos_of_ne_zero hm0) hmlt
    refine ⟨stripZeros (padDigits k m), ?_, h1, h2, h3, ?_⟩
    · rw [fracStr9, hq]
      simp [h1]
    · rw [hm]
      have hsplit : 9 - (stripZeros (padDigits k m)).length
          = (k - (stripZeros (padDigits k m)).length) + (9 - k) := by omega
      rw [hsplit, pow_add, ← Nat.mul_assoc, h4, Nat.mul_comm]

/-- The fraction printed by a `.000` token (three digits) satisfies the
fraction spec of the strict RFC 3339 parse. -/
theorem fracStr0_spec (nanos : Nat) (hns : nanos < 10 ^ 9) (hdvd : 10 ^ 6 ∣ nanos) :
    fracStr0 3 nanos = '.' :: padDigits 3 (nanos / 10 ^ 6) ∧
      (padDigits 3 (nanos / 10 ^ 6)).length = 3 ∧
      (padDigits 3 (nanos / 10 ^ 6)).all digitCh = true ∧
      digitsToNat (padDigits 3 (nanos / 10 ^ 6)) * 10 ^ 6 = nanos := by
  obtain ⟨m, hm⟩ := hdvd
  have hq : nanos / 10 ^ 6 = m := by
    rw [hm]
    exact Nat.mul_div_cancel_left m (by norm_num)
  refine ⟨rfl, padDigits_length _ _, padDigits_all_digit _ _, ?_⟩
  rw [hq, digitsToNat_padDigits 3 m (by omega), hm, Nat.mul_comm]

/-! Step lemmas for the generic parse loop. -/

theorem evalChunks_lit (l : Str) (rest : List LayoutChunk) (s : Str) (st : TimeRep) :
    evalChunks (LayoutChunk.lit l :: rest) (l ++ s) st = evalChunks rest s st := by
  rw [evalChunks]
  have h1 : startsWith (l ++ s) l = true := by
    simp [startsWith]
  rw [h1]
  simp [List.drop_left]

theorem evalChunks_lit_fail {c0 : Char} {l : Str} {rest : List LayoutChunk} {c : Char}
    {s : Str} {st : TimeRep} (h : c ≠ c0) :
    evalChunks (LayoutChunk.lit (c0 :: l) :: rest) (c :: s) st = none := by
  rw [evalChunks]
  have h1 : startsWith (c :: s) (c0 :: l) = false := by
    simp [startsWith, List.cons_prefix_cons]
    intro hc
    exact absurd hc (Ne.symm h)
  rw [h1]
  rfl

theorem evalChunks_year4 {rest : List LayoutChunk} {y : Nat} {s : Str}
    {st : TimeRep} (hy : y < 10000) :
    evalChunks (LayoutChunk.year4 :: rest) (padDigits 4 y ++ s) st
      = evalChunks rest s { st with year := y } := by
  rw [evalChunks, getYear4_pad _ hy]

theorem evalChunks_month2 {rest : List LayoutChunk} {n : Nat} {s : Str}
    {st : TimeRep} (hn : n < 100) :
    evalChunks (LayoutChunk.month2 :: rest) (padDigits 2 n ++ s) st
      = evalChunks rest s { st with month := n } := by
  rw [evalChunks, getnum2_pad _ hn]

theorem evalChunks_day2 {rest : List LayoutChunk} {n : Nat} {s : Str}
    {st : TimeRep} (hn : n < 100) :
    evalChunks (LayoutChunk.day2 :: rest) (padDigits 2 n ++ s) st
      = evalChunks rest s { st with day := n } := by
  rw [evalChunks, getnum2_pad _ hn]

theorem evalChunks_hourNum {rest : List LayoutChunk} {n : Nat} {s : Str}
    {st : TimeRep} (hn : n < 100) :
    evalChunks (LayoutChunk.hourNum :: rest) (padDigits 2 n ++ s) st
      = evalChunks rest s { st with hour := n } := by
  rw [evalChunks, getnumFlex_pad _ hn]

theorem evalChunks_minute2 {rest : List LayoutChunk} {n : Nat} {s : Str}
    {st : TimeRep} (hn : n < 100) :
    evalChunks (LayoutChunk.minute2 :: rest) (padDigits 2 n ++ s) st
      = evalChunks rest s { st with minute := n } := by
  rw [evalChunks, getnum2_pad _ hn]

theorem evalChunks_second2_frac {rest : List LayoutChunk} {n : Nat} {s : Str}
    {st : TimeRep} (hn : n < 100) (hfr : hasFracChunk rest = true) :
    evalChunks (LayoutChunk.second2 :: rest) (padDigits 2 n ++ s) st
      = evalChunks rest s { st with second := n } := by
  rw [evalChunks, getnum2_pad _ hn]
  simp [hfr]

theorem evalChunks_second2_end {n : Nat} {st : TimeRep} (hn : n < 100) :
    evalChunks [LayoutChunk.second2] (padDigits 2 n) st = some { st with second := n } := by
  have h0 : padDigits 2 n = padDigits 2 n ++ [] := by simp
  rw [h0, evalChunks, getnum2_pad _ hn]
  rfl

theorem evalChunks_end (st : TimeRep) : evalChunks [] [] st = some st := rfl

theorem evalChunks_lit1 (c : Char) (rest : List LayoutChunk) (s : Str) (st : TimeRep) :
    evalChunks (LayoutChunk.lit [c] :: rest) (c :: s) st = evalChunks rest s st :=
  evalChunks_lit [c] rest s st

theorem evalChunks_lit2_fail {c0 c1 : Char} {l : Str} {rest : List LayoutChunk} {c : Char}
    {s : Str} {st : TimeRep} (h : c ≠ c1) :
    evalChunks (LayoutChunk.lit (c0 :: c1 :: l) :: rest) (c0 :: c :: s) st = none := by
  rw [evalChunks]
  have h1 : startsWith (c0 :: c :: s) (c0 :: c1 :: l) = false := by
    simp [startsWith, List.cons_prefix_cons]
    intro hc
    exact absurd hc (Ne.symm h)
  rw [h1]
  rfl

theorem evalChunks_frac0 {rest : List LayoutChunk} {nanos : Nat} {s : Str} {st : TimeRep}
    (hns : nanos < 10 ^ 9) (hdvd : 10 ^ 6 ∣ nanos) :
    evalChunks (LayoutChunk.frac0 3 :: rest) (fracStr0 3 nanos ++ s) st
      = evalChunks rest s { st with nanos := nanos } := by
  obtain ⟨hfs, hlen, hall, hval⟩ := fracStr0_spec nanos hns hdvd
  rw [hfs, List.cons_append, evalChunks]
  have ht : (padDigits 3 (nanos / 10 ^ 6) ++ s).take 3 = padDigits 3 (nanos / 10 ^ 6) :=
    List.take_left' hlen
  have hd : (padDigits 3 (nanos / 10 ^ 6) ++ s).drop 3 = s := List.drop_left' hlen
  have hlong : (padDigits 3 (nanos / 10 ^ 6) ++ s).length ≥ 3 := by
    rw [List.length_append, padDigits_length]
    omega
  have hcond : (commaOrPeriod '.' && decide ((padDigits 3 (nanos / 10 ^ 6) ++ s).length ≥ 3) &&
      ((padDigits 3 (nanos / 10 ^ 6) ++ s).take 3).all digitCh) = true := by
    rw [ht, hall, decide_eq_true hlong]
    rfl
  rw [hcond]
  simp only [if_true]
  have hne : padDigits 3 (nanos / 10 ^ 6) ≠ [] := by
    intro hcontra
    have := congrArg List.length hcontra
    rw [hlen] at this
    exact absurd this (by norm_num)
  have hval2 : digitsToNat (padDigits 3 (nanos / 10 ^ 6)) *
      10 ^ (9 - (padDigits 3 (nanos / 10 ^ 6)).length) = nanos := by
    rw [hlen]
    exact hval
  have hfn : fracNanos ((padDigits 3 (nanos / 10 ^ 6) ++ s).take 3) = some nanos := by
    rw [ht]
    exact fracNanos_of_spec _ _ hne (by rw [hlen]; norm_num) hval2
  rw [hfn, hd]

theorem evalChunks_frac0_fail_nofrac {rest : List LayoutChunk} {c : Char} {s : Str}
    {st : TimeRep} (hc : commaOrPeriod c = false) :
    evalChunks (LayoutChunk.frac0 3 :: rest) (c :: s) st = none := by
  rw [evalChunks, hc]
  rfl

theorem evalChunks_frac0_fail_short {rest : List LayoutChunk} {ds : Str} {c : Char}
    {s : Str} {st : TimeRep} (hlen : ds.length < 3) (hc : digitCh c = false) :
    evalChunks (LayoutChunk.frac0 3 :: rest) ('.' :: (ds ++ c :: s)) st = none := by
  rw [evalChunks]
  have hall : ((ds ++ c :: s).take 3).all digitCh = false := by
    rw [List.take_append_eq_append_take]
    rw [List.all_append]
    have h1 : (c :: s).take (3 - ds.length) = c :: s.take (2 - ds.length) := by
      have h3 : 3 - ds.length = (2 - ds.length) + 1 := by omega
      rw [h3, List.take_succ_cons]
    rw [h1]
    simp [hc]
  rw [hall]
  simp

theorem evalChunks_frac9_3_skip {rest : List LayoutChunk} {c : Char} {s : Str}
    {st : TimeRep} (hcp : commaOrPeriod c = false) :
    evalChunks (LayoutChunk.frac9 3 :: rest) (c :: s) st = evalChunks rest (c :: s) st := by
  cases s with
  | nil => rfl
  | cons c2 tail => simp [evalChunks, hcp]

theorem evalChunks_frac9_3 {rest : List LayoutChunk} {nanos : Nat} {c : Char} {s : Str}
    {st : TimeRep} (hns : nanos < 10 ^ 9) (hdvd : 10 ^ 6 ∣ nanos) (hdc : digitCh c = false)
    (hcp : commaOrPeriod c = false) (hst : st.nanos = 0) :
    evalChunks (LayoutChunk.frac9 3 :: rest) (fracStr9 3 nanos ++ c :: s) st
      = evalChunks rest (c :: s) { st with nanos := nanos } := by
  have h96 : (9 : Nat) - 3 = 6 := rfl
  rcases fracStr9_spec 3 nanos (by norm_num) hns (h96 ▸ hdvd) with ⟨hfs, hn0⟩ |
    ⟨ds, hfs, hne, hall, hlen, hval⟩
  · subst hn0
    have hrec : ({ st with nanos := (0 : Nat) } : TimeRep) = st := by
      cases st
      simp_all
    rw [hfs, List.nil_append, hrec]
    exact evalChunks_frac9_3_skip hcp
  · obtain ⟨d, ds', rfl⟩ : ∃ d ds', ds = d :: ds' := by
      cases ds with
      | nil => exact absurd rfl hne
      | cons d ds' => exact ⟨d, ds', rfl⟩
    have hall2 := hall
    simp only [List.all_cons, Bool.and_eq_true] at hall2
    obtain ⟨hd, hrest⟩ := hall2
    rw [hfs, List.cons_append, List.cons_append, evalChunks]
    have htw : List.takeWhile digitCh (d :: (ds' ++ c :: s)) = d :: ds' := by
      rw [List.takeWhile_cons_of_pos hd, (takeWhile_digits ds' hrest hdc s).1]
    have hdw : List.dropWhile digitCh (d :: (ds' ++ c :: s)) = c :: s := by
      rw [List.dropWhile_cons_of_pos hd, (takeWhile_digits ds' hrest hdc s).2]
    have hcm : (commaOrPeriod '.' && digitCh d) = true := by
      rw [hd]
      rfl
    simp only [hcm, if_true, htw, hdw,
      fracNanos_of_spec _ _ hne (le_trans hlen (by norm_num)) hval]

theorem evalChunks_tzNumColon {rest : List LayoutChunk} {off : Int} {s : Str}
    {st : TimeRep} (hoff : off.natAbs < 6000) :
    evalChunks (LayoutChunk.tzNumColon :: rest) (tzColonStr off ++ s) st
      = evalChunks rest s { st with offsetMin := off } := by
  rw [evalChunks, parseSignedColonOffset_tz _ hoff]

theorem evalChunks_tzAbbrev_utc (rest : List LayoutChunk) (s : Str) (st : TimeRep) :
    evalChunks (LayoutChunk.tzAbbrev :: rest) (str "UTC" ++ s) st
      = evalChunks rest s { st with offsetMin := 0 } := by
  rw [evalChunks]
  have h1 : startsWith (str "UTC" ++ s) (str "UTC") = true := by
    simp [startsWith]
  rw [h1]
  simp only [if_true]
  have h2 : (str "UTC" ++ s).drop 3 = s := rfl
  rw [h2]

theorem evalChunks_tzAbbrev_fail {rest : List LayoutChunk} {c : Char} {s : Str}
    {st : TimeRep} (hup : upperCh c = false) (hc1 : c ≠ 'U') (hc2 : c ≠ 'C')
    (hc3 : c ≠ 'M') :
    evalChunks (LayoutChunk.tzAbbrev :: rest) (c :: s) st = none := by
  rw [evalChunks]
  have h1 : startsWith (c :: s) (str "UTC") = false := by
    simp [startsWith, str, List.cons_prefix_cons]
    intro hc
    exact absurd hc (Ne.symm hc1)
  rw [h1]
  simp only [Bool.false_eq_true, if_false]
  rw [evalTzAbbrev]
  have h2 : startsWith (c :: s) (str "ChST") = false := by
    simp [startsWith, str, List.cons_prefix_cons]
    intro hc
    exact absurd hc (Ne.symm hc2)
  have h3 : startsWith (c :: s) (str "MeST") = false := by
    simp [startsWith, str, List.cons_prefix_cons]
    intro hc
    exact absurd hc (Ne.symm hc3)
  rw [h2, h3]
  simp only [Bool.false_or, Bool.false_eq_true, if_false]
  have h4 : (((c :: s).take 6).takeWhile upperCh).length = 0 := by
    cases s with
    | nil => simp [List.takeWhile_cons, hup]
    | cons c2 tail => simp [List.take_succ_cons, List.takeWhile_cons, hup]
  rw [h4]
  norm_num

theorem validateTime_ok (st : TimeRep) (h : 1 ≤ st.month ∧ st.month ≤ 12 ∧ 1 ≤ st.day ∧
    st.day ≤ daysIn st.month st.year ∧ st.hour ≤ 23 ∧ st.minute ≤ 59 ∧ st.second ≤ 59) :
    validateTime st = some st := by
  rw [validateTime, if_pos h]

theorem rt3 (t : TimeRep) (hv : validTimeRep t) (h0 : t.offsetMin = 0) (hn0 : t.nanos = 0) :
    parseTimestamp (formatTime fmtSlash t) = some t := by
  obtain ⟨ty, tmo, td, th, tmi, ts, tns, toff⟩ := t
  obtain ⟨hy, hmo1, hmo2, hd1, hd2, hh, hmi, hs, hns⟩ := hv
  simp only at hy hmo1 hmo2 hd1 hd2 hh hmi hs hns h0 hn0
  subst h0
  subst hn0
  have hd31 : td ≤ 31 := le_trans hd2 (daysIn_le _ _)
  have hfmt : formatTime fmtSlash ⟨ty, tmo, td, th, tmi, ts, 0, 0⟩
      = padDigits 4 ty ++ '/' :: (padDigits 2 tmo ++ '/' :: (padDigits 2 td ++ ' ' ::
        (padDigits 2 th ++ ':' :: (padDigits 2 tmi ++ ':' :: padDigits 2 ts)))) := by
    simp [formatTime, fmtSlash, formatChunk, str]
  rw [hfmt]
  -- the strict fast path rejects the slash after the year
  have hstrict : parseRFC3339 (padDigits 4 ty ++ '/' :: (padDigits 2 tmo ++ '/' ::
      (padDigits 2 td ++ ' ' :: (padDigits 2 th ++ ':' :: (padDigits 2 tmi ++ ':' ::
      padDigits 2 ts))))) = none := by
    rw [parseRFC3339, getYear4_pad _ hy]
    rfl
  -- the generic loop of the three ISO layouts rejects the slash
  have hgen : ∀ (rest : List LayoutChunk) (st : TimeRep),
      evalChunks (LayoutChunk.lit (str "-") :: rest)
      ('/' :: (padDigits 2 tmo ++ '/' :: (padDigits 2 td ++ ' ' :: (padDigits 2 th ++ ':' ::
      (padDigits 2 tmi ++ ':' :: padDigits 2 ts))))) st = none := by
    intro rest st
    exact evalChunks_lit_fail (by decide)
  have h1 : evalChunks fmtRFC3339 (padDigits 4 ty ++ '/' :: (padDigits 2 tmo ++ '/' ::
      (padDigits 2 td ++ ' ' :: (padDigits 2 th ++ ':' :: (padDigits 2 tmi ++ ':' ::
      padDigits 2 ts))))) {} = none := by
    rw [fmtRFC3339, evalChunks_year4 hy]
    exact hgen _ _
  have h2 : evalChunks fmtRFC3339Nano (padDigits 4 ty ++ '/' :: (padDigits 2 tmo ++ '/' ::
      (padDigits 2 td ++ ' ' :: (padDigits 2 th ++ ':' :: (padDigits 2 tmi ++ ':' ::
      padDigits 2 ts))))) {} = none := by
    rw [fmtRFC3339Nano, evalChunks_year4 hy]
    exact hgen _ _
  have h3 : evalChunks fmtISOMs (padDigits 4 ty ++ '/' :: (padDigits 2 tmo ++ '/' ::
      (padDigits 2 td ++ ' ' :: (padDigits 2 th ++ ':' :: (padDigits 2 tmi ++ ':' ::
      padDigits 2 ts))))) {} = none := by
    rw [fmtISOMs, evalChunks_year4 hy]
    exact hgen _ _
  have hslash : evalChunks fmtSlash (padDigits 4 ty ++ '/' :: (padDigits 2 tmo ++ '/' ::
      (padDigits 2 td ++ ' ' :: (padDigits 2 th ++ ':' :: (padDigits 2 tmi ++ ':' ::
      padDigits 2 ts))))) {} = some ⟨ty, tmo, td, th, tmi, ts, 0, 0⟩ := by
    rw [fmtSlash, evalChunks_year4 hy]
    rw [show ('/' :: (padDigits 2 tmo ++ '/' :: (padDigits 2 td ++ ' ' :: (padDigits 2 th ++
      ':' :: (padDigits 2 tmi ++ ':' :: padDigits 2 ts))))) = str "/" ++ (padDigits 2 tmo ++
      '/' :: (padDigits 2 td ++ ' ' :: (padDigits 2 th ++ ':' :: (padDigits 2 tmi ++ ':' ::
      padDigits 2 ts)))) from rfl]
    rw [evalChunks_lit, evalChunks_month2 (show tmo < 100 by omega)]
    rw [show ('/' :: (padDigits 2 td ++ ' ' :: (padDigits 2 th ++ ':' :: (padDigits 2 tmi ++
      ':' :: padDigits 2 ts)))) = str "/" ++ (padDigits 2 td ++ ' ' :: (padDigits 2 th ++
      ':' :: (padDigits 2 tmi ++ ':' :: padDigits 2 ts))) from rfl]
    rw [evalChunks_lit, evalChunks_day2 (show td < 100 by omega)]
    rw [show (' ' :: (padDigits 2 th ++ ':' :: (padDigits 2 tmi ++ ':' :: padDigits 2 ts)))
      = str " " ++ (padDigits 2 th ++ ':' :: (padDigits 2 tmi ++ ':' :: padDigits 2 ts))
      from rfl]
    rw [evalChunks_lit, evalChunks_hourNum (show th < 100 by omega)]
    rw [show (':' :: (padDigits 2 tmi ++ ':' :: padDigits 2 ts)) = str ":" ++
      (padDigits 2 tmi ++ ':' :: padDigits 2 ts) from rfl]
    rw [evalChunks_lit, evalChunks_minute2 (show tmi < 100 by omega)]
    rw [show (':' :: padDigits 2 ts) = str ":" ++ padDigits 2 ts from rfl]
    rw [evalChunks_lit, evalChunks_second2_end (show ts < 100 by omega)]
  have hval : validateTime (⟨ty, tmo, td, th, tmi, ts, 0, 0⟩ : TimeRep)
      = some ⟨ty, tmo, td, th, tmi, ts, 0, 0⟩ :=
    validateTime_ok _ ⟨hmo1, hmo2, hd1, hd2, hh, hmi, hs⟩
  simp [parseTimestamp, mattermostFormats, tryFormats, tryLayout, hstrict, h1, h2, h3,
    hslash, hval]

theorem rt0 (t : TimeRep) (hv : validTimeRep t) (hn0 : t.nanos = 0)
    (hofb : t.offsetMin.natAbs < 1440) :
    parseTimestamp (formatTime fmtRFC3339 t) = some t := by
  by_cases h0 : t.offsetMin = 0
  · have hfmt : formatTime fmtRFC3339 t = padDigits 4 t.year ++ '-' ::
        (padDigits 2 t.month ++ '-' :: (padDigits 2 t.day ++ 'T' :: (padDigits 2 t.hour ++
        ':' :: (padDigits 2 t.minute ++ ':' :: (padDigits 2 t.second ++ ['Z']))))) := by
      simp [formatTime, fmtRFC3339, formatChunk, str, h0]
    have hstrict := parseRFC3339_roundtrip_Z t hv h0 [] (Or.inl ⟨rfl, hn0⟩)
    simp only [List.nil_append] at hstrict
    rw [hfmt]
    simp [parseTimestamp, mattermostFormats, tryFormats, tryLayout, hstrict]
  · have hfmt : formatTime fmtRFC3339 t = padDigits 4 t.year ++ '-' ::
        (padDigits 2 t.month ++ '-' :: (padDigits 2 t.day ++ 'T' :: (padDigits 2 t.hour ++
        ':' :: (padDigits 2 t.minute ++ ':' :: (padDigits 2 t.second ++
        tzColonStr t.offsetMin))))) := by
      simp [formatTime, fmtRFC3339, formatChunk, str, h0]
    have hstrict := parseRFC3339_roundtrip_off t hv hofb [] (Or.inl ⟨rfl, hn0⟩)
    simp only [List.nil_append] at hstrict
    rw [hfmt]
    simp [parseTimestamp, mattermostFormats, tryFormats, tryLayout, hstrict]

theorem rt1 (t : TimeRep) (hv : validTimeRep t) (hofb : t.offsetMin.natAbs < 1440) :
    parseTimestamp (formatTime fmtRFC3339Nano t) = some t := by
  have hns : t.nanos < 10 ^ 9 := hv.2.2.2.2.2.2.2.2
  have hfrac := fracStr9_spec 9 t.nanos (le_refl 9) hns (by simp)
  by_cases h0 : t.offsetMin = 0
  · have hfmt : formatTime fmtRFC3339Nano t = padDigits 4 t.year ++ '-' ::
        (padDigits 2 t.month ++ '-' :: (padDigits 2 t.day ++ 'T' :: (padDigits 2 t.hour ++
        ':' :: (padDigits 2 t.minute ++ ':' :: (padDigits 2 t.second ++
        (fracStr9 9 t.nanos ++ ['Z'])))))) := by
      simp [formatTime, fmtRFC3339Nano, formatChunk, str, h0]
    have hstrict := parseRFC3339_roundtrip_Z t hv h0 (fracStr9 9 t.nanos) hfrac
    rw [hfmt]
    simp [parseTimestamp, mattermostFormats, tryFormats, tryLayout, hstrict]
  · have hfmt : formatTime fmtRFC3339Nano t = padDigits 4 t.year ++ '-' ::
        (padDigits 2 t.month ++ '-' :: (padDigits 2 t.day ++ 'T' :: (padDigits 2 t.hour ++
        ':' :: (padDigits 2 t.minute ++ ':' :: (padDigits 2 t.second ++
        (fracStr9 9 t.nanos ++ tzColonStr t.offsetMin)))))) := by
      simp [formatTime, fmtRFC3339Nano, formatChunk, str, h0]
    have hstrict := parseRFC3339_roundtrip_off t hv hofb (fracStr9 9 t.nanos) hfrac
    rw [hfmt]
    simp [parseTimestamp, mattermostFormats, tryFormats, tryLayout, hstrict]

theorem rt2 (t : TimeRep) (hv : validTimeRep t) (h0 : t.offsetMin = 0)
    (hms : msPrec t) :
    parseTimestamp (formatTime fmtISOMs t) = some t := by
  have hns : t.nanos < 10 ^ 9 := hv.2.2.2.2.2.2.2.2
  obtain ⟨hfs, hlen, hall, hval⟩ := fracStr0_spec t.nanos hns hms
  have hne : padDigits 3 (t.nanos / 10 ^ 6) ≠ [] := by
    intro hcontra
    have := congrArg List.length hcontra
    rw [hlen] at this
    exact absurd this (by norm_num)
  have hval2 : digitsToNat (padDigits 3 (t.nanos / 10 ^ 6)) *
      10 ^ (9 - (padDigits 3 (t.nanos / 10 ^ 6)).length) = t.nanos := by
    rw [hlen]
    exact hval
  have hfrac : (fracStr0 3 t.nanos = [] ∧ t.nanos = 0) ∨
      (∃ ds, fracStr0 3 t.nanos = '.' :: ds ∧ ds ≠ [] ∧ ds.all digitCh = true ∧
        ds.length ≤ 9 ∧ digitsToNat ds * 10 ^ (9 - ds.length) = t.nanos) :=
    Or.inr ⟨padDigits 3 (t.nanos / 10 ^ 6), hfs, hne, hall, by rw [hlen]; norm_num, hval2⟩
  have hfmt : formatTime fmtISOMs t = padDigits 4 t.year ++ '-' ::
      (padDigits 2 t.month ++ '-' :: (padDigits 2 t.day ++ 'T' :: (padDigits 2 t.hour ++
      ':' :: (padDigits 2 t.minute ++ ':' :: (padDigits 2 t.second ++
      (fracStr0 3 t.nanos ++ ['Z'])))))) := by
    simp [formatTime, fmtISOMs, formatChunk, str]
  have hstrict := parseRFC3339_roundtrip_Z t hv h0 (fracStr0 3 t.nanos) hfrac
  rw [hfmt]
  simp [parseTimestamp, mattermostFormats, tryFormats, tryLayout, hstrict]

/-- The strict RFC 3339 fast path rejects a space between date and clock. -/
theorem parseRFC3339_fail_space (y mo d : Nat) (hy : y < 10000) (hmo : mo < 100)
    (hd : d < 100) (X : Str) :
    parseRFC3339 (padDigits 4 y ++ '-' :: (padDigits 2 mo ++ '-' ::
      (padDigits 2 d ++ ' ' :: X))) = none := by
  rw [parseRFC3339, getYear4_pad _ hy]
  simp only
  rw [getnum2_pad _ hmo]
  simp only
  rw [getnum2_pad _ hd]
  rfl

/-- The generic loop of a layout expecting `T` between date and clock
rejects a space there. -/
theorem evalChunks_fail_space (rest : List LayoutChunk) (y mo d : Nat) (hy : y < 10000)
    (hmo : mo < 100) (hd : d < 100) (X : Str) (st : TimeRep) :
    evalChunks (LayoutChunk.year4 :: LayoutChunk.lit (str "-") :: LayoutChunk.month2 ::
      LayoutChunk.lit (str "-") :: LayoutChunk.day2 :: LayoutChunk.lit (str "T") :: rest)
      (padDigits 4 y ++ '-' :: (padDigits 2 mo ++ '-' :: (padDigits 2 d ++ ' ' :: X)))
      st = none := by
  rw [evalChunks_year4 hy]
  rw [show ('-' :: (padDigits 2 mo ++ '-' :: (padDigits 2 d ++ ' ' :: X)))
    = str "-" ++ (padDigits 2 mo ++ '-' :: (padDigits 2 d ++ ' ' :: X)) from rfl]
  rw [evalChunks_lit, evalChunks_month2 hmo]
  rw [show ('-' :: (padDigits 2 d ++ ' ' :: X)) = str "-" ++ (padDigits 2 d ++ ' ' :: X)
    from rfl]
  rw [evalChunks_lit, evalChunks_day2 hd]
  exact evalChunks_lit_fail (by decide)

/-- The slash layout rejects a dash after the year. -/
theorem evalChunks_fail_slash (rest : List LayoutChunk) (y : Nat) (hy : y < 10000)
    (X : Str) (st : TimeRep) :
    evalChunks (LayoutChunk.year4 :: LayoutChunk.lit (str "/") :: rest)
      (padDigits 4 y ++ '-' :: X) st = none := by
  rw [evalChunks_year4 hy]
  exact evalChunks_lit_fail (by decide)

/-- Walking the common `2006-01-02 15:04:05` prefix of the six space
layouts, with a fractional token next in the layout. -/
theorem evalChunks_datePrefix (rest : List LayoutChunk) (hfr : hasFracChunk rest = true)
    (ty tmo td th tmi ts : Nat) (hy : ty < 10000) (hmo : tmo < 100) (hd : td < 100)
    (hh : th < 100) (hmi : tmi < 100) (hs : ts < 100) (TAIL : Str) :
    evalChunks (LayoutChunk.year4 :: LayoutChunk.lit (str "-") :: LayoutChunk.month2 ::
      LayoutChunk.lit (str "-") :: LayoutChunk.day2 :: LayoutChunk.lit (str " ") ::
      LayoutChunk.hourNum :: LayoutChunk.lit (str ":") :: LayoutChunk.minute2 ::
      LayoutChunk.lit (str ":") :: LayoutChunk.second2 :: rest)
      (padDigits 4 ty ++ '-' :: (padDigits 2 tmo ++ '-' :: (padDigits 2 td ++ ' ' ::
        (padDigits 2 th ++ ':' :: (padDigits 2 tmi ++ ':' :: (padDigits 2 ts ++ TAIL))))))
      {} = evalChunks rest TAIL ⟨ty, tmo, td, th, tmi, ts, 0, 0⟩ := by
  rw [evalChunks_year4 hy]
  rw [show ('-' :: (padDigits 2 tmo ++ '-' :: (padDigits 2 td ++ ' ' :: (padDigits 2 th ++
    ':' :: (padDigits 2 tmi ++ ':' :: (padDigits 2 ts ++ TAIL))))))
    = str "-" ++ (padDigits 2 tmo ++ '-' :: (padDigits 2 td ++ ' ' :: (padDigits 2 th ++
    ':' :: (padDigits 2 tmi ++ ':' :: (padDigits 2 ts ++ TAIL))))) from rfl]
  rw [evalChunks_lit, evalChunks_month2 hmo]
  rw [show ('-' :: (padDigits 2 td ++ ' ' :: (padDigits 2 th ++ ':' :: (padDigits 2 tmi ++
    ':' :: (padDigits 2 ts ++ TAIL))))) = str "-" ++ (padDigits 2 td ++ ' ' ::
    (padDigits 2 th ++ ':' :: (padDigits 2 tmi ++ ':' :: (padDigits 2 ts ++ TAIL))))
    from rfl]
  rw [evalChunks_lit, evalChunks_day2 hd]
  rw [show (' ' :: (padDigits 2 th ++ ':' :: (padDigits 2 tmi ++ ':' :: (padDigits 2 ts ++
    TAIL)))) = str " " ++ (padDigits 2 th ++ ':' :: (padDigits 2 tmi ++ ':' ::
    (padDigits 2 ts ++ TAIL))) from rfl]
  rw [evalChunks_lit, evalChunks_hourNum hh]
  rw [show (':' :: (padDigits 2 tmi ++ ':' :: (padDigits 2 ts ++ TAIL))) = str ":" ++
    (padDigits 2 tmi ++ ':' :: (padDigits 2 ts ++ TAIL)) from rfl]
  rw [evalChunks_lit, evalChunks_minute2 hmi]
  rw [show (':' :: (padDigits 2 ts ++ TAIL)) = str ":" ++ (padDigits 2 ts ++ TAIL) from rfl]
  rw [evalChunks_lit, evalChunks_second2_frac hs hfr]

theorem rt4 (t : TimeRep) (hv : validTimeRep t) (h0 : t.offsetMin = 0) (hms : msPrec t) :
    parseTimestamp (formatTime fmtSpaceZ t) = some t := by
  obtain ⟨ty, tmo, td, th, tmi, ts, tns, toff⟩ := t
  obtain ⟨hy, hmo1, hmo2, hd1, hd2, hh, hmi, hs, hns⟩ := hv
  simp only at hy hmo1 hmo2 hd1 hd2 hh hmi hs hns h0 hms ⊢
  subst h0
  have hd31 : td ≤ 31 := le_trans hd2 (daysIn_le _ _)
  have hfmt : formatTime fmtSpaceZ ⟨ty, tmo, td, th, tmi, ts, tns, 0⟩
      = padDigits 4 ty ++ '-' :: (padDigits 2 tmo ++ '-' :: (padDigits 2 td ++ ' ' ::
        (padDigits 2 th ++ ':' :: (padDigits 2 tmi ++ ':' :: (padDigits 2 ts ++
        (fracStr0 3 tns ++ [' ', 'Z'])))))) := by
    simp [formatTime, fmtSpaceZ, formatChunk, str]
  rw [hfmt]
  have hstrict := parseRFC3339_fail_space ty tmo td hy (by omega) (by omega)
    (padDigits 2 th ++ ':' :: (padDigits 2 tmi ++ ':' :: (padDigits 2 ts ++
      (fracStr0 3 tns ++ [' ', 'Z']))))
  have h0f : evalChunks fmtRFC3339 (padDigits 4 ty ++ '-' :: (padDigits 2 tmo ++ '-' ::
      (padDigits 2 td ++ ' ' :: (padDigits 2 th ++ ':' :: (padDigits 2 tmi ++ ':' ::
      (padDigits 2 ts ++ (fracStr0 3 tns ++ [' ', 'Z']))))))) {} = none := by
    rw [fmtRFC3339]
    exact evalChunks_fail_space _ _ _ _ hy (by omega) (by omega) _ _
  have h1f : evalChunks fmtRFC3339Nano (padDigits 4 ty ++ '-' :: (padDigits 2 tmo ++ '-' ::
      (padDigits 2 td ++ ' ' :: (padDigits 2 th ++ ':' :: (padDigits 2 tmi ++ ':' ::
      (padDigits 2 ts ++ (fracStr0 3 tns ++ [' ', 'Z']))))))) {} = none := by
    rw [fmtRFC3339Nano]
    exact evalChunks_fail_space _ _ _ _ hy (by omega) (by omega) _ _
  have h2f : evalChunks fmtISOMs (padDigits 4 ty ++ '-' :: (padDigits 2 tmo ++ '-' ::
      (padDigits 2 td ++ ' ' :: (padDigits 2 th ++ ':' :: (padDigits 2 tmi ++ ':' ::
      (padDigits 2 ts ++ (fracStr0 3 tns ++ [' ', 'Z']))))))) {} = none := by
    rw [fmtISOMs]
    exact evalChunks_fail_space _ _ _ _ hy (by omega) (by omega) _ _
  have h3f : evalChunks fmtSlash (padDigits 4 ty ++ '-' :: (padDigits 2 tmo ++ '-' ::
      (padDigits 2 td ++ ' ' :: (padDigits 2 th ++ ':' :: (padDigits 2 tmi ++ ':' ::
      (padDigits 2 ts ++ (fracStr0 3 tns ++ [' ', 'Z']))))))) {} = none := by
    rw [fmtSlash]
    exact evalChunks_fail_slash _ _ hy _ _
  have h4s : evalChunks fmtSpaceZ (padDigits 4 ty ++ '-' :: (padDigits 2 tmo ++ '-' ::
      (padDigits 2 td ++ ' ' :: (padDigits 2 th ++ ':' :: (padDigits 2 tmi ++ ':' ::
      (padDigits 2 ts ++ (fracStr0 3 tns ++ [' ', 'Z']))))))) {}
      = some ⟨ty, tmo, td, th, tmi, ts, tns, 0⟩ := by
    rw [fmtSpaceZ]
    rw [evalChunks_datePrefix [LayoutChunk.frac0 3, LayoutChunk.lit (str " Z")] (by decide)
      ty tmo td th tmi ts hy (by omega) (by omega) (by omega) (by omega) (by omega)]
    rw [evalChunks_frac0 hns hms]
    rw [show ([' ', 'Z'] : Str) = str " Z" ++ [] from rfl]
    rw [evalChunks_lit]
    rfl
  have hvld : validateTime (⟨ty, tmo, td, th, tmi, ts, tns, 0⟩ : TimeRep)
      = some ⟨ty, tmo, td, th, tmi, ts, tns, 0⟩ :=
    validateTime_ok _ ⟨hmo1, hmo2, hd1, hd2, hh, hmi, hs⟩
  simp [parseTimestamp, mattermostFormats, tryFormats, tryLayout, hstrict, h0f, h1f, h2f,
    h3f, h4s, hvld]

theorem rt5 (t : TimeRep) (hv : validTimeRep t) (h0 : t.offsetMin = 0) (hms : msPrec t) :
    parseTimestamp (formatTime fmtSpaceMST t) = some t := by
  obtain ⟨ty, tmo, td, th, tmi, ts, tns, toff⟩ := t
  obtain ⟨hy, hmo1, hmo2, hd1, hd2, hh, hmi, hs, hns⟩ := hv
  simp only at hy hmo1 hmo2 hd1 hd2 hh hmi hs hns h0 hms ⊢
  subst h0
  have hd31 : td ≤ 31 := le_trans hd2 (daysIn_le _ _)
  have hfmt : formatTime fmtSpaceMST ⟨ty, tmo, td, th, tmi, ts, tns, 0⟩
      = padDigits 4 ty ++ '-' :: (padDigits 2 tmo ++ '-' :: (padDigits 2 td ++ ' ' ::
        (padDigits 2 th ++ ':' :: (padDigits 2 tmi ++ ':' :: (padDigits 2 ts ++
        (fracStr0 3 tns ++ [' ', 'U', 'T', 'C'])))))) := by
    simp [formatTime, fmtSpaceMST, formatChunk, str]
  rw [hfmt]
  have hstrict := parseRFC3339_fail_space ty tmo td hy (by omega) (by omega)
    (padDigits 2 th ++ ':' :: (padDigits 2 tmi ++ ':' :: (padDigits 2 ts ++
      (fracStr0 3 tns ++ [' ', 'U', 'T', 'C']))))
  have h0f : evalChunks fmtRFC3339 (padDigits 4 ty ++ '-' :: (padDigits 2 tmo ++ '-' ::
      (padDigits 2 td ++ ' ' :: (padDigits 2 th ++ ':' :: (padDigits 2 tmi ++ ':' ::
      (padDigits 2 ts ++ (fracStr0 3 tns ++ [' ', 'U', 'T', 'C']))))))) {} = none := by
    rw [fmtRFC3339]
    exact evalChunks_fail_space _ _ _ _ hy (by omega) (by omega) _ _
  have h1f : evalChunks fmtRFC3339Nano (padDigits 4 ty ++ '-' :: (padDigits 2 tmo ++ '-' ::
      (padDigits 2 td ++ ' ' :: (padDigits 2 th ++ ':' :: (padDigits 2 tmi ++ ':' ::
      (padDigits 2 ts ++ (fracStr0 3 tns ++ [' ', 'U', 'T', 'C']))))))) {} = none := by
    rw [fmtRFC3339Nano]
    exact evalChunks_fail_space _ _ _ _ hy (by omega) (by omega) _ _
  have h2f : evalChunks fmtISOMs (padDigits 4 ty ++ '-' :: (padDigits 2 tmo ++ '-' ::
      (padDigits 2 td ++ ' ' :: (padDigits 2 th ++ ':' :: (padDigits 2 tmi ++ ':' ::
      (padDigits 2 ts ++ (fracStr0 3 tns ++ [' ', 'U', 'T', 'C']))))))) {} = none := by
    rw [fmtISOMs]
    exact evalChunks_fail_space _ _ _ _ hy (by omega) (by omega) _ _
  have h3f : evalChunks fmtSlash (padDigits 4 ty ++ '-' :: (padDigits 2 tmo ++ '-' ::
      (padDigits 2 td ++ ' ' :: (padDigits 2 th ++ ':' :: (padDigits 2 tmi ++ ':' ::
      (padDigits 2 ts ++ (fracStr0 3 tns ++ [' ', 'U', 'T', 'C']))))))) {} = none := by
    rw [fmtSlash]
    exact evalChunks_fail_slash _ _ hy _ _
  have h4f : evalChunks fmtSpaceZ (padDigits 4 ty ++ '-' :: (padDigits 2 tmo ++ '-' ::
      (padDigits 2 td ++ ' ' :: (padDigits 2 th ++ ':' :: (padDigits 2 tmi ++ ':' ::
      (padDigits 2 ts ++ (fracStr0 3 tns ++ [' ', 'U', 'T', 'C']))))))) {} = none := by
    rw [fmtSpaceZ]
    rw [evalChunks_datePrefix [LayoutChunk.frac0 3, LayoutChunk.lit (str " Z")] (by decide)
      ty tmo td th tmi ts hy (by omega) (by omega) (by omega) (by omega) (by omega)]
    rw [evalChunks_frac0 hns hms]
    rw [show (str " Z") = ' ' :: 'Z' :: [] from rfl]
    exact evalChunks_lit2_fail (by decide)
  have h5s : evalChunks fmtSpaceMST (padDigits 4 ty ++ '-' :: (padDigits 2 tmo ++ '-' ::
      (padDigits 2 td ++ ' ' :: (padDigits 2 th ++ ':' :: (padDigits 2 tmi ++ ':' ::
      (padDigits 2 ts ++ (fracStr0 3 tns ++ [' ', 'U', 'T', 'C']))))))) {}
      = some ⟨ty, tmo, td, th, tmi, ts, tns, 0⟩ := by
    rw [fmtSpaceMST]
    rw [evalChunks_datePrefix [LayoutChunk.frac0 3, LayoutChunk.lit (str " "),
      LayoutChunk.tzAbbrev] (by decide)
      ty tmo td th tmi ts hy (by omega) (by omega) (by omega) (by omega) (by omega)]
    rw [evalChunks_frac0 hns hms]
    rw [show ((str " ") : Str) = [' '] from rfl]
    rw [show ([' ', 'U', 'T', 'C'] : Str) = ' ' :: ['U', 'T', 'C'] from rfl]
    rw [evalChunks_lit1]
    rw [show (['U', 'T', 'C'] : Str) = str "UTC" ++ [] from rfl]
    rw [evalChunks_tzAbbrev_utc]
    rfl
  have hvld : validateTime (⟨ty, tmo, td, th, tmi, ts, tns, 0⟩ : TimeRep)
      = some ⟨ty, tmo, td, th, tmi, ts, tns, 0⟩ :=
    validateTime_ok _ ⟨hmo1, hmo2, hd1, hd2, hh, hmi, hs⟩
  simp [parseTimestamp, mattermostFormats, tryFormats, tryLayout, hstrict, h0f, h1f, h2f,
    h3f, h4f, h5s, hvld]

/-- Round trip of the `.000 -07:00` layout string (also produced by the
literal `+07:00` layout at offset 420). -/
theorem rtSpaceMs (ty tmo td th tmi ts tns : Nat) (toff : Int)
    (hy : ty < 10000) (hmo1 : 1 ≤ tmo) (hmo2 : tmo ≤ 12) (hd1 : 1 ≤ td)
    (hd2 : td ≤ daysIn tmo ty) (hh : th ≤ 23) (hmi : tmi ≤ 59) (hs : ts ≤ 59)
    (hns : tns < 10 ^ 9) (hms : 10 ^ 6 ∣ tns) (hofb : toff.natAbs < 6000) :
    parseTimestamp (padDigits 4 ty ++ '-' :: (padDigits 2 tmo ++ '-' :: (padDigits 2 td ++
      ' ' :: (padDigits 2 th ++ ':' :: (padDigits 2 tmi ++ ':' :: (padDigits 2 ts ++
      (fracStr0 3 tns ++ ' ' :: tzColonStr toff)))))))
      = some ⟨ty, tmo, td, th, tmi, ts, tns, toff⟩ := by
  have hd31 : td ≤ 31 := le_trans hd2 (daysIn_le _ _)
  have hstrict := parseRFC3339_fail_space ty tmo td hy (by omega) (by omega)
    (padDigits 2 th ++ ':' :: (padDigits 2 tmi ++ ':' :: (padDigits 2 ts ++
      (fracStr0 3 tns ++ ' ' :: tzColonStr toff))))
  have h0f : evalChunks fmtRFC3339 (padDigits 4 ty ++ '-' :: (padDigits 2 tmo ++ '-' ::
      (padDigits 2 td ++ ' ' :: (padDigits 2 th ++ ':' :: (padDigits 2 tmi ++ ':' ::
      (padDigits 2 ts ++ (fracStr0 3 tns ++ ' ' :: tzColonStr toff))))))) {} = none := by
    rw [fmtRFC3339]
    exact evalChunks_fail_space _ _ _ _ hy (by omega) (by omega) _ _
  have h1f : evalChunks fmtRFC3339Nano (padDigits 4 ty ++ '-' :: (padDigits 2 tmo ++ '-' ::
      (padDigits 2 td ++ ' ' :: (padDigits 2 th ++ ':' :: (padDigits 2 tmi ++ ':' ::
      (padDigits 2 ts ++ (fracStr0 3 tns ++ ' ' :: tzColonStr toff))))))) {} = none := by
    rw [fmtRFC3339Nano]
    exact evalChunks_fail_space _ _ _ _ hy (by omega) (by omega) _ _
  have h2f : evalChunks fmtISOMs (padDigits 4 ty ++ '-' :: (padDigits 2 tmo ++ '-' ::
      (padDigits 2 td ++ ' ' :: (padDigits 2 th ++ ':' :: (padDigits 2 tmi ++ ':' ::
      (padDigits 2 ts ++ (fracStr0 3 tns ++ ' ' :: tzColonStr toff))))))) {} = none := by
    rw [fmtISOMs]
    exact evalChunks_fail_space _ _ _ _ hy (by omega) (by omega) _ _
  have h3f : evalChunks fmtSlash (padDigits 4 ty ++ '-' :: (padDigits 2 tmo ++ '-' ::
      (padDigits 2 td ++ ' ' :: (padDigits 2 th ++ ':' :: (padDigits 2 tmi ++ ':' ::
      (padDigits 2 ts ++ (fracStr0 3 tns ++ ' ' :: tzColonStr toff))))))) {} = none := by
    rw [fmtSlash]
    exact evalChunks_fail_slash _ _ hy _ _
  have h4f : evalChunks fmtSpaceZ (padDigits 4 ty ++ '-' :: (padDigits 2 tmo ++ '-' ::
      (padDigits 2 td ++ ' ' :: (padDigits 2 th ++ ':' :: (padDigits 2 tmi ++ ':' ::
      (padDigits 2 ts ++ (fracStr0 3 tns ++ ' ' :: tzColonStr toff))))))) {} = none := by
    rw [fmtSpaceZ]
    rw [evalChunks_datePrefix [LayoutChunk.frac0 3, LayoutChunk.lit (str " Z")] (by decide)
      ty tmo td th tmi ts hy (by omega) (by omega) (by omega) (by omega) (by omega)]
    rw [evalChunks_frac0 hns hms]
    rw [tzColonStr_expand]
    rw [show (str " Z") = ' ' :: 'Z' :: [] from rfl]
    exact evalChunks_lit2_fail (by split <;> decide)
  have h5f : evalChunks fmtSpaceMST (padDigits 4 ty ++ '-' :: (padDigits 2 tmo ++ '-' ::
      (padDigits 2 td ++ ' ' :: (padDigits 2 th ++ ':' :: (padDigits 2 tmi ++ ':' ::
      (padDigits 2 ts ++ (fracStr0 3 tns ++ ' ' :: tzColonStr toff))))))) {} = none := by
    rw [fmtSpaceMST]
    rw [evalChunks_datePrefix [LayoutChunk.frac0 3, LayoutChunk.lit (str " "),
      LayoutChunk.tzAbbrev] (by decide)
      ty tmo td th tmi ts hy (by omega) (by omega) (by omega) (by omega) (by omega)]
    rw [evalChunks_frac0 hns hms]
    rw [show ((str " ") : Str) = [' '] from rfl]
    rw [show (' ' :: tzColonStr toff) = ' ' :: tzColonStr toff from rfl]
    rw [evalChunks_lit1]
    rw [tzColonStr_expand]
    exact evalChunks_tzAbbrev_fail (by split <;> decide) (by split <;> decide)
      (by split <;> decide) (by split <;> decide)
  have h6s : evalChunks fmtSpaceNumTZ (padDigits 4 ty ++ '-' :: (padDigits 2 tmo ++ '-' ::
      (padDigits 2 td ++ ' ' :: (padDigits 2 th ++ ':' :: (padDigits 2 tmi ++ ':' ::
      (padDigits 2 ts ++ (fracStr0 3 tns ++ ' ' :: tzColonStr toff))))))) {}
      = some ⟨ty, tmo, td, th, tmi, ts, tns, toff⟩ := by
    rw [fmtSpaceNumTZ]
    rw [evalChunks_datePrefix [LayoutChunk.frac0 3, LayoutChunk.lit (str " "),
      LayoutChunk.tzNumColon] (by decide)
      ty tmo td th tmi ts hy (by omega) (by omega) (by omega) (by omega) (by omega)]
    rw [evalChunks_frac0 hns hms]
    rw [show ((str " ") : Str) = [' '] from rfl]
    rw [evalChunks_lit1]
    rw [show (tzColonStr toff) = tzColonStr toff ++ [] from (List.append_nil _).symm]
    rw [evalChunks_tzNumColon hofb]
    rfl
  have hvld : validateTime (⟨ty, tmo, td, th, tmi, ts, tns, toff⟩ : TimeRep)
      = some ⟨ty, tmo, td, th, tmi, ts, tns, toff⟩ :=
    validateTime_ok _ ⟨hmo1, hmo2, hd1, hd2, hh, hmi, hs⟩
  simp [parseTimestamp, mattermostFormats, tryFormats, tryLayout, hstrict, h0f, h1f, h2f,
    h3f, h4f, h5f, h6s, hvld]

/-- Round trip of the `.999 -07:00` layout string (also produced by the
literal variant at offset 420). -/
theorem rtSpace999 (ty tmo td th tmi ts tns : Nat) (toff : Int)
    (hy : ty < 10000) (hmo1 : 1 ≤ tmo) (hmo2 : tmo ≤ 12) (hd1 : 1 ≤ td)
    (hd2 : td ≤ daysIn tmo ty) (hh : th ≤ 23) (hmi : tmi ≤ 59) (hs : ts ≤ 59)
    (hns : tns < 10 ^ 9) (hms : 10 ^ 6 ∣ tns) (hofb : toff.natAbs < 6000) :
    parseTimestamp (padDigits 4 ty ++ '-' :: (padDigits 2 tmo ++ '-' :: (padDigits 2 td ++
      ' ' :: (padDigits 2 th ++ ':' :: (padDigits 2 tmi ++ ':' :: (padDigits 2 ts ++
      (fracStr9 3 tns ++ ' ' :: tzColonStr toff)))))))
      = some ⟨ty, tmo, td, th, tmi, ts, tns, toff⟩ := by
  have hd31 : td ≤ 31 := le_trans hd2 (daysIn_le _ _)
  rcases fracStr9_spec 3 tns (by norm_num) hns hms with ⟨hfs, hn0⟩ |
    ⟨ds, hfs, hne, hall, hlen3, hval⟩
  · -- no fractional digits printed
    subst hn0
    have hstrict := parseRFC3339_fail_space ty tmo td hy (by omega) (by omega)
      (padDigits 2 th ++ ':' :: (padDigits 2 tmi ++ ':' :: (padDigits 2 ts ++
        (fracStr9 3 0 ++ ' ' :: tzColonStr toff))))
    have h0f : evalChunks fmtRFC3339 (padDigits 4 ty ++ '-' :: (padDigits 2 tmo ++ '-' ::
        (padDigits 2 td ++ ' ' :: (padDigits 2 th ++ ':' :: (padDigits 2 tmi ++ ':' ::
        (padDigits 2 ts ++ (fracStr9 3 0 ++ ' ' :: tzColonStr toff))))))) {} = none := by
      rw [fmtRFC3339]
      exact evalChunks_fail_space _ _ _ _ hy (by omega) (by omega) _ _
    have h1f : evalChunks fmtRFC3339Nano (padDigits 4 ty ++ '-' :: (padDigits 2 tmo ++
        '-' :: (padDigits 2 td ++ ' ' :: (padDigits 2 th ++ ':' :: (padDigits 2 tmi ++
        ':' :: (padDigits 2 ts ++ (fracStr9 3 0 ++ ' ' :: tzColonStr toff))))))) {}
        = none := by
      rw [fmtRFC3339Nano]
      exact evalChunks_fail_space _ _ _ _ hy (by omega) (by omega) _ _
    have h2f : evalChunks fmtISOMs (padDigits 4 ty ++ '-' :: (padDigits 2 tmo ++ '-' ::
        (padDigits 2 td ++ ' ' :: (padDigits 2 th ++ ':' :: (padDigits 2 tmi ++ ':' ::
        (padDigits 2 ts ++ (fracStr9 3 0 ++ ' ' :: tzColonStr toff))))))) {} = none := by
      rw [fmtISOMs]
      exact evalChunks_fail_space _ _ _ _ hy (by omega) (by omega) _ _
    have h3f : evalChunks fmtSlash (padDigits 4 ty ++ '-' :: (padDigits 2 tmo ++ '-' ::
        (padDigits 2 td ++ ' ' :: (padDigits 2 th ++ ':' :: (padDigits 2 tmi ++ ':' ::
        (padDigits 2 ts ++ (fracStr9 3 0 ++ ' ' :: tzColonStr toff))))))) {} = none := by
      rw [fmtSlash]
      exact evalChunks_fail_slash _ _ hy _ _
    have hfr0 : ∀ rest : List LayoutChunk, ∀ st : TimeRep,
        evalChunks (LayoutChunk.frac0 3 :: rest)
          (fracStr9 3 0 ++ ' ' :: tzColonStr toff) st = none := by
      intro rest st
      rw [hfs, List.nil_append]
      exact evalChunks_frac0_fail_nofrac (by decide)
    have h4f : evalChunks fmtSpaceZ (padDigits 4 ty ++ '-' :: (padDigits 2 tmo ++ '-' ::
        (padDigits 2 td ++ ' ' :: (padDigits 2 th ++ ':' :: (padDigits 2 tmi ++ ':' ::
        (padDigits 2 ts ++ (fracStr9 3 0 ++ ' ' :: tzColonStr toff))))))) {} = none := by
      rw [fmtSpaceZ]
      rw [evalChunks_datePrefix [LayoutChunk.frac0 3, LayoutChunk.lit (str " Z")]
        (by decide) ty tmo td th tmi ts hy (by omega) (by omega) (by omega) (by omega)
        (by omega)]
      exact hfr0 _ _
    have h5f : evalChunks fmtSpaceMST (padDigits 4 ty ++ '-' :: (padDigits 2 tmo ++ '-' ::
        (padDigits 2 td ++ ' ' :: (padDigits 2 th ++ ':' :: (padDigits 2 tmi ++ ':' ::
        (padDigits 2 ts ++ (fracStr9 3 0 ++ ' ' :: tzColonStr toff))))))) {} = none := by
      rw [fmtSpaceMST]
      rw [evalChunks_datePrefix [LayoutChunk.frac0 3, LayoutChunk.lit (str " "),
        LayoutChunk.tzAbbrev] (by decide) ty tmo td th tmi ts hy (by omega) (by omega)
        (by omega) (by omega) (by omega)]
      exact hfr0 _ _
    have h6f : evalChunks fmtSpaceNumTZ (padDigits 4 ty ++ '-' :: (padDigits 2 tmo ++
        '-' :: (padDigits 2 td ++ ' ' :: (padDigits 2 th ++ ':' :: (padDigits 2 tmi ++
        ':' :: (padDigits 2 ts ++ (fracStr9 3 0 ++ ' ' :: tzColonStr toff))))))) {}
        = none := by
      rw [fmtSpaceNumTZ]
      rw [evalChunks_datePrefix [LayoutChunk.frac0 3, LayoutChunk.lit (str " "),
        LayoutChunk.tzNumColon] (by decide) ty tmo td th tmi ts hy (by omega) (by omega)
        (by omega) (by omega) (by omega)]
      exact hfr0 _ _
    have h7f : evalChunks fmtSpacePlusLit (padDigits 4 ty ++ '-' :: (padDigits 2 tmo ++
        '-' :: (padDigits 2 td ++ ' ' :: (padDigits 2 th ++ ':' :: (padDigits 2 tmi ++
        ':' :: (padDigits 2 ts ++ (fracStr9 3 0 ++ ' ' :: tzColonStr toff))))))) {}
        = none := by
      rw [fmtSpacePlusLit]
      rw [evalChunks_datePrefix [LayoutChunk.frac0 3, LayoutChunk.lit (str " +07:00")]
        (by decide) ty tmo td th tmi ts hy (by omega) (by omega) (by omega) (by omega)
        (by omega)]
      exact hfr0 _ _
    have h8s : evalChunks fmtSpace999NumTZ (padDigits 4 ty ++ '-' :: (padDigits 2 tmo ++
        '-' :: (padDigits 2 td ++ ' ' :: (padDigits 2 th ++ ':' :: (padDigits 2 tmi ++
        ':' :: (padDigits 2 ts ++ (fracStr9 3 0 ++ ' ' :: tzColonStr toff))))))) {}
        = some ⟨ty, tmo, td, th, tmi, ts, 0, toff⟩ := by
      rw [fmtSpace999NumTZ]
      rw [evalChunks_datePrefix [LayoutChunk.frac9 3, LayoutChunk.lit (str " "),
        LayoutChunk.tzNumColon] (by decide) ty tmo td th tmi ts hy (by omega) (by omega)
        (by omega) (by omega) (by omega)]
      rw [hfs, List.nil_append, evalChunks_frac9_3_skip (by decide)]
      rw [show ((str " ") : Str) = [' '] from rfl]
      rw [evalChunks_lit1]
      rw [show (tzColonStr toff) = tzColonStr toff ++ [] from (List.append_nil _).symm]
      rw [evalChunks_tzNumColon hofb]
      rfl
    have hvld : validateTime (⟨ty, tmo, td, th, tmi, ts, 0, toff⟩ : TimeRep)
        = some ⟨ty, tmo, td, th, tmi, ts, 0, toff⟩ :=
      validateTime_ok _ ⟨hmo1, hmo2, hd1, hd2, hh, hmi, hs⟩
    simp [parseTimestamp, mattermostFormats, tryFormats, tryLayout, hstrict, h0f, h1f,
      h2f, h3f, h4f, h5f, h6f, h7f, h8s, hvld]
  · by_cases hlen3' : ds.length = 3
    · -- three digits printed: the `.000 -07:00` layout already recovers it
      have hds0 : ds = stripZeros (padDigits 3 (tns / 10 ^ (9 - 3))) := by
        rw [fracStr9] at hfs
        by_cases hnil : stripZeros (padDigits 3 (tns / 10 ^ (9 - 3))) = []
        · rw [if_pos hnil] at hfs
          exact absurd hfs (by simp)
        · rw [if_neg hnil] at hfs
          injection hfs with h1 h2
          exact h2.symm
      have hpad : stripZeros (padDigits 3 (tns / 10 ^ (9 - 3)))
          = padDigits 3 (tns / 10 ^ (9 - 3)) := by
        rw [stripZeros]
        have hlenr : ((padDigits 3 (tns / 10 ^ (9 - 3))).reverse.dropWhile
            (· = '0')).length = (padDigits 3 (tns / 10 ^ (9 - 3))).reverse.length := by
          have h1 : ((padDigits 3 (tns / 10 ^ (9 - 3))).reverse.dropWhile
              (· = '0')).reverse.length = 3 := by
            rw [← stripZeros, ← hds0, hlen3']
          rw [List.length_reverse] at h1 ⊢
          rw [h1, padDigits_length]
        rw [List.IsSuffix.eq_of_length (List.dropWhile_suffix _) hlenr,
          List.reverse_reverse]
      have hEq : fracStr9 3 tns = fracStr0 3 tns := by
        rw [hfs, hds0, hpad]
        rfl
      rw [hEq]
      exact rtSpaceMs ty tmo td th tmi ts tns toff hy hmo1 hmo2 hd1 hd2 hh hmi hs hns
        hms hofb
    · -- one or two digits printed: every `.000` layout rejects the string
      have hlt : ds.length < 3 := lt_of_le_of_ne hlen3 hlen3'
      have hstrict := parseRFC3339_fail_space ty tmo td hy (by omega) (by omega)
        (padDigits 2 th ++ ':' :: (padDigits 2 tmi ++ ':' :: (padDigits 2 ts ++
          (fracStr9 3 tns ++ ' ' :: tzColonStr toff))))
      have h0f : evalChunks fmtRFC3339 (padDigits 4 ty ++ '-' :: (padDigits 2 tmo ++
          '-' :: (padDigits 2 td ++ ' ' :: (padDigits 2 th ++ ':' :: (padDigits 2 tmi ++
          ':' :: (padDigits 2 ts ++ (fracStr9 3 tns ++ ' ' :: tzColonStr toff))))))) {}
          = none := by
        rw [fmtRFC3339]
        exact evalChunks_fail_space _ _ _ _ hy (by omega) (by omega) _ _
      have h1f : evalChunks fmtRFC3339Nano (padDigits 4 ty ++ '-' :: (padDigits 2 tmo ++
          '-' :: (padDigits 2 td ++ ' ' :: (padDigits 2 th ++ ':' :: (padDigits 2 tmi ++
          ':' :: (padDigits 2 ts ++ (fracStr9 3 tns ++ ' ' :: tzColonStr toff))))))) {}
          = none := by
        rw [fmtRFC3339Nano]
        exact evalChunks_fail_space _ _ _ _ hy (by omega) (by omega) _ _
      have h2f : evalChunks fmtISOMs (padDigits 4 ty ++ '-' :: (padDigits 2 tmo ++ '-' ::
          (padDigits 2 td ++ ' ' :: (padDigits 2 th ++ ':' :: (padDigits 2 tmi ++ ':' ::
          (padDigits 2 ts ++ (fracStr9 3 tns ++ ' ' :: tzColonStr toff))))))) {}
          = none := by
        rw [fmtISOMs]
        exact evalChunks_fail_space _ _ _ _ hy (by omega) (by omega) _ _
      have h3f : evalChunks fmtSlash (padDigits 4 ty ++ '-' :: (padDigits 2 tmo ++ '-' ::
          (padDigits 2 td ++ ' ' :: (padDigits 2 th ++ ':' :: (padDigits 2 tmi ++ ':' ::
          (padDigits 2 ts ++ (fracStr9 3 tns ++ ' ' :: tzColonStr toff))))))) {}
          = none := by
        rw [fmtSlash]
        exact evalChunks_fail_slash _ _ hy _ _
      have hfr0 : ∀ rest : List LayoutChunk, ∀ st : TimeRep,
          evalChunks (LayoutChunk.frac0 3 :: rest)
            (fracStr9 3 tns ++ ' ' :: tzColonStr toff) st = none := by
        intro rest st
        rw [hfs, List.cons_append]
        exact evalChunks_frac0_fail_short hlt (by decide)
      have h4f : evalChunks fmtSpaceZ (padDigits 4 ty ++ '-' :: (padDigits 2 tmo ++
          '-' :: (padDigits 2 td ++ ' ' :: (padDigits 2 th ++ ':' :: (padDigits 2 tmi ++
          ':' :: (padDigits 2 ts ++ (fracStr9 3 tns ++ ' ' :: tzColonStr toff))))))) {}
          = none := by
        rw [fmtSpaceZ]
        rw [evalChunks_datePrefix [LayoutChunk.frac0 3, LayoutChunk.lit (str " Z")]
          (by decide) ty tmo td th tmi ts hy (by omega) (by omega) (by omega) (by omega)
          (by omega)]
        exact hfr0 _ _
      have h5f : evalChunks fmtSpaceMST (padDigits 4 ty ++ '-' :: (padDigits 2 tmo ++
          '-' :: (padDigits 2 td ++ ' ' :: (padDigits 2 th ++ ':' :: (padDigits 2 tmi ++
          ':' :: (padDigits 2 ts ++ (fracStr9 3 tns ++ ' ' :: tzColonStr toff))))))) {}
          = none := by
        rw [fmtSpaceMST]
        rw [evalChunks_datePrefix [LayoutChunk.frac0 3, LayoutChunk.lit (str " "),
          LayoutChunk.tzAbbrev] (by decide) ty tmo td th tmi ts hy (by omega) (by omega)
          (by omega) (by omega) (by omega)]
        exact hfr0 _ _
      have h6f : evalChunks fmtSpaceNumTZ (padDigits 4 ty ++ '-' :: (padDigits 2 tmo ++
          '-' :: (padDigits 2 td ++ ' ' :: (padDigits 2 th ++ ':' :: (padDigits 2 tmi ++
          ':' :: (padDigits 2 ts ++ (fracStr9 3 tns ++ ' ' :: tzColonStr toff))))))) {}
          = none := by
        rw [fmtSpaceNumTZ]
        rw [evalChunks_datePrefix [LayoutChunk.frac0 3, LayoutChunk.lit (str " "),
          LayoutChunk.tzNumColon] (by decide) ty tmo td th tmi ts hy (by omega) (by omega)
          (by omega) (by omega) (by omega)]
        exact hfr0 _ _
      have h7f : evalChunks fmtSpacePlusLit (padDigits 4 ty ++ '-' :: (padDigits 2 tmo ++
          '-' :: (padDigits 2 td ++ ' ' :: (padDigits 2 th ++ ':' :: (padDigits 2 tmi ++
          ':' :: (padDigits 2 ts ++ (fracStr9 3 tns ++ ' ' :: tzColonStr toff))))))) {}
          = none := by
        rw [fmtSpacePlusLit]
        rw [evalChunks_datePrefix [LayoutChunk.frac0 3, LayoutChunk.lit (str " +07:00")]
          (by decide) ty tmo td th tmi ts hy (by omega) (by omega) (by omega) (by omega)
          (by omega)]
        exact hfr0 _ _
      have h8s : evalChunks fmtSpace999NumTZ (padDigits 4 ty ++ '-' ::
          (padDigits 2 tmo ++ '-' :: (padDigits 2 td ++ ' ' :: (padDigits 2 th ++ ':' ::
          (padDigits 2 tmi ++ ':' :: (padDigits 2 ts ++ (fracStr9 3 tns ++ ' ' ::
          tzColonStr toff))))))) {} = some ⟨ty, tmo, td, th, tmi, ts, tns, toff⟩ := by
        rw [fmtSpace999NumTZ]
        rw [evalChunks_datePrefix [LayoutChunk.frac9 3, LayoutChunk.lit (str " "),
          LayoutChunk.tzNumColon] (by decide) ty tmo td th tmi ts hy (by omega) (by omega)
          (by omega) (by omega) (by omega)]
        rw [evalChunks_frac9_3 hns hms (by decide) (by decide) rfl]
        rw [show ((str " ") : Str) = [' '] from rfl]
        rw [evalChunks_lit1]
        rw [show (tzColonStr toff) = tzColonStr toff ++ [] from (List.append_nil _).symm]
        rw [evalChunks_tzNumColon hofb]
        rfl
      have hvld : validateTime (⟨ty, tmo, td, th, tmi, ts, tns, toff⟩ : TimeRep)
          = some ⟨ty, tmo, td, th, tmi, ts, tns, toff⟩ :=
        validateTime_ok _ ⟨hmo1, hmo2, hd1, hd2, hh, hmi, hs⟩
      simp [parseTimestamp, mattermostFormats, tryFormats, tryLayout, hstrict, h0f, h1f,
        h2f, h3f, h4f, h5f, h6f, h7f, h8s, hvld]

theorem rt6 (t : TimeRep) (hv : validTimeRep t) (hofb : t.offsetMin.natAbs < 6000)
    (hms : msPrec t) :
    parseTimestamp (formatTime fmtSpaceNumTZ t) = some t := by
  obtain ⟨ty, tmo, td, th, tmi, ts, tns, toff⟩ := t
  obtain ⟨hy, hmo1, hmo2, hd1, hd2, hh, hmi, hs, hns⟩ := hv
  simp only at hy hmo1 hmo2 hd1 hd2 hh hmi hs hns hofb hms ⊢
  have hfmt : formatTime fmtSpaceNumTZ ⟨ty, tmo, td, th, tmi, ts, tns, toff⟩
      = padDigits 4 ty ++ '-' :: (padDigits 2 tmo ++ '-' :: (padDigits 2 td ++ ' ' ::
        (padDigits 2 th ++ ':' :: (padDigits 2 tmi ++ ':' :: (padDigits 2 ts ++
        (fracStr0 3 tns ++ ' ' :: tzColonStr toff)))))) := by
    simp [formatTime, fmtSpaceNumTZ, formatChunk, str]
  rw [hfmt]
  exact rtSpaceMs ty tmo td th tmi ts tns toff hy hmo1 hmo2 hd1 hd2 hh hmi hs hns hms hofb

theorem rt7 (t : TimeRep) (hv : validTimeRep t) (h420 : t.offsetMin = 420)
    (hms : msPrec t) :
    parseTimestamp (formatTime fmtSpacePlusLit t) = some t := by
  obtain ⟨ty, tmo, td, th, tmi, ts, tns, toff⟩ := t
  obtain ⟨hy, hmo1, hmo2, hd1, hd2, hh, hmi, hs, hns⟩ := hv
  simp only at hy hmo1 hmo2 hd1 hd2 hh hmi hs hns h420 hms ⊢
  subst h420
  have hfmt : formatTime fmtSpacePlusLit ⟨ty, tmo, td, th, tmi, ts, tns, 420⟩
      = padDigits 4 ty ++ '-' :: (padDigits 2 tmo ++ '-' :: (padDigits 2 td ++ ' ' ::
        (padDigits 2 th ++ ':' :: (padDigits 2 tmi ++ ':' :: (padDigits 2 ts ++
        (fracStr0 3 tns ++ [' ', '+', '0', '7', ':', '0', '0'])))))) := by
    simp [formatTime, fmtSpacePlusLit, formatChunk, str]
  have htz : (' ' :: tzColonStr (420 : Int)) = [' ', '+', '0', '7', ':', '0', '0'] := by
    decide
  rw [hfmt, ← htz]
  exact rtSpaceMs ty tmo td th tmi ts tns 420 hy hmo1 hmo2 hd1 hd2 hh hmi hs hns hms
    (by decide)

theorem rt8 (t : TimeRep) (hv : validTimeRep t) (hofb : t.offsetMin.natAbs < 6000)
    (hms : msPrec t) :
    parseTimestamp (formatTime fmtSpace999NumTZ t) = some t := by
  obtain ⟨ty, tmo, td, th, tmi, ts, tns, toff⟩ := t
  obtain ⟨hy, hmo1, hmo2, hd1, hd2, hh, hmi, hs, hns⟩ := hv
  simp only at hy hmo1 hmo2 hd1 hd2 hh hmi hs hns hofb hms ⊢
  have hfmt : formatTime fmtSpace999NumTZ ⟨ty, tmo, td, th, tmi, ts, tns, toff⟩
      = padDigits 4 ty ++ '-' :: (padDigits 2 tmo ++ '-' :: (padDigits 2 td ++ ' ' ::
        (padDigits 2 th ++ ':' :: (padDigits 2 tmi ++ ':' :: (padDigits 2 ts ++
        (fracStr9 3 tns ++ ' ' :: tzColonStr toff)))))) := by
    simp [formatTime, fmtSpace999NumTZ, formatChunk, str]
  rw [hfmt]
  exact rtSpace999 ty tmo td th tmi ts tns toff hy hmo1 hmo2 hd1 hd2 hh hmi hs hns hms hofb

theorem rt9 (t : TimeRep) (hv : validTimeRep t) (h420 : t.offsetMin = 420)
    (hms : msPrec t) :
    parseTimestamp (formatTime fmtSpace999PlusLit t) = some t := by
  obtain ⟨ty, tmo, td, th, tmi, ts, tns, toff⟩ := t
  obtain ⟨hy, hmo1, hmo2, hd1, hd2, hh, hmi, hs, hns⟩ := hv
  simp only at hy hmo1 hmo2 hd1 hd2 hh hmi hs hns h420 hms ⊢
  subst h420
  have hfmt : formatTime fmtSpace999PlusLit ⟨ty, tmo, td, th, tmi, ts, tns, 420⟩
      = padDigits 4 ty ++ '-' :: (padDigits 2 tmo ++ '-' :: (padDigits 2 td ++ ' ' ::
        (padDigits 2 th ++ ':' :: (padDigits 2 tmi ++ ':' :: (padDigits 2 ts ++
        (fracStr9 3 tns ++ [' ', '+', '0', '7', ':', '0', '0'])))))) := by
    simp [formatTime, fmtSpace999PlusLit, formatChunk, str]
  have htz : (' ' :: tzColonStr (420 : Int)) = [' ', '+', '0', '7', ':', '0', '0'] := by
    decide
  rw [hfmt, ← htz]
  exact rtSpace999 ty tmo td th tmi ts tns 420 hy hmo1 hmo2 hd1 hd2 hh hmi hs hns hms
    (by decide)

/-- C9 (amended): for every layout of the supported list and every valid
instant representable in that layout (per `layoutRep`), formatting the
instant in that layout and re-parsing with `parseTimestamp` recovers the
instant exactly. -/
theorem timestamp_roundtrip_representable (t : TimeRep) (hv : validTimeRep t)
    (k : Nat) (hk : k < 10) (hrep : layoutRep k t) :
    parseTimestamp (formatTime (mattermostFormats.getD k (false, [])).2 t) = some t := by
  interval_cases k
  · exact rt0 t hv hrep.1 hrep.2
  · exact rt1 t hv hrep
  · exact rt2 t hv hrep.1 hrep.2
  · exact rt3 t hv hrep.1 hrep.2
  · exact rt4 t hv hrep.1 hrep.2
  · exact rt5 t hv hrep.1 hrep.2
  · exact rt6 t hv hrep.1 hrep.2
  · exact rt7 t hv hrep.1 hrep.2
  · exact rt8 t hv hrep.1 hrep.2
  · exact rt9 t hv hrep.1 hrep.2

/-- C9 amended-theorem witness: the `2006-01-02 15:04:05.000 Z` layout at
the example instant. -/
theorem timestamp_roundtrip_representable_witness :
    (validTimeRep exTime ∧ 4 < 10 ∧ layoutRep 4 exTime)
      ∧ parseTimestamp (formatTime (mattermostFormats.getD 4 (false, [])).2 exTime)
          = some exTime :=
  ⟨⟨by unfold validTimeRep; decide, by decide, by unfold layoutRep msPrec; decide⟩,
    timestamp_roundtrip_representable exTime (by unfold validTimeRep; decide) 4
      (by decide) (by unfold layoutRep msPrec; decide)⟩

end Lamp
